import Mathlib

/-!
# arch256: a shallow embedding of the two emulators

`src/emulator.c` (16-bit words) is embedded in namespace `Emu16`,
`src/emulator8.c` (8-bit words) in namespace `Emu8`.

Conventions of the embedding:

* a machine word (`uint16_t`, `uint8_t`) is a `Nat`; every assignment whose
  right-hand side can leave the word range is reduced `% WORD` explicitly
  (`pc++`, the sum of `OP_ADD`);
* the heap buffer `cpu->memory` is a function `Nat → Nat` together with its
  allocated size `MEMSIZE`; an access at an index `≥ MEMSIZE` is undefined in
  C and makes the step return `none`;
* `reg_in` is a three-slot array, a function `Nat → Nat` whose writes are
  checked against the array size;
* the bytes `putchar` sends to standard output are collected, oldest first,
  in the extra field `stdout`;
* the bit-fields of the `Instruction` union are laid out as its own comment and
  the `IBIT_*` constants say: first declared field in the least significant
  bits.
-/

/-- A zero-filled memory holding the words of `img` from address 0 on. -/
def imageOf (img : List Nat) : Nat → Nat := fun a => img.getD a 0

namespace Emu16

/-- Number of values of `typedef uint16_t word`. -/
def WORD : Nat := 65536

def ZERO_PAGE_SIZE : Nat := 1 <<< 8
def MEMSIZE : Nat := (1 <<< 16) - ZERO_PAGE_SIZE
def IBIT_READADDR1 : Nat := 1 <<< 8
def IBIT_READADDR0 : Nat := 1 <<< 9
def IBIT_WRITEADDR : Nat := 1 <<< 10
def IOFFSET_LEN : Nat := 12

/-- The union `Instruction`: the raw word `iword`, read through the bit-fields
below (`__LL _DSS IIII IIII`). -/
structure Instruction where
  iword : Nat

/-- Bit-field `byte operation: 8`, bits 0..7. -/
def Instruction.operation (ix : Instruction) : Nat := ix.iword % 256
/-- Bit-field `bool read_addr1: 1`, bit 8. -/
def Instruction.read_addr1 (ix : Instruction) : Bool := decide (ix.iword / 256 % 2 = 1)
/-- Bit-field `bool read_addr0: 1`, bit 9. -/
def Instruction.read_addr0 (ix : Instruction) : Bool := decide (ix.iword / 512 % 2 = 1)
/-- Bit-field `byte write_addr: 1`, bit 10. -/
def Instruction.write_addr (ix : Instruction) : Nat := ix.iword / 1024 % 2
/-- Bit-field `byte argc: 2`, bits 12..13 (bit 11 is `_pad0`, bits 14..15 `_pad1`). -/
def Instruction.argc (ix : Instruction) : Nat := ix.iword / 4096 % 4

def OP_NONE : Nat := 0
def OP_COPY : Nat := 1
def OP_DEREF : Nat := 2
def OP_ADD : Nat := 3
def OP_JUMP_IF_ZERO : Nat := 4
def OP_POKE : Nat := 5
def OP_HALT : Nat := 6

/-- The struct `CPU`, with the output stream added as `stdout`. -/
structure CPU where
  pc : Nat
  reg_in : Nat → Nat
  reg_out : Nat
  zeropage : Nat → Nat
  memory : Nat → Nat
  halted : Bool
  stdout : List Nat

/-- `init_cpu`: everything zero (`calloc`), not halted, nothing printed. -/
def init_cpu : CPU :=
  { pc := 0, reg_in := fun _ => 0, reg_out := 0, zeropage := fun _ => 0,
    memory := fun _ => 0, halted := false, stdout := [] }

/-- Read `cpu->memory[addr]`. -/
def load (cpu : CPU) (addr : Nat) : Option Nat :=
  if addr < MEMSIZE then some (cpu.memory addr) else none

/-- Write `cpu->memory[addr] = v`. -/
def store (cpu : CPU) (addr v : Nat) : Option CPU :=
  if addr < MEMSIZE then some { cpu with memory := Function.update cpu.memory addr v } else none

/-- The expression `cpu->memory[cpu->pc++]`: the word read and the CPU with `pc` advanced. -/
def fetch (cpu : CPU) : Option (Nat × CPU) :=
  (load cpu cpu.pc).map fun w => (w, { cpu with pc := (cpu.pc + 1) % WORD })

/-- Write `cpu->reg_in[i] = v` (the array has three slots). -/
def set_reg (cpu : CPU) (i v : Nat) : Option CPU :=
  if i < 3 then some { cpu with reg_in := Function.update cpu.reg_in i v } else none

/-- The loop `for (; i<ix.argc; ++i) cpu->reg_in[i] = cpu->memory[cpu->pc++];`
with `n` iterations left to run. -/
def fetch_args : Nat → Nat → CPU → Option CPU
  | 0, _, cpu => some cpu
  | n + 1, i, cpu =>
    (fetch cpu).bind fun r => (set_reg r.2 i r.1).bind fun cpu1 => fetch_args n (i + 1) cpu1

/-- Lines 71-80 of `step_cpu`: opcode word, write address (0 stands for the
uninitialised local when the flag is clear), argument words. -/
def fetch_operands (cpu : CPU) : Option (Instruction × Nat × CPU) :=
  (fetch cpu).bind fun r0 =>
    let ix : Instruction := ⟨r0.1⟩
    (if ix.write_addr = 1 then fetch r0.2 else some (0, r0.2)).bind fun r1 =>
      (fetch_args ix.argc 0 r1.2).map fun cpu2 => (ix, r1.1, cpu2)

/-- One iteration of the loop of lines 82-89. -/
def deref (ix : Instruction) (cpu : CPU) (i : Nat) : Option CPU :=
  let memflag := if i = 0 then ix.read_addr0 else ix.read_addr1
  if memflag then
    (load cpu (cpu.reg_in i)).bind fun v => set_reg cpu i v
  else some cpu

/-- The loop of lines 82-89, `i = 0, 1`. -/
def resolve (ix : Instruction) (cpu : CPU) : Option CPU :=
  (deref ix cpu 0).bind fun cpu1 => deref ix cpu1 1

/-- The `switch (ix.operation)` of lines 90-97. -/
def execute (ix : Instruction) (cpu : CPU) : CPU :=
  if ix.operation = OP_NONE then cpu
  else if ix.operation = OP_COPY then { cpu with reg_out := cpu.reg_in 0 }
  else if ix.operation = OP_ADD then { cpu with reg_out := (cpu.reg_in 0 + cpu.reg_in 1) % WORD }
  else if ix.operation = OP_JUMP_IF_ZERO then
    (if cpu.reg_in 1 = 0 then { cpu with pc := cpu.reg_in 0 } else cpu)
  else if ix.operation = OP_POKE then { cpu with stdout := cpu.stdout ++ [cpu.reg_in 1 % 256] }
  else if ix.operation = OP_HALT then { cpu with halted := true }
  else cpu

/-- Lines 98-101: the write-back. -/
def write_back (ix : Instruction) (write_addr : Nat) (cpu : CPU) : Option CPU :=
  if ix.write_addr = 1 then store cpu write_addr cpu.reg_out else some cpu

/-- The function `step_cpu` of `src/emulator.c`. -/
def step_cpu (cpu : CPU) : Option CPU :=
  (fetch_operands cpu).bind fun r =>
    (resolve r.1 r.2.2).bind fun cpu3 => write_back r.1 r.2.1 (execute r.1 cpu3)

/-- The addresses one `step_cpu` touches all lie inside the `MEMSIZE`-word buffer:
the instruction's `1 + write_addr + argc` words, the fetched write address when
the flag is set, and the address held by input register 0 (resp. 1) after the
argument fetch when `read_addr0` (resp. `read_addr1`) is set. -/
def in_bounds (s : CPU) : Prop :=
  let ix : Instruction := ⟨s.memory s.pc⟩
  s.pc + 1 + ix.write_addr + ix.argc ≤ MEMSIZE ∧
  (ix.write_addr = 1 → s.memory (s.pc + 1) < MEMSIZE) ∧
  (ix.read_addr0 = true →
    (if 0 < ix.argc then s.memory (s.pc + 1 + ix.write_addr) else s.reg_in 0) < MEMSIZE) ∧
  (ix.read_addr1 = true →
    (if 1 < ix.argc then s.memory (s.pc + 1 + ix.write_addr + 1) else s.reg_in 1) < MEMSIZE)

instance (s : CPU) : Decidable (in_bounds s) := by
  unfold in_bounds
  exact inferInstance

/-- An instruction word as `main` writes it (lines 117-145):
`(argc << IOFFSET_LEN) | IBIT_WRITEADDR | IBIT_READADDR0 | IBIT_READADDR1 | op`,
each flag constant present when the flag is wanted. -/
def encode (argc : Nat) (w r0 r1 : Bool) (op : Nat) : Nat :=
  (argc <<< IOFFSET_LEN) ||| (if w then IBIT_WRITEADDR else 0) |||
    (if r0 then IBIT_READADDR0 else 0) ||| (if r1 then IBIT_READADDR1 else 0) ||| op

end Emu16

namespace Emu8

/-- Number of values of `typedef uint8_t word`. -/
def WORD : Nat := 256

def MEMSIZE : Nat := 1 <<< 8
def IBIT_READADDR1 : Nat := 1 <<< 4
def IBIT_READADDR0 : Nat := 1 <<< 5
def IBIT_WRITEADDR : Nat := 1 <<< 6
def IBIT_TWOARGS : Nat := 1 <<< 7

/-- The union `Instruction`: the raw word `iword`, read through the bit-fields
below (`LDSS IIII`). -/
structure Instruction where
  iword : Nat

/-- Bit-field `word operation: 4`, bits 0..3. -/
def Instruction.operation (ix : Instruction) : Nat := ix.iword % 16
/-- Bit-field `bool read_addr1: 1`, bit 4. -/
def Instruction.read_addr1 (ix : Instruction) : Bool := decide (ix.iword / 16 % 2 = 1)
/-- Bit-field `bool read_addr0: 1`, bit 5. -/
def Instruction.read_addr0 (ix : Instruction) : Bool := decide (ix.iword / 32 % 2 = 1)
/-- Bit-field `bool write_addr: 1`, bit 6. -/
def Instruction.write_addr (ix : Instruction) : Bool := decide (ix.iword / 64 % 2 = 1)
/-- Bit-field `bool argc: 1`, bit 7, as the integer 0 or 1 it is used as. -/
def Instruction.argc (ix : Instruction) : Nat := ix.iword / 128 % 2

def OP_NONE : Nat := 0
def OP_COPY : Nat := 1
def OP_ADD : Nat := 2
def OP_JUMP_IF_ZERO : Nat := 3
def OP_POKE : Nat := 4
def OP_HALT : Nat := 5

/-- The struct `CPU`, with the output stream added as `stdout`. -/
structure CPU where
  pc : Nat
  reg_in : Nat → Nat
  reg_out : Nat
  memory : Nat → Nat
  halted : Bool
  stdout : List Nat

/-- `init_cpu`: everything zero (`calloc`), not halted, nothing printed. -/
def init_cpu : CPU :=
  { pc := 0, reg_in := fun _ => 0, reg_out := 0,
    memory := fun _ => 0, halted := false, stdout := [] }

/-- Read `cpu->memory[addr]`. -/
def load (cpu : CPU) (addr : Nat) : Option Nat :=
  if addr < MEMSIZE then some (cpu.memory addr) else none

/-- Write `cpu->memory[addr] = v`. -/
def store (cpu : CPU) (addr v : Nat) : Option CPU :=
  if addr < MEMSIZE then some { cpu with memory := Function.update cpu.memory addr v } else none

/-- The expression `cpu->memory[cpu->pc++]`: the word read and the CPU with `pc` advanced. -/
def fetch (cpu : CPU) : Option (Nat × CPU) :=
  (load cpu cpu.pc).map fun w => (w, { cpu with pc := (cpu.pc + 1) % WORD })

/-- Write `cpu->reg_in[i] = v` (the array has three slots). -/
def set_reg (cpu : CPU) (i v : Nat) : Option CPU :=
  if i < 3 then some { cpu with reg_in := Function.update cpu.reg_in i v } else none

/-- The loop `for (; i<ix.argc+1; ++i) cpu->reg_in[i] = cpu->memory[cpu->pc++];`
with `n` iterations left to run. -/
def fetch_args : Nat → Nat → CPU → Option CPU
  | 0, _, cpu => some cpu
  | n + 1, i, cpu =>
    (fetch cpu).bind fun r => (set_reg r.2 i r.1).bind fun cpu1 => fetch_args n (i + 1) cpu1

/-- The bound `ix.argc+1` of the argument loop (line 75). -/
def Instruction.nargs (ix : Instruction) : Nat := ix.argc + 1

/-- Lines 70-78 of `step_cpu`, entered with the opcode word already read: write
address (0 stands for the uninitialised local when the flag is clear), then the
argument words. -/
def fetch_operands (ix : Instruction) (cpu : CPU) : Option (Nat × CPU) :=
  (if ix.write_addr then fetch cpu else some (0, cpu)).bind fun r1 =>
    (fetch_args ix.nargs 0 r1.2).map fun cpu2 => (r1.1, cpu2)

/-- The C condition `ix.operation == (OP_COPY && ix.read_addr1)`: the right-hand
side is the integer 1 when both operands of `&&` are non-zero, else 0. -/
def copy_quirk (ix : Instruction) : Bool :=
  ix.operation == (if (OP_COPY != 0 && ix.read_addr1) then 1 else 0)

/-- One iteration of the loop of lines 80-88. -/
def deref (ix : Instruction) (cpu : CPU) (i : Nat) : Option CPU :=
  let memflag := if i = 0 then ix.read_addr0 else ix.read_addr1
  if memflag then
    let ii := if copy_quirk ix then 0 else i
    (load cpu (cpu.reg_in ii)).bind fun v => set_reg cpu ii v
  else some cpu

/-- The loop of lines 80-88, `i = 0, 1`. -/
def resolve (ix : Instruction) (cpu : CPU) : Option CPU :=
  (deref ix cpu 0).bind fun cpu1 => deref ix cpu1 1

/-- The `switch (ix.operation)` of lines 89-95 (it has no `OP_HALT` case). -/
def execute (ix : Instruction) (cpu : CPU) : CPU :=
  if ix.operation = OP_NONE then cpu
  else if ix.operation = OP_COPY then { cpu with reg_out := cpu.reg_in 0 }
  else if ix.operation = OP_ADD then { cpu with reg_out := (cpu.reg_in 0 + cpu.reg_in 1) % WORD }
  else if ix.operation = OP_JUMP_IF_ZERO then
    (if cpu.reg_in 1 = 0 then { cpu with pc := cpu.reg_in 0 } else cpu)
  else if ix.operation = OP_POKE then { cpu with stdout := cpu.stdout ++ [cpu.reg_in 1 % 256] }
  else cpu

/-- Lines 96-99: the write-back. -/
def write_back (ix : Instruction) (write_addr : Nat) (cpu : CPU) : Option CPU :=
  if ix.write_addr then store cpu write_addr cpu.reg_out else some cpu

/-- The function `step_cpu` of `src/emulator8.c`. -/
def step_cpu (cpu : CPU) : Option CPU :=
  (fetch cpu).bind fun r0 =>
    let ix : Instruction := ⟨r0.1⟩
    if ix.operation = OP_HALT then some { r0.2 with halted := true }
    else
      (fetch_operands ix r0.2).bind fun r =>
        (resolve ix r.2).bind fun cpu3 => write_back ix r.1 (execute ix cpu3)

/-- An instruction word as `main` writes it (lines 117-145):
`IBIT_TWOARGS | IBIT_WRITEADDR | IBIT_READADDR0 | IBIT_READADDR1 | op`, each
constant present when wanted; `IBIT_TWOARGS` is present for two arguments. -/
def encode (argc : Nat) (w r0 r1 : Bool) (op : Nat) : Nat :=
  (if argc = 2 then IBIT_TWOARGS else 0) ||| (if w then IBIT_WRITEADDR else 0) |||
    (if r0 then IBIT_READADDR0 else 0) ||| (if r1 then IBIT_READADDR1 else 0) ||| op

/-- The values a `uint8_t` state can hold: `pc`, the registers and every memory
cell are below 256. -/
def WF (cpu : CPU) : Prop :=
  cpu.pc < WORD ∧ (∀ i, cpu.reg_in i < WORD) ∧ cpu.reg_out < WORD ∧ ∀ a, cpu.memory a < WORD

end Emu8

/-! ## Concrete states used to exercise the theorems -/

/-- A 16-bit CPU at `pc = 0` over the zero-filled memory holding `img`. -/
def Emu16.boot (img : List Nat) : Emu16.CPU := { Emu16.init_cpu with memory := imageOf img }

/-- An 8-bit CPU at `pc = 0` over the zero-filled memory holding `img`. -/
def Emu8.boot (img : List Nat) : Emu8.CPU := { Emu8.init_cpu with memory := imageOf img }

/-- An 8-bit state whose instruction wraps around the end of memory: the word
0xC2 (`IBIT_TWOARGS | IBIT_WRITEADDR | OP_ADD`) at 254, the write address 9 at
255, the arguments 3 and 4 at 0 and 1; `pc = 254`. -/
def Emu8.wrap_state : Emu8.CPU :=
  { Emu8.init_cpu with
    pc := 254
    memory := fun a =>
      if a = 254 then 0xC2 else if a = 255 then 9 else if a = 0 then 3
      else if a = 1 then 4 else 0 }

/-- A 16-bit state at the driver's `poke TERM_WRITE char` (`0x2105 0 128`), with
the word 0x1248 at address 128, `reg_out = 9` and one byte already printed. -/
def Emu16.poke_state : Emu16.CPU :=
  { Emu16.init_cpu with
    memory := Function.update (imageOf [0x2105, 0, 128]) 128 0x1248
    reg_out := 9
    stdout := [1] }

/-- An 8-bit state at the driver's `poke TERM_WRITE char` (`0x94 0 128`), with the
word 0x48 at address 128, `reg_out = 9` and one byte already printed. -/
def Emu8.poke_state : Emu8.CPU :=
  { Emu8.init_cpu with
    memory := Function.update (imageOf [0x94, 0, 128]) 128 0x48
    reg_out := 9
    stdout := [1] }

/-! ## The driver loop and the driver's program -/

namespace Emu16

/-- The loop `for (int i=0; i<n && !cpu.halted; ++i) step_cpu(&cpu);` of `main`
(lines 155-157), for a budget of `n` iterations. -/
def run : Nat → CPU → Option CPU
  | 0, cpu => some cpu
  | n + 1, cpu => if cpu.halted then some cpu else (step_cpu cpu).bind (run n)

/-- The driver loop with the budget `main` gives it: 100 iterations. -/
def main_loop (cpu : CPU) : Option CPU := run 100 cpu

/-- `k` calls of `step_cpu` in a row, with no test of `halted` in between: the
yardstick the driver loop is compared with. -/
def steps : Nat → CPU → Option CPU
  | 0, cpu => some cpu
  | k + 1, cpu => (step_cpu cpu).bind (steps k)

/-- The instruction words `main` emits (lines 117-145) when the first of them is
placed at address `code_start`, with `loop_start` and the done label resolved. -/
def loop_program (code_start : Nat) : List Nat :=
  [ (1 <<< IOFFSET_LEN) ||| IBIT_WRITEADDR ||| OP_COPY, 127, 0,
    (1 <<< IOFFSET_LEN) ||| IBIT_READADDR0 ||| OP_NONE, 127,
    IBIT_WRITEADDR ||| IBIT_READADDR0 ||| OP_COPY, 128,
    (2 <<< IOFFSET_LEN) ||| IBIT_WRITEADDR ||| IBIT_READADDR1 ||| OP_ADD, 127, 1, 127,
    (2 <<< IOFFSET_LEN) ||| IBIT_READADDR1 ||| OP_POKE, 0, 128,
    (1 <<< IOFFSET_LEN) ||| OP_JUMP_IF_ZERO, code_start + 19,
    (2 <<< IOFFSET_LEN) ||| OP_JUMP_IF_ZERO, code_start + 3, 0,
    OP_HALT ]

/-- The CPU as `main` sets it up (lines 105-147) for the data words `str`: the
data from address 0, the program right after it, `pc` at the program's first
word. -/
def load_main (str : List Nat) : CPU :=
  { init_cpu with memory := imageOf (str ++ loop_program str.length), pc := str.length }

/-- A zero-filled memory holding only the word `OP_HALT` (no flags) at the entry
point `e`, with `pc = e`. -/
def halt_only (e : Nat) : CPU :=
  { init_cpu with memory := Function.update (fun _ => 0) e OP_HALT, pc := e }

end Emu16

namespace Emu8

/-- The loop `for (int i=0; i<n && !cpu.halted; ++i) step_cpu(&cpu);` of `main`
(lines 155-157), for a budget of `n` iterations. -/
def run : Nat → CPU → Option CPU
  | 0, cpu => some cpu
  | n + 1, cpu => if cpu.halted then some cpu else (step_cpu cpu).bind (run n)

/-- The driver loop with the budget `main` gives it: 200 iterations. -/
def main_loop (cpu : CPU) : Option CPU := run 200 cpu

/-- `k` calls of `step_cpu` in a row, with no test of `halted` in between: the
yardstick the driver loop is compared with. -/
def steps : Nat → CPU → Option CPU
  | 0, cpu => some cpu
  | k + 1, cpu => (step_cpu cpu).bind (steps k)

/-- A zero-filled memory holding only the word `OP_HALT` (no flags) at the entry
point `e`, with `pc = e`. -/
def halt_only (e : Nat) : CPU :=
  { init_cpu with memory := Function.update (fun _ => 0) e OP_HALT, pc := e }

/-- The dereference step with the special case written as the conjunction
`ix.operation == OP_COPY && ix.read_addr1`: what the source's condition is
compared with. -/
def deref_and (ix : Instruction) (cpu : CPU) (i : Nat) : Option CPU :=
  let memflag := if i = 0 then ix.read_addr0 else ix.read_addr1
  if memflag then
    let ii := if (ix.operation == OP_COPY && ix.read_addr1) then 0 else i
    (load cpu (cpu.reg_in ii)).bind fun v => set_reg cpu ii v
  else some cpu

/-- The dereference pass built from `deref_and`. -/
def resolve_and (ix : Instruction) (cpu : CPU) : Option CPU :=
  (deref_and ix cpu 0).bind fun cpu1 => deref_and ix cpu1 1

/-- The plain per-register dereference step of the 16-bit configuration, over
the 8-bit state. -/
def deref_plain (ix : Instruction) (cpu : CPU) (i : Nat) : Option CPU :=
  let memflag := if i = 0 then ix.read_addr0 else ix.read_addr1
  if memflag then
    (load cpu (cpu.reg_in i)).bind fun v => set_reg cpu i v
  else some cpu

/-- The plain per-register dereference pass of the 16-bit configuration, over
the 8-bit state. -/
def resolve_plain (ix : Instruction) (cpu : CPU) : Option CPU :=
  (deref_plain ix cpu 0).bind fun cpu1 => deref_plain ix cpu1 1

end Emu8

/-! ## Bit-level helper lemmas -/

theorem or_eq_add_of_low (n K op : Nat) (hK : K % 2 ^ n = 0) (h : op < 2 ^ n) :
    K ||| op = K + op := by
  have h1 := Nat.mul_add_lt_is_or h (K / 2 ^ n)
  have h2 : 2 ^ n * (K / 2 ^ n) = K := by
    have := Nat.div_add_mod K (2 ^ n)
    omega
  rw [h2] at h1
  exact h1.symm

theorem Emu16.encode_fields_16 (argc op : Nat) (w r0 r1 : Bool) (ha : argc < 4) (hop : op < 256) :
    Emu16.encode argc w r0 r1 op < Emu16.WORD ∧
    (Emu16.Instruction.mk (Emu16.encode argc w r0 r1 op)).operation = op ∧
    (Emu16.Instruction.mk (Emu16.encode argc w r0 r1 op)).read_addr0 = r0 ∧
    (Emu16.Instruction.mk (Emu16.encode argc w r0 r1 op)).read_addr1 = r1 ∧
    (Emu16.Instruction.mk (Emu16.encode argc w r0 r1 op)).write_addr = (if w then 1 else 0) ∧
    (Emu16.Instruction.mk (Emu16.encode argc w r0 r1 op)).argc = argc := by
  have key : ∀ K : Nat, K % 2 ^ 8 = 0 → K ||| op = K + op :=
    fun K hK => or_eq_add_of_low 8 K op hK (by simpa using hop)
  interval_cases argc <;> cases w <;> cases r0 <;> cases r1 <;>
    simp [Emu16.encode, Emu16.Instruction.operation, Emu16.Instruction.read_addr0,
      Emu16.Instruction.read_addr1, Emu16.Instruction.write_addr, Emu16.Instruction.argc,
      Emu16.IOFFSET_LEN, Emu16.IBIT_WRITEADDR, Emu16.IBIT_READADDR0, Emu16.IBIT_READADDR1,
      Emu16.WORD] <;>
    (try rw [key _ (by decide)]) <;> omega

theorem Emu8.encode_fields_8 (argc op : Nat) (w r0 r1 : Bool) (ha : argc = 1 ∨ argc = 2)
    (hop : op < 16) :
    Emu8.encode argc w r0 r1 op < Emu8.WORD ∧
    (Emu8.Instruction.mk (Emu8.encode argc w r0 r1 op)).operation = op ∧
    (Emu8.Instruction.mk (Emu8.encode argc w r0 r1 op)).read_addr0 = r0 ∧
    (Emu8.Instruction.mk (Emu8.encode argc w r0 r1 op)).read_addr1 = r1 ∧
    (Emu8.Instruction.mk (Emu8.encode argc w r0 r1 op)).write_addr = w ∧
    (Emu8.Instruction.mk (Emu8.encode argc w r0 r1 op)).argc = argc - 1 ∧
    (Emu8.Instruction.mk (Emu8.encode argc w r0 r1 op)).nargs = argc := by
  have key : ∀ K : Nat, K % 2 ^ 4 = 0 → K ||| op = K + op :=
    fun K hK => or_eq_add_of_low 4 K op hK (by simpa using hop)
  rcases ha with rfl | rfl <;> cases w <;> cases r0 <;> cases r1 <;>
    simp [Emu8.encode, Emu8.Instruction.operation, Emu8.Instruction.read_addr0,
      Emu8.Instruction.read_addr1, Emu8.Instruction.write_addr, Emu8.Instruction.argc,
      Emu8.Instruction.nargs,
      Emu8.IBIT_TWOARGS, Emu8.IBIT_WRITEADDR, Emu8.IBIT_READADDR0, Emu8.IBIT_READADDR1,
      Emu8.WORD] <;>
    (try rw [key _ (by decide)]) <;> omega

namespace Emu16

theorem fetch_some_16 (cpu : CPU) (w : Nat) (c : CPU) (h : fetch cpu = some (w, c)) :
    cpu.pc < MEMSIZE ∧ w = cpu.memory cpu.pc ∧ c = { cpu with pc := cpu.pc + 1 } := by
  unfold fetch load at h
  by_cases hp : cpu.pc < MEMSIZE
  · have hw : (cpu.pc + 1) % WORD = cpu.pc + 1 := by
      apply Nat.mod_eq_of_lt
      simp [MEMSIZE, ZERO_PAGE_SIZE] at hp
      simp [WORD]; omega
    simp [hp, hw] at h
    exact ⟨hp, h.1.symm, h.2.symm⟩
  · simp [hp] at h

theorem fetch_eq_16 (cpu : CPU) (hp : cpu.pc < MEMSIZE) :
    fetch cpu = some (cpu.memory cpu.pc, { cpu with pc := cpu.pc + 1 }) := by
  have hw : (cpu.pc + 1) % WORD = cpu.pc + 1 := by
    apply Nat.mod_eq_of_lt
    simp [MEMSIZE, ZERO_PAGE_SIZE] at hp
    simp [WORD]; omega
  simp [fetch, load, hp, hw]

theorem fetch_args_spec_16 (n : Nat) : ∀ (i : Nat) (cpu cpu' : CPU),
    fetch_args n i cpu = some cpu' →
    cpu'.memory = cpu.memory ∧ cpu'.reg_out = cpu.reg_out ∧ cpu'.halted = cpu.halted ∧
    cpu'.stdout = cpu.stdout ∧ cpu'.zeropage = cpu.zeropage ∧
    (0 < n → cpu.pc + n ≤ MEMSIZE ∧ i + n ≤ 3) ∧ cpu'.pc = cpu.pc + n ∧
    ∀ j, cpu'.reg_in j =
      if i ≤ j ∧ j < i + n then cpu.memory (cpu.pc + (j - i)) else cpu.reg_in j := by
  induction n with
  | zero =>
    intro i cpu cpu' h
    simp [fetch_args] at h
    subst h
    simp only [true_and, Nat.add_zero, Nat.lt_irrefl, false_imp_iff]
    intro j
    have h2 : ¬ (i ≤ j ∧ j < i) := by omega
    simp [h2]
  | succ n ih =>
    intro i cpu cpu' h
    simp only [fetch_args, Option.bind_eq_some] at h
    obtain ⟨⟨w, c1⟩, hf, c2, hs, hrest⟩ := h
    obtain ⟨hp, hw, hc1⟩ := fetch_some_16 cpu w c1 hf
    simp only [set_reg] at hs
    by_cases hi : i < 3
    · simp [hi] at hs
      subst hs hc1 hw
      obtain ⟨m, ro, hl, so, zp, hb, hpc, hr⟩ := ih (i + 1) _ cpu' hrest
      simp at m ro hl so zp hb hpc hr
      refine ⟨m, ro, hl, so, zp, ?_, ?_, ?_⟩
      · intro _
        rcases Nat.eq_zero_or_pos n with h0 | h0
        · subst h0; omega
        · have := hb h0; omega
      · omega
      · intro j
        rw [hr j]
        by_cases hj : j = i
        · subst hj
          simp
        · rw [Function.update_noteq hj]
          by_cases hlt : i + 1 ≤ j ∧ j < i + 1 + n
          · have h2 : i ≤ j ∧ j < i + (n + 1) := by omega
            have h3 : cpu.pc + 1 + (j - (i + 1)) = cpu.pc + (j - i) := by omega
            simp [hlt, h2, h3]
          · have h2 : ¬ (i ≤ j ∧ j < i + (n + 1)) := by omega
            simp [hlt, h2]
    · simp [hi] at hs

theorem fetch_args_total_16 (n : Nat) : ∀ (i : Nat) (cpu : CPU),
    cpu.pc + n ≤ MEMSIZE → i + n ≤ 3 → ∃ cpu', fetch_args n i cpu = some cpu' := by
  induction n with
  | zero => intro i cpu _ _; exact ⟨cpu, rfl⟩
  | succ n ih =>
    intro i cpu h1 h2
    have hp : cpu.pc < MEMSIZE := by omega
    have hi : i < 3 := by omega
    simp only [fetch_args, fetch_eq_16 cpu hp, Option.some_bind, set_reg, hi, if_true]
    exact ih (i + 1) _ (by simp; omega) (by omega)

theorem write_addr_le_one (ix : Instruction) : ix.write_addr = 0 ∨ ix.write_addr = 1 := by
  unfold Instruction.write_addr
  omega

theorem argc_lt_four (ix : Instruction) : ix.argc < 4 := by
  unfold Instruction.argc
  omega

theorem fetch_operands_spec_16 (s : CPU) (ix : Instruction) (wa : Nat) (mid : CPU)
    (h : fetch_operands s = some (ix, wa, mid)) :
    ix = ⟨s.memory s.pc⟩ ∧ s.pc + 1 + ix.write_addr + ix.argc ≤ MEMSIZE ∧
    (ix.write_addr = 1 → wa = s.memory (s.pc + 1)) ∧
    mid.pc = s.pc + 1 + ix.write_addr + ix.argc ∧
    (∀ j, mid.reg_in j =
      if j < ix.argc then s.memory (s.pc + 1 + ix.write_addr + j) else s.reg_in j) ∧
    mid.memory = s.memory ∧ mid.reg_out = s.reg_out ∧ mid.halted = s.halted ∧
    mid.stdout = s.stdout ∧ mid.zeropage = s.zeropage := by
  simp only [fetch_operands, Option.bind_eq_some, Option.map_eq_some'] at h
  obtain ⟨⟨w, c0⟩, hf, ⟨wa1, c1⟩, hw, c2, ha, heq⟩ := h
  obtain ⟨hp, hw0, hc0⟩ := fetch_some_16 s w c0 hf
  simp only [Prod.mk.injEq] at heq
  obtain ⟨hix, hwa, hmid⟩ := heq
  subst hmid hwa hw0
  obtain ⟨m, ro, hl, so, zp, hb, hpc, hr⟩ := fetch_args_spec_16 _ 0 c1 c2 ha
  have hix' : ix = ⟨s.memory s.pc⟩ := hix.symm
  subst hix'
  simp only at hw ha hb
  rcases write_addr_le_one ⟨s.memory s.pc⟩ with hz | ho
  · have hne : ¬ ((Instruction.mk (s.memory s.pc)).write_addr = 1) := by omega
    simp only [hne, if_false, Option.some.injEq, Prod.mk.injEq] at hw
    obtain ⟨-, hc1⟩ := hw
    subst hc1 hc0
    simp only at m ro hl so zp hb hpc hr
    refine ⟨rfl, ?_, ?_, ?_, ?_, m, ro, hl, so, zp⟩
    · rcases Nat.eq_zero_or_pos (Instruction.mk (s.memory s.pc)).argc with h0 | h0
      · omega
      · have := (hb h0).1; omega
    · intro h1; omega
    · omega
    · intro j
      rw [hr j, hz]
      simp
  · simp only [ho, if_true] at hw
    obtain ⟨hp1, hw1, hc1⟩ := fetch_some_16 c0 wa1 c1 hw
    subst hc1 hc0
    simp only at m ro hl so zp hb hpc hr hp1 hw1
    refine ⟨rfl, ?_, ?_, ?_, ?_, m, ro, hl, so, zp⟩
    · rcases Nat.eq_zero_or_pos (Instruction.mk (s.memory s.pc)).argc with h0 | h0
      · omega
      · have := (hb h0).1; omega
    · intro _; exact hw1
    · omega
    · intro j
      rw [hr j, ho]
      simp

theorem fetch_operands_total_16 (s : CPU)
    (hb : s.pc + 1 + (Instruction.mk (s.memory s.pc)).write_addr +
      (Instruction.mk (s.memory s.pc)).argc ≤ MEMSIZE) :
    ∃ wa mid, fetch_operands s = some (⟨s.memory s.pc⟩, wa, mid) := by
  have hp : s.pc < MEMSIZE := by omega
  have h4 := argc_lt_four ⟨s.memory s.pc⟩
  simp only [fetch_operands, fetch_eq_16 s hp, Option.some_bind]
  rcases write_addr_le_one ⟨s.memory s.pc⟩ with hz | ho
  · have hne : ¬ ((Instruction.mk (s.memory s.pc)).write_addr = 1) := by omega
    simp only [hne, if_false, Option.some_bind]
    obtain ⟨c, hc⟩ := fetch_args_total_16 (Instruction.mk (s.memory s.pc)).argc 0
      { s with pc := s.pc + 1 } (by simp only; omega) (by omega)
    exact ⟨0, c, by simp [hc]⟩
  · simp only [ho, if_true]
    have hp1 : ({ s with pc := s.pc + 1 } : CPU).pc < MEMSIZE := by simp only; omega
    rw [fetch_eq_16 _ hp1]
    simp only [Option.some_bind]
    obtain ⟨c, hc⟩ := fetch_args_total_16 (Instruction.mk (s.memory s.pc)).argc 0
      { s with pc := s.pc + 1 + 1 } (by simp only; omega) (by omega)
    exact ⟨s.memory (s.pc + 1), c, by simp [hc]⟩

theorem deref_spec_16 (ix : Instruction) (c : CPU) (i : Nat) (hi : i < 3) (c' : CPU)
    (h : deref ix c i = some c') :
    c'.pc = c.pc ∧ c'.memory = c.memory ∧ c'.reg_out = c.reg_out ∧ c'.halted = c.halted ∧
    c'.stdout = c.stdout ∧ c'.zeropage = c.zeropage ∧
    ((if i = 0 then ix.read_addr0 else ix.read_addr1) = true → c.reg_in i < MEMSIZE) ∧
    ∀ j, c'.reg_in j =
      if j = i ∧ (if i = 0 then ix.read_addr0 else ix.read_addr1) = true
      then c.memory (c.reg_in i) else c.reg_in j := by
  unfold deref at h
  simp only at h
  by_cases hf : (if i = 0 then ix.read_addr0 else ix.read_addr1) = true
  · simp only [hf, if_true, load, set_reg, hi] at h
    by_cases hb : c.reg_in i < MEMSIZE
    · simp only [hb, if_true, Option.some_bind, Option.some.injEq] at h
      subst h
      refine ⟨rfl, rfl, rfl, rfl, rfl, rfl, fun _ => hb, ?_⟩
      intro j
      by_cases hj : j = i
      · subst hj; simp [hf]
      · simp [hj, Function.update_noteq hj]
    · simp [hb] at h
  · simp only [hf, Bool.false_eq_true, if_false, Option.some.injEq] at h
    subst h
    simp [hf]

theorem resolve_spec_16 (ix : Instruction) (mid res : CPU) (h : resolve ix mid = some res) :
    res.pc = mid.pc ∧ res.memory = mid.memory ∧ res.reg_out = mid.reg_out ∧
    res.halted = mid.halted ∧ res.stdout = mid.stdout ∧ res.zeropage = mid.zeropage ∧
    (ix.read_addr0 = true → mid.reg_in 0 < MEMSIZE) ∧
    (ix.read_addr1 = true → mid.reg_in 1 < MEMSIZE) ∧
    res.reg_in 0 = (if ix.read_addr0 then mid.memory (mid.reg_in 0) else mid.reg_in 0) ∧
    res.reg_in 1 = (if ix.read_addr1 then mid.memory (mid.reg_in 1) else mid.reg_in 1) ∧
    ∀ j, 2 ≤ j → res.reg_in j = mid.reg_in j := by
  simp only [resolve, Option.bind_eq_some] at h
  obtain ⟨c1, h0, h1⟩ := h
  obtain ⟨p0, m0, o0, l0, s0, z0, b0, r0⟩ := deref_spec_16 ix mid 0 (by omega) c1 h0
  obtain ⟨p1, m1, o1, l1, s1, z1, b1, r1⟩ := deref_spec_16 ix c1 1 (by omega) res h1
  simp only [if_true, one_ne_zero, if_false] at b0 r0 b1 r1
  have e1 : c1.reg_in 1 = mid.reg_in 1 := by rw [r0 1]; simp
  refine ⟨p1.trans p0, m1.trans m0, o1.trans o0, l1.trans l0, s1.trans s0, z1.trans z0,
    b0, ?_, ?_, ?_, ?_⟩
  · intro hf; rw [← e1]; exact b1 hf
  · rw [r1 0, r0 0]; simp
  · rw [r1 1, m0, e1]; simp
  · intro j hj
    have hj0 : j ≠ 0 := by omega
    have hj1 : j ≠ 1 := by omega
    rw [r1 j, r0 j]; simp [hj0, hj1]

theorem resolve_total_16 (ix : Instruction) (mid : CPU)
    (h0 : ix.read_addr0 = true → mid.reg_in 0 < MEMSIZE)
    (h1 : ix.read_addr1 = true → mid.reg_in 1 < MEMSIZE) :
    ∃ res, resolve ix mid = some res := by
  unfold resolve deref load set_reg
  cases hr0 : ix.read_addr0 <;> cases hr1 : ix.read_addr1 <;>
    simp [hr0, hr1] at h0 h1 ⊢ <;> simp [h0, h1]

theorem write_back_spec_16 (ix : Instruction) (wa : Nat) (c s' : CPU)
    (h : write_back ix wa c = some s') :
    s'.pc = c.pc ∧ s'.reg_in = c.reg_in ∧ s'.reg_out = c.reg_out ∧ s'.halted = c.halted ∧
    s'.stdout = c.stdout ∧ s'.zeropage = c.zeropage ∧
    (ix.write_addr = 1 → wa < MEMSIZE) ∧
    s'.memory = (if ix.write_addr = 1 then Function.update c.memory wa c.reg_out
      else c.memory) := by
  unfold write_back store at h
  by_cases hf : ix.write_addr = 1
  · by_cases hb : wa < MEMSIZE
    · simp only [hf, hb, if_true, Option.some.injEq] at h
      subst h
      simp [hf, hb]
    · simp [hf, hb] at h
  · simp only [hf, if_false, Option.some.injEq] at h
    subst h
    simp [hf]

theorem write_back_total_16 (ix : Instruction) (wa : Nat) (c : CPU)
    (h : ix.write_addr = 1 → wa < MEMSIZE) : ∃ s', write_back ix wa c = some s' := by
  unfold write_back store
  by_cases hf : ix.write_addr = 1
  · simp [hf, h hf]
  · simp [hf]

theorem step_cpu_some (s s' : CPU) (h : step_cpu s = some s') :
    ∃ wa mid res, fetch_operands s = some (⟨s.memory s.pc⟩, wa, mid) ∧
      resolve ⟨s.memory s.pc⟩ mid = some res ∧
      write_back ⟨s.memory s.pc⟩ wa (execute ⟨s.memory s.pc⟩ res) = some s' := by
  simp only [step_cpu, Option.bind_eq_some] at h
  obtain ⟨⟨ix, wa, mid⟩, hf, res, hr, hw⟩ := h
  have hix := (fetch_operands_spec_16 s ix wa mid hf).1
  subst hix
  exact ⟨wa, mid, res, hf, hr, hw⟩

theorem step_cpu_phases_16 (s : CPU) (h : in_bounds s) :
    ∃ wa mid res s', fetch_operands s = some (⟨s.memory s.pc⟩, wa, mid) ∧
      resolve ⟨s.memory s.pc⟩ mid = some res ∧
      write_back ⟨s.memory s.pc⟩ wa (execute ⟨s.memory s.pc⟩ res) = some s' ∧
      step_cpu s = some s' := by
  obtain ⟨hb, hw, h0, h1⟩ := h
  obtain ⟨wa, mid, hf⟩ := fetch_operands_total_16 s hb
  obtain ⟨-, -, hwa, -, hr, -, -, -, -, -⟩ := fetch_operands_spec_16 s _ wa mid hf
  obtain ⟨res, hres⟩ := resolve_total_16 ⟨s.memory s.pc⟩ mid
    (fun hf0 => by rw [hr 0]; exact h0 hf0)
    (fun hf1 => by rw [hr 1]; exact h1 hf1)
  obtain ⟨s', hs'⟩ := write_back_total_16 ⟨s.memory s.pc⟩ wa (execute ⟨s.memory s.pc⟩ res)
    (fun hf => by rw [hwa hf]; exact hw hf)
  refine ⟨wa, mid, res, s', hf, hres, hs', ?_⟩
  simp [step_cpu, hf, hres, hs']

theorem step_cpu_defined_iff (s : CPU) : (∃ s', step_cpu s = some s') ↔ in_bounds s := by
  constructor
  · rintro ⟨s', h⟩
    obtain ⟨wa, mid, res, hf, hr, hw⟩ := step_cpu_some s s' h
    obtain ⟨-, hb, hwa, -, hreg, -, -, -, -, -⟩ := fetch_operands_spec_16 s _ wa mid hf
    obtain ⟨-, -, -, -, -, -, b0, b1, -, -, -⟩ := resolve_spec_16 _ mid res hr
    obtain ⟨-, -, -, -, -, -, bw, -⟩ := write_back_spec_16 _ wa _ s' hw
    refine ⟨hb, ?_, ?_, ?_⟩
    · intro hf1; rw [← hwa hf1]; exact bw hf1
    · intro hf0; have := b0 hf0; rw [hreg 0] at this; exact this
    · intro hf1; have := b1 hf1; rw [hreg 1] at this; exact this
  · intro h
    obtain ⟨_, _, _, s', _, _, _, hs⟩ := step_cpu_phases_16 s h
    exact ⟨s', hs⟩

end Emu16

/-! ## The 8-bit step, phase by phase -/

namespace Emu8

theorem fetch_some_8 (cpu : CPU) (w : Nat) (c : CPU) (h : fetch cpu = some (w, c)) :
    cpu.pc < WORD ∧ w = cpu.memory cpu.pc ∧ c = { cpu with pc := (cpu.pc + 1) % WORD } := by
  unfold fetch load at h
  by_cases hp : cpu.pc < MEMSIZE
  · simp [hp] at h
    exact ⟨hp, h.1.symm, h.2.symm⟩
  · simp [hp] at h

theorem fetch_eq_8 (cpu : CPU) (hp : cpu.pc < WORD) :
    fetch cpu = some (cpu.memory cpu.pc, { cpu with pc := (cpu.pc + 1) % WORD }) := by
  have hp' : cpu.pc < MEMSIZE := hp
  simp [fetch, load, hp']

theorem fetch_args_spec_8 (n : Nat) : ∀ (i : Nat) (cpu cpu' : CPU), cpu.pc < WORD →
    fetch_args n i cpu = some cpu' →
    cpu'.memory = cpu.memory ∧ cpu'.reg_out = cpu.reg_out ∧ cpu'.halted = cpu.halted ∧
    cpu'.stdout = cpu.stdout ∧
    (0 < n → i + n ≤ 3) ∧ cpu'.pc = (cpu.pc + n) % WORD ∧
    ∀ j, cpu'.reg_in j =
      if i ≤ j ∧ j < i + n then cpu.memory ((cpu.pc + (j - i)) % WORD) else cpu.reg_in j := by
  induction n with
  | zero =>
    intro i cpu cpu' hpc h
    simp [fetch_args] at h
    subst h
    refine ⟨rfl, rfl, rfl, rfl, fun h0 => absurd h0 (by omega), ?_, ?_⟩
    · rw [Nat.add_zero, Nat.mod_eq_of_lt hpc]
    · intro j
      have h2 : ¬ (i ≤ j ∧ j < i + 0) := by omega
      rw [if_neg h2]
  | succ n ih =>
    intro i cpu cpu' hpc h
    simp only [fetch_args, Option.bind_eq_some] at h
    obtain ⟨⟨w, c1⟩, hf, c2, hs, hrest⟩ := h
    obtain ⟨hp, hw, hc1⟩ := fetch_some_8 cpu w c1 hf
    simp only [set_reg] at hs
    by_cases hi : i < 3
    · simp [hi] at hs
      subst hs hc1 hw
      have hlt : (cpu.pc + 1) % WORD < WORD := Nat.mod_lt _ (by decide)
      obtain ⟨m, ro, hl, so, hb, hpc', hr⟩ := ih (i + 1) _ cpu' hlt hrest
      simp only at m ro hl so hb hpc' hr
      refine ⟨m, ro, hl, so, ?_, ?_, ?_⟩
      · intro _
        rcases Nat.eq_zero_or_pos n with h0 | h0
        · subst h0; omega
        · have := hb h0; omega
      · rw [hpc']; simp only [WORD]; omega
      · intro j
        rw [hr j]
        by_cases hj : j = i
        · subst hj
          simp [Nat.mod_eq_of_lt hpc]
        · rw [Function.update_noteq hj]
          by_cases hlt : i + 1 ≤ j ∧ j < i + 1 + n
          · have h2 : i ≤ j ∧ j < i + (n + 1) := by omega
            have h3 : ((cpu.pc + 1) % WORD + (j - (i + 1))) % WORD = (cpu.pc + (j - i)) % WORD := by
              simp only [WORD]; omega
            simp [hlt, h2, h3]
          · have h2 : ¬ (i ≤ j ∧ j < i + (n + 1)) := by omega
            simp [hlt, h2]
    · simp [hi] at hs

theorem fetch_args_total_8 (n : Nat) : ∀ (i : Nat) (cpu : CPU),
    cpu.pc < WORD → i + n ≤ 3 → ∃ cpu', fetch_args n i cpu = some cpu' := by
  induction n with
  | zero => intro i cpu _ _; exact ⟨cpu, rfl⟩
  | succ n ih =>
    intro i cpu h1 h2
    have hi : i < 3 := by omega
    simp only [fetch_args, fetch_eq_8 cpu h1, Option.some_bind, set_reg, hi, if_true]
    exact ih (i + 1) _ (Nat.mod_lt _ (by decide)) (by omega)

theorem nargs_cases (ix : Instruction) : ix.nargs = 1 ∨ ix.nargs = 2 := by
  unfold Instruction.nargs Instruction.argc
  omega

theorem fetch_operands_spec_8 (ix : Instruction) (c : CPU) (wa : Nat) (mid : CPU)
    (hpc : c.pc < WORD) (h : fetch_operands ix c = some (wa, mid)) :
    (ix.write_addr = true → wa = c.memory c.pc) ∧
    mid.pc = (c.pc + (if ix.write_addr then 1 else 0) + ix.nargs) % WORD ∧
    (∀ j, mid.reg_in j =
      if j < ix.nargs then c.memory ((c.pc + (if ix.write_addr then 1 else 0) + j) % WORD)
      else c.reg_in j) ∧
    mid.memory = c.memory ∧ mid.reg_out = c.reg_out ∧ mid.halted = c.halted ∧
    mid.stdout = c.stdout := by
  simp only [fetch_operands, Option.bind_eq_some, Option.map_eq_some'] at h
  obtain ⟨⟨wa1, c1⟩, hw, c2, ha, heq⟩ := h
  simp only [Prod.mk.injEq] at heq
  obtain ⟨hwa, hmid⟩ := heq
  subst hmid hwa
  cases hf : ix.write_addr
  · simp only [hf, Bool.false_eq_true, if_false, Option.some.injEq, Prod.mk.injEq] at hw
    obtain ⟨-, hc1⟩ := hw
    subst hc1
    obtain ⟨m, ro, hl, so, -, hpc', hr⟩ := fetch_args_spec_8 _ 0 c c2 hpc ha
    refine ⟨fun h => absurd h (by simp), ?_, ?_, m, ro, hl, so⟩
    · rw [hpc']; simp
    · intro j; rw [hr j]; simp
  · simp only [hf, if_true] at hw
    obtain ⟨-, hw1, hc1⟩ := fetch_some_8 c wa1 c1 hw
    subst hc1
    have hlt : (c.pc + 1) % WORD < WORD := Nat.mod_lt _ (by decide)
    obtain ⟨m, ro, hl, so, -, hpc', hr⟩ := fetch_args_spec_8 _ 0 _ c2 hlt ha
    simp only at m ro hl so hpc' hr
    refine ⟨fun _ => hw1, ?_, ?_, m, ro, hl, so⟩
    · rw [hpc']; simp only [WORD, ↓reduceIte]; omega
    · intro j; rw [hr j]
      have h3 : ((c.pc + 1) % WORD + (j - 0)) % WORD = (c.pc + 1 + j) % WORD := by
        simp only [WORD]; omega
      simp [h3]

theorem fetch_operands_total_8 (ix : Instruction) (c : CPU) (hpc : c.pc < WORD) :
    ∃ wa mid, fetch_operands ix c = some (wa, mid) := by
  have hn : 0 + ix.nargs ≤ 3 := by rcases nargs_cases ix with h | h <;> omega
  unfold fetch_operands
  cases hf : ix.write_addr
  · obtain ⟨c2, hc2⟩ := fetch_args_total_8 ix.nargs 0 c hpc hn
    exact ⟨0, c2, by simp [hc2]⟩
  · obtain ⟨c2, hc2⟩ := fetch_args_total_8 ix.nargs 0 { c with pc := (c.pc + 1) % WORD }
      (Nat.mod_lt _ (by decide)) hn
    exact ⟨c.memory c.pc, c2, by simp [fetch_eq_8 c hpc, hc2]⟩

theorem deref_spec_8 (ix : Instruction) (c : CPU) (i : Nat) (hi : i < 3) (c' : CPU)
    (h : deref ix c i = some c') :
    c'.pc = c.pc ∧ c'.memory = c.memory ∧ c'.reg_out = c.reg_out ∧ c'.halted = c.halted ∧
    c'.stdout = c.stdout ∧
    ∀ j, c'.reg_in j =
      if j = (if copy_quirk ix then 0 else i) ∧
        (if i = 0 then ix.read_addr0 else ix.read_addr1) = true
      then c.memory (c.reg_in (if copy_quirk ix then 0 else i)) else c.reg_in j := by
  unfold deref at h
  simp only at h
  have hii : (if copy_quirk ix = true then 0 else i) < 3 := by split <;> omega
  by_cases hf : (if i = 0 then ix.read_addr0 else ix.read_addr1) = true
  · simp only [hf, if_true, load, set_reg, hii] at h
    by_cases hb : c.reg_in (if copy_quirk ix = true then 0 else i) < MEMSIZE
    · simp only [hb, if_true, Option.some_bind, Option.some.injEq] at h
      subst h
      refine ⟨rfl, rfl, rfl, rfl, rfl, ?_⟩
      intro j
      by_cases hj : j = (if copy_quirk ix = true then 0 else i)
      · rw [hj]; simp [hf]
      · simp [hj, Function.update_noteq hj]
    · simp [hb] at h
  · simp only [hf, Bool.false_eq_true, if_false, Option.some.injEq] at h
    subst h
    simp [hf]

theorem resolve_spec_8 (ix : Instruction) (mid res : CPU) (h : resolve ix mid = some res) :
    res.pc = mid.pc ∧ res.memory = mid.memory ∧ res.reg_out = mid.reg_out ∧
    res.halted = mid.halted ∧ res.stdout = mid.stdout ∧
    res.reg_in 0 =
      (if (ix.read_addr1 && copy_quirk ix) = true
       then mid.memory (if ix.read_addr0 then mid.memory (mid.reg_in 0) else mid.reg_in 0)
       else (if ix.read_addr0 then mid.memory (mid.reg_in 0) else mid.reg_in 0)) ∧
    res.reg_in 1 =
      (if (ix.read_addr1 && !copy_quirk ix) = true then mid.memory (mid.reg_in 1)
       else mid.reg_in 1) ∧
    ∀ j, 2 ≤ j → res.reg_in j = mid.reg_in j := by
  simp only [resolve, Option.bind_eq_some] at h
  obtain ⟨c1, h0, h1⟩ := h
  obtain ⟨p0, m0, o0, l0, s0, r0⟩ := deref_spec_8 ix mid 0 (by omega) c1 h0
  obtain ⟨p1, m1, o1, l1, s1, r1⟩ := deref_spec_8 ix c1 1 (by omega) res h1
  simp only [if_true, one_ne_zero, if_false, ite_self] at r0 r1
  refine ⟨p1.trans p0, m1.trans m0, o1.trans o0, l1.trans l0, s1.trans s0, ?_, ?_, ?_⟩
  · rw [r1 0, m0]
    cases hA : ix.read_addr0 <;> cases hB : ix.read_addr1 <;> cases hC : copy_quirk ix <;>
      simp [r0, hA]
  · rw [r1 1, m0]
    cases hA : ix.read_addr0 <;> cases hB : ix.read_addr1 <;> cases hC : copy_quirk ix <;>
      simp [r0, hA]
  · intro j hj
    have hj0 : j ≠ 0 := by omega
    have hj1 : j ≠ 1 := by omega
    rw [r1 j, r0 j]
    cases hC : copy_quirk ix <;> simp [hj0, hj1]

theorem deref_total (ix : Instruction) (c : CPU) (i : Nat) (hi : i < 3)
    (hr : ∀ j, c.reg_in j < WORD) (hm : ∀ a, c.memory a < WORD) :
    ∃ c', deref ix c i = some c' ∧ (∀ j, c'.reg_in j < WORD) ∧ c'.memory = c.memory := by
  unfold deref
  simp only
  have hii : (if copy_quirk ix = true then 0 else i) < 3 := by split <;> omega
  by_cases hf : (if i = 0 then ix.read_addr0 else ix.read_addr1) = true
  · have hb : c.reg_in (if copy_quirk ix = true then 0 else i) < MEMSIZE := hr _
    simp only [hf, if_true, load, set_reg, hii, hb, Option.some_bind]
    refine ⟨_, rfl, ?_, rfl⟩
    intro j
    show Function.update c.reg_in _ _ j < WORD
    rw [Function.update_apply]
    split_ifs <;> first | exact hm _ | exact hr _
  · simp only [hf, Bool.false_eq_true, if_false]
    exact ⟨c, rfl, hr, rfl⟩

theorem resolve_total_8 (ix : Instruction) (mid : CPU)
    (hr : ∀ j, mid.reg_in j < WORD) (hm : ∀ a, mid.memory a < WORD) :
    ∃ res, resolve ix mid = some res := by
  obtain ⟨c1, h1, hr1, hm1⟩ := deref_total ix mid 0 (by omega) hr hm
  obtain ⟨c2, h2, -, -⟩ := deref_total ix c1 1 (by omega) hr1 (by rw [hm1]; exact hm)
  exact ⟨c2, by simp [resolve, h1, h2]⟩

theorem write_back_spec_8 (ix : Instruction) (wa : Nat) (c s' : CPU)
    (h : write_back ix wa c = some s') :
    s'.pc = c.pc ∧ s'.reg_in = c.reg_in ∧ s'.reg_out = c.reg_out ∧ s'.halted = c.halted ∧
    s'.stdout = c.stdout ∧
    s'.memory = (if ix.write_addr then Function.update c.memory wa c.reg_out
      else c.memory) := by
  unfold write_back store at h
  cases hf : ix.write_addr
  · simp only [hf, Bool.false_eq_true, if_false, Option.some.injEq] at h
    subst h
    simp
  · by_cases hb : wa < MEMSIZE
    · simp only [hf, hb, if_true, Option.some.injEq] at h
      subst h
      simp
    · simp [hf, hb] at h

theorem write_back_total_8 (ix : Instruction) (wa : Nat) (c : CPU)
    (h : ix.write_addr = true → wa < WORD) : ∃ s', write_back ix wa c = some s' := by
  unfold write_back store
  cases hf : ix.write_addr
  · simp
  · have hb : wa < MEMSIZE := h hf
    simp [hb]

theorem step_cpu_halt (s : CPU) (hpc : s.pc < WORD)
    (hop : (Instruction.mk (s.memory s.pc)).operation = OP_HALT) :
    step_cpu s = some { s with pc := (s.pc + 1) % WORD, halted := true } := by
  simp [step_cpu, fetch_eq_8 s hpc, hop]

theorem step_cpu_phases_8 (s : CPU) (h : WF s)
    (hop : (Instruction.mk (s.memory s.pc)).operation ≠ OP_HALT) :
    ∃ wa mid res s',
      fetch_operands ⟨s.memory s.pc⟩ { s with pc := (s.pc + 1) % WORD } = some (wa, mid) ∧
      resolve ⟨s.memory s.pc⟩ mid = some res ∧
      write_back ⟨s.memory s.pc⟩ wa (execute ⟨s.memory s.pc⟩ res) = some s' ∧
      step_cpu s = some s' := by
  obtain ⟨hpc, hr, -, hm⟩ := h
  have hlt : ({ s with pc := (s.pc + 1) % WORD } : CPU).pc < WORD := Nat.mod_lt _ (by decide)
  obtain ⟨wa, mid, hf⟩ := fetch_operands_total_8 ⟨s.memory s.pc⟩ _ hlt
  obtain ⟨hwa, -, hreg, hmem, -, -, -⟩ := fetch_operands_spec_8 _ _ wa mid hlt hf
  simp only at hwa hreg hmem
  obtain ⟨res, hres⟩ := resolve_total_8 ⟨s.memory s.pc⟩ mid
    (fun j => by rw [hreg j]; split; exact hm _; exact hr j)
    (fun a => by rw [hmem]; exact hm a)
  obtain ⟨s', hs'⟩ := write_back_total_8 ⟨s.memory s.pc⟩ wa (execute ⟨s.memory s.pc⟩ res)
    (fun hf1 => by rw [hwa hf1]; exact hm _)
  refine ⟨wa, mid, res, s', hf, hres, hs', ?_⟩
  simp [step_cpu, fetch_eq_8 s hpc, hop, hf, hres, hs']

end Emu8

/-! ## The whole step in terms of the start state -/

theorem Emu16.execute_frame_16 (ix : Emu16.Instruction) (c : Emu16.CPU) :
    (Emu16.execute ix c).reg_in = c.reg_in ∧ (Emu16.execute ix c).memory = c.memory ∧
    (Emu16.execute ix c).zeropage = c.zeropage := by
  unfold Emu16.execute
  split_ifs <;> simp

theorem Emu16.step_cpu_effect_16 (s : Emu16.CPU) (h : Emu16.in_bounds s) :
    ∃ wa mid res s', Emu16.fetch_operands s = some (⟨s.memory s.pc⟩, wa, mid) ∧
      Emu16.resolve ⟨s.memory s.pc⟩ mid = some res ∧
      Emu16.step_cpu s = some s' ∧
      res.pc = s.pc + 1 + (Emu16.Instruction.mk (s.memory s.pc)).write_addr +
        (Emu16.Instruction.mk (s.memory s.pc)).argc ∧
      res.memory = s.memory ∧ res.reg_out = s.reg_out ∧ res.halted = s.halted ∧
      res.stdout = s.stdout ∧
      s'.pc = (Emu16.execute ⟨s.memory s.pc⟩ res).pc ∧
      s'.reg_in = res.reg_in ∧
      s'.reg_out = (Emu16.execute ⟨s.memory s.pc⟩ res).reg_out ∧
      s'.halted = (Emu16.execute ⟨s.memory s.pc⟩ res).halted ∧
      s'.stdout = (Emu16.execute ⟨s.memory s.pc⟩ res).stdout ∧
      s'.zeropage = s.zeropage ∧
      s'.memory = (if (Emu16.Instruction.mk (s.memory s.pc)).write_addr = 1
        then Function.update s.memory (s.memory (s.pc + 1))
          (Emu16.execute ⟨s.memory s.pc⟩ res).reg_out
        else s.memory) := by
  obtain ⟨wa, mid, res, s', hf, hr, hw, hs⟩ := Emu16.step_cpu_phases_16 s h
  obtain ⟨-, -, hwa, hpc, -, hm, ho, hl, hso, hz⟩ := Emu16.fetch_operands_spec_16 s _ wa mid hf
  obtain ⟨p1, m1, o1, l1, s1, z1, -, -, -, -, -⟩ := Emu16.resolve_spec_16 _ mid res hr
  obtain ⟨p2, r2, o2, l2, s2, z2, -, m2⟩ := Emu16.write_back_spec_16 _ wa _ s' hw
  obtain ⟨er, em, ez⟩ := Emu16.execute_frame_16 ⟨s.memory s.pc⟩ res
  refine ⟨wa, mid, res, s', hf, hr, hs, p1.trans hpc, m1.trans hm, o1.trans ho, l1.trans hl,
    s1.trans hso, p2, r2.trans er, o2, l2, s2, ?_, ?_⟩
  · rw [z2, ez, z1, hz]
  · rw [m2, em, m1, hm]
    by_cases hf1 : (Emu16.Instruction.mk (s.memory s.pc)).write_addr = 1
    · simp only [hf1, if_true]; rw [hwa hf1]
    · simp only [hf1, if_false]

theorem Emu8.execute_frame_8 (ix : Emu8.Instruction) (c : Emu8.CPU) :
    (Emu8.execute ix c).reg_in = c.reg_in ∧ (Emu8.execute ix c).memory = c.memory ∧
    (Emu8.execute ix c).halted = c.halted := by
  unfold Emu8.execute
  split_ifs <;> simp

theorem Emu8.step_cpu_effect_8 (s : Emu8.CPU) (h : Emu8.WF s)
    (hop : (Emu8.Instruction.mk (s.memory s.pc)).operation ≠ Emu8.OP_HALT) :
    ∃ wa mid res s',
      Emu8.fetch_operands ⟨s.memory s.pc⟩ { s with pc := (s.pc + 1) % Emu8.WORD } =
        some (wa, mid) ∧
      Emu8.resolve ⟨s.memory s.pc⟩ mid = some res ∧
      Emu8.step_cpu s = some s' ∧
      res.pc = (s.pc + 1 + (if (Emu8.Instruction.mk (s.memory s.pc)).write_addr then 1 else 0) +
        (Emu8.Instruction.mk (s.memory s.pc)).nargs) % Emu8.WORD ∧
      res.memory = s.memory ∧ res.reg_out = s.reg_out ∧ res.halted = s.halted ∧
      res.stdout = s.stdout ∧
      s'.pc = (Emu8.execute ⟨s.memory s.pc⟩ res).pc ∧
      s'.reg_in = res.reg_in ∧
      s'.reg_out = (Emu8.execute ⟨s.memory s.pc⟩ res).reg_out ∧
      s'.halted = s.halted ∧
      s'.stdout = (Emu8.execute ⟨s.memory s.pc⟩ res).stdout ∧
      s'.memory = (if (Emu8.Instruction.mk (s.memory s.pc)).write_addr
        then Function.update s.memory (s.memory ((s.pc + 1) % Emu8.WORD))
          (Emu8.execute ⟨s.memory s.pc⟩ res).reg_out
        else s.memory) := by
  obtain ⟨wa, mid, res, s', hf, hr, hw, hs⟩ := Emu8.step_cpu_phases_8 s h hop
  have hlt : ({ s with pc := (s.pc + 1) % Emu8.WORD } : Emu8.CPU).pc < Emu8.WORD :=
    Nat.mod_lt _ (by decide)
  obtain ⟨hwa, hpc, -, hm, ho, hl, hso⟩ := Emu8.fetch_operands_spec_8 _ _ wa mid hlt hf
  obtain ⟨p1, m1, o1, l1, s1, -, -, -⟩ := Emu8.resolve_spec_8 _ mid res hr
  obtain ⟨p2, r2, o2, l2, s2, m2⟩ := Emu8.write_back_spec_8 _ wa _ s' hw
  obtain ⟨er, em, el⟩ := Emu8.execute_frame_8 ⟨s.memory s.pc⟩ res
  simp only at hwa hpc hm ho hl hso
  refine ⟨wa, mid, res, s', hf, hr, hs, ?_, m1.trans hm, o1.trans ho, l1.trans hl,
    s1.trans hso, p2, r2.trans er, o2, ?_, s2, ?_⟩
  · rw [p1, hpc]; simp only [Emu8.WORD]; omega
  · rw [l2, el, l1, hl]
  · rw [m2, em, m1, hm]
    cases hf1 : (Emu8.Instruction.mk (s.memory s.pc)).write_addr
    · simp
    · simp only [if_true]; rw [hwa hf1]

/-! ## Input registers after the dereference pass -/

theorem Emu16.resolved_regs_16 (s : Emu16.CPU) (wa : Nat) (mid res : Emu16.CPU)
    (hf : Emu16.fetch_operands s = some (⟨s.memory s.pc⟩, wa, mid))
    (hr : Emu16.resolve ⟨s.memory s.pc⟩ mid = some res) :
    (∀ j, mid.reg_in j =
      if j < (Emu16.Instruction.mk (s.memory s.pc)).argc
      then s.memory (s.pc + 1 + (Emu16.Instruction.mk (s.memory s.pc)).write_addr + j)
      else s.reg_in j) ∧
    res.reg_in 0 = (if (Emu16.Instruction.mk (s.memory s.pc)).read_addr0
      then s.memory (mid.reg_in 0) else mid.reg_in 0) ∧
    res.reg_in 1 = (if (Emu16.Instruction.mk (s.memory s.pc)).read_addr1
      then s.memory (mid.reg_in 1) else mid.reg_in 1) ∧
    ∀ j, 2 ≤ j → res.reg_in j = mid.reg_in j := by
  obtain ⟨-, -, -, -, hreg, hm, -, -, -, -⟩ := Emu16.fetch_operands_spec_16 s _ wa mid hf
  obtain ⟨-, -, -, -, -, -, -, -, r0, r1, r2⟩ := Emu16.resolve_spec_16 _ mid res hr
  rw [hm] at r0 r1
  exact ⟨hreg, r0, r1, r2⟩

theorem Emu16.add_immediate_16 (s : Emu16.CPU) (a b : Nat) (h : Emu16.in_bounds s)
    (hop : (Emu16.Instruction.mk (s.memory s.pc)).operation = Emu16.OP_ADD)
    (hn : (Emu16.Instruction.mk (s.memory s.pc)).argc = 2)
    (h0 : (Emu16.Instruction.mk (s.memory s.pc)).read_addr0 = false)
    (h1 : (Emu16.Instruction.mk (s.memory s.pc)).read_addr1 = false)
    (ha : s.memory (s.pc + 1 + (Emu16.Instruction.mk (s.memory s.pc)).write_addr) = a)
    (hb : s.memory (s.pc + 1 + (Emu16.Instruction.mk (s.memory s.pc)).write_addr + 1) = b) :
    ∃ s', Emu16.step_cpu s = some s' ∧ s'.reg_out = (a + b) % Emu16.WORD := by
  obtain ⟨wa, mid, res, s', hf, hr, hs, -, -, -, -, -, -, -, ho, -, -, -, -⟩ :=
    Emu16.step_cpu_effect_16 s h
  obtain ⟨hreg, r0, r1, -⟩ := Emu16.resolved_regs_16 s wa mid res hf hr
  refine ⟨s', hs, ?_⟩
  rw [ho]
  simp [Emu16.execute, hop, Emu16.OP_ADD, Emu16.OP_NONE, Emu16.OP_COPY, r0, r1, h0, h1,
    hreg 0, hreg 1, hn, ha, hb]

theorem Emu16.halt_sets_halted_16 (s : Emu16.CPU) (h : Emu16.in_bounds s)
    (hop : (Emu16.Instruction.mk (s.memory s.pc)).operation = Emu16.OP_HALT) :
    ∃ s', Emu16.step_cpu s = some s' ∧ s'.halted = true := by
  obtain ⟨wa, mid, res, s', hf, hr, hs, -, -, -, -, -, -, -, -, hl, -, -, -⟩ :=
    Emu16.step_cpu_effect_16 s h
  refine ⟨s', hs, ?_⟩
  rw [hl]
  simp [Emu16.execute, hop, Emu16.OP_HALT, Emu16.OP_ADD, Emu16.OP_NONE, Emu16.OP_COPY,
    Emu16.OP_JUMP_IF_ZERO, Emu16.OP_POKE]

theorem Emu16.execute_table_16 (ix : Emu16.Instruction) (c : Emu16.CPU) :
    (ix.operation = 0 → Emu16.execute ix c = c) ∧
    (ix.operation = 1 → Emu16.execute ix c = { c with reg_out := c.reg_in 0 }) ∧
    (ix.operation = 2 → Emu16.execute ix c = c) ∧
    (ix.operation = 3 → Emu16.execute ix c =
      { c with reg_out := (c.reg_in 0 + c.reg_in 1) % Emu16.WORD }) ∧
    (ix.operation = 4 → Emu16.execute ix c =
      (if c.reg_in 1 = 0 then { c with pc := c.reg_in 0 } else c)) ∧
    (ix.operation = 5 → Emu16.execute ix c =
      { c with stdout := c.stdout ++ [c.reg_in 1 % 256] }) ∧
    (ix.operation = 6 → Emu16.execute ix c = { c with halted := true }) ∧
    (6 < ix.operation → Emu16.execute ix c = c) := by
  refine ⟨?_, ?_, ?_, ?_, ?_, ?_, ?_, ?_⟩ <;> intro h
  all_goals
    try simp [Emu16.execute, h, Emu16.OP_HALT, Emu16.OP_ADD, Emu16.OP_NONE, Emu16.OP_COPY,
      Emu16.OP_JUMP_IF_ZERO, Emu16.OP_POKE]
  have e0 : ix.operation ≠ 0 := by omega
  have e1 : ix.operation ≠ 1 := by omega
  have e3 : ix.operation ≠ 3 := by omega
  have e4 : ix.operation ≠ 4 := by omega
  have e5 : ix.operation ≠ 5 := by omega
  have e6 : ix.operation ≠ 6 := by omega
  simp [Emu16.execute, Emu16.OP_HALT, Emu16.OP_ADD, Emu16.OP_NONE, Emu16.OP_COPY,
      Emu16.OP_JUMP_IF_ZERO, Emu16.OP_POKE, e0, e1, e3, e4, e5, e6]

theorem Emu8.resolved_regs_8 (s : Emu8.CPU) (wa : Nat) (mid res : Emu8.CPU)
    (hf : Emu8.fetch_operands ⟨s.memory s.pc⟩ { s with pc := (s.pc + 1) % Emu8.WORD } =
      some (wa, mid))
    (hr : Emu8.resolve ⟨s.memory s.pc⟩ mid = some res) :
    (∀ j, mid.reg_in j =
      if j < (Emu8.Instruction.mk (s.memory s.pc)).nargs
      then s.memory ((s.pc + 1 +
        (if (Emu8.Instruction.mk (s.memory s.pc)).write_addr then 1 else 0) + j) % Emu8.WORD)
      else s.reg_in j) ∧
    res.reg_in 0 =
      (if ((Emu8.Instruction.mk (s.memory s.pc)).read_addr1 &&
          Emu8.copy_quirk ⟨s.memory s.pc⟩) = true
       then s.memory (if (Emu8.Instruction.mk (s.memory s.pc)).read_addr0
         then s.memory (mid.reg_in 0) else mid.reg_in 0)
       else (if (Emu8.Instruction.mk (s.memory s.pc)).read_addr0
         then s.memory (mid.reg_in 0) else mid.reg_in 0)) ∧
    res.reg_in 1 =
      (if ((Emu8.Instruction.mk (s.memory s.pc)).read_addr1 &&
          !Emu8.copy_quirk ⟨s.memory s.pc⟩) = true
       then s.memory (mid.reg_in 1) else mid.reg_in 1) ∧
    ∀ j, 2 ≤ j → res.reg_in j = mid.reg_in j := by
  have hlt : ({ s with pc := (s.pc + 1) % Emu8.WORD } : Emu8.CPU).pc < Emu8.WORD :=
    Nat.mod_lt _ (by decide)
  obtain ⟨-, -, hreg, hm, -, -, -⟩ := Emu8.fetch_operands_spec_8 _ _ wa mid hlt hf
  obtain ⟨-, -, -, -, -, r0, r1, r2⟩ := Emu8.resolve_spec_8 _ mid res hr
  simp only at hreg hm
  rw [hm] at r0 r1
  refine ⟨?_, r0, r1, r2⟩
  intro j
  rw [hreg j]
  have e : ((s.pc + 1) % Emu8.WORD +
      (if (Emu8.Instruction.mk (s.memory s.pc)).write_addr = true then 1 else 0) + j) % Emu8.WORD
      = (s.pc + 1 + (if (Emu8.Instruction.mk (s.memory s.pc)).write_addr = true then 1 else 0)
        + j) % Emu8.WORD := by
    simp only [Emu8.WORD]; omega
  rw [e]

theorem Emu8.add_immediate_8 (s : Emu8.CPU) (a b : Nat) (h : Emu8.WF s)
    (hop : (Emu8.Instruction.mk (s.memory s.pc)).operation = Emu8.OP_ADD)
    (hn : (Emu8.Instruction.mk (s.memory s.pc)).nargs = 2)
    (h0 : (Emu8.Instruction.mk (s.memory s.pc)).read_addr0 = false)
    (h1 : (Emu8.Instruction.mk (s.memory s.pc)).read_addr1 = false)
    (ha : s.memory ((s.pc + 1 +
      (if (Emu8.Instruction.mk (s.memory s.pc)).write_addr then 1 else 0)) % Emu8.WORD) = a)
    (hb : s.memory ((s.pc + 1 +
      (if (Emu8.Instruction.mk (s.memory s.pc)).write_addr then 1 else 0) + 1) % Emu8.WORD) = b) :
    ∃ s', Emu8.step_cpu s = some s' ∧ s'.reg_out = (a + b) % Emu8.WORD := by
  have hne : (Emu8.Instruction.mk (s.memory s.pc)).operation ≠ Emu8.OP_HALT := by
    rw [hop]; decide
  obtain ⟨wa, mid, res, s', hf, hr, hs, -, -, -, -, -, -, -, ho, -, -, -⟩ :=
    Emu8.step_cpu_effect_8 s h hne
  obtain ⟨hreg, r0, r1, -⟩ := Emu8.resolved_regs_8 s wa mid res hf hr
  refine ⟨s', hs, ?_⟩
  rw [ho]
  have e0 := hreg 0
  have e1 := hreg 1
  rw [hn] at e0 e1
  simp only [Nat.add_zero, Nat.lt_succ_self, if_true, Nat.zero_lt_succ] at e0 e1
  simp [Emu8.execute, hop, Emu8.OP_ADD, Emu8.OP_NONE, Emu8.OP_COPY, r0, r1, h0, h1,
    e0, e1, ha, hb]

theorem Emu8.halt_sets_halted_8 (s : Emu8.CPU) (hpc : s.pc < Emu8.WORD)
    (hop : (Emu8.Instruction.mk (s.memory s.pc)).operation = Emu8.OP_HALT) :
    ∃ s', Emu8.step_cpu s = some s' ∧ s'.halted = true :=
  ⟨_, Emu8.step_cpu_halt s hpc hop, rfl⟩

theorem Emu8.execute_table_8 (ix : Emu8.Instruction) (c : Emu8.CPU) :
    (ix.operation = 0 → Emu8.execute ix c = c) ∧
    (ix.operation = 1 → Emu8.execute ix c = { c with reg_out := c.reg_in 0 }) ∧
    (ix.operation = 2 → Emu8.execute ix c =
      { c with reg_out := (c.reg_in 0 + c.reg_in 1) % Emu8.WORD }) ∧
    (ix.operation = 3 → Emu8.execute ix c =
      (if c.reg_in 1 = 0 then { c with pc := c.reg_in 0 } else c)) ∧
    (ix.operation = 4 → Emu8.execute ix c =
      { c with stdout := c.stdout ++ [c.reg_in 1 % 256] }) ∧
    (4 < ix.operation → Emu8.execute ix c = c) := by
  refine ⟨?_, ?_, ?_, ?_, ?_, ?_⟩ <;> intro h
  all_goals
    try simp [Emu8.execute, h, Emu8.OP_ADD, Emu8.OP_NONE, Emu8.OP_COPY,
      Emu8.OP_JUMP_IF_ZERO, Emu8.OP_POKE]
  have e0 : ix.operation ≠ 0 := by omega
  have e1 : ix.operation ≠ 1 := by omega
  have e2 : ix.operation ≠ 2 := by omega
  have e3 : ix.operation ≠ 3 := by omega
  have e4 : ix.operation ≠ 4 := by omega
  simp [Emu8.execute, Emu8.OP_ADD, Emu8.OP_NONE, Emu8.OP_COPY,
      Emu8.OP_JUMP_IF_ZERO, Emu8.OP_POKE, e0, e1, e2, e3, e4]

theorem Emu16.execute_fields_16 (ix : Emu16.Instruction) (c : Emu16.CPU) :
    (Emu16.execute ix c).reg_out =
      (if ix.operation = Emu16.OP_COPY then c.reg_in 0
       else if ix.operation = Emu16.OP_ADD then (c.reg_in 0 + c.reg_in 1) % Emu16.WORD
       else c.reg_out) ∧
    (Emu16.execute ix c).pc =
      (if ix.operation = Emu16.OP_JUMP_IF_ZERO ∧ c.reg_in 1 = 0 then c.reg_in 0 else c.pc) ∧
    (Emu16.execute ix c).stdout =
      (if ix.operation = Emu16.OP_POKE then c.stdout ++ [c.reg_in 1 % 256] else c.stdout) ∧
    (Emu16.execute ix c).halted = (c.halted || decide (ix.operation = Emu16.OP_HALT)) := by
  unfold Emu16.execute
  simp only [Emu16.OP_NONE, Emu16.OP_COPY, Emu16.OP_ADD, Emu16.OP_JUMP_IF_ZERO, Emu16.OP_POKE,
    Emu16.OP_HALT]
  by_cases k0 : ix.operation = 0
  · simp [k0]
  by_cases k1 : ix.operation = 1
  · simp [k1]
  by_cases k3 : ix.operation = 3
  · simp [k3]
  by_cases k4 : ix.operation = 4
  · by_cases hz : c.reg_in 1 = 0 <;> simp [k4, hz]
  by_cases k5 : ix.operation = 5
  · simp [k5]
  by_cases k6 : ix.operation = 6
  · simp [k6]
  simp [k0, k1, k3, k4, k5, k6]

theorem Emu8.execute_fields_8 (ix : Emu8.Instruction) (c : Emu8.CPU) :
    (Emu8.execute ix c).reg_out =
      (if ix.operation = Emu8.OP_COPY then c.reg_in 0
       else if ix.operation = Emu8.OP_ADD then (c.reg_in 0 + c.reg_in 1) % Emu8.WORD
       else c.reg_out) ∧
    (Emu8.execute ix c).pc =
      (if ix.operation = Emu8.OP_JUMP_IF_ZERO ∧ c.reg_in 1 = 0 then c.reg_in 0 else c.pc) ∧
    (Emu8.execute ix c).stdout =
      (if ix.operation = Emu8.OP_POKE then c.stdout ++ [c.reg_in 1 % 256] else c.stdout) := by
  unfold Emu8.execute
  simp only [Emu8.OP_NONE, Emu8.OP_COPY, Emu8.OP_ADD, Emu8.OP_JUMP_IF_ZERO, Emu8.OP_POKE]
  by_cases k0 : ix.operation = 0
  · simp [k0]
  by_cases k1 : ix.operation = 1
  · simp [k1]
  by_cases k2 : ix.operation = 2
  · simp [k2]
  by_cases k3 : ix.operation = 3
  · by_cases hz : c.reg_in 1 = 0 <;> simp [k3, hz]
  by_cases k4 : ix.operation = 4
  · simp [k4]
  simp [k0, k1, k2, k3, k4]

/-! ## The claims -/

/-- C1. Encode/decode round trip in both configurations: a word built the way
the driver builds it, from an opcode, the three flags and an argument count in
their legal ranges, is a machine word and decodes through the `Instruction`
fields to the same opcode, `read_addr0`, `read_addr1`, `write_addr` and argument
count (16-bit: `argc` in 0..3; 8-bit: 1 or 2 arguments, stored as `argc - 1`). -/
theorem c1_encode_decode_roundtrip :
    (∀ (argc op : Nat) (w r0 r1 : Bool), argc < 4 → op < 256 →
      Emu16.encode argc w r0 r1 op < Emu16.WORD ∧
      (Emu16.Instruction.mk (Emu16.encode argc w r0 r1 op)).operation = op ∧
      (Emu16.Instruction.mk (Emu16.encode argc w r0 r1 op)).read_addr0 = r0 ∧
      (Emu16.Instruction.mk (Emu16.encode argc w r0 r1 op)).read_addr1 = r1 ∧
      (Emu16.Instruction.mk (Emu16.encode argc w r0 r1 op)).write_addr = (if w then 1 else 0) ∧
      (Emu16.Instruction.mk (Emu16.encode argc w r0 r1 op)).argc = argc) ∧
    (∀ (argc op : Nat) (w r0 r1 : Bool), argc = 1 ∨ argc = 2 → op < 16 →
      Emu8.encode argc w r0 r1 op < Emu8.WORD ∧
      (Emu8.Instruction.mk (Emu8.encode argc w r0 r1 op)).operation = op ∧
      (Emu8.Instruction.mk (Emu8.encode argc w r0 r1 op)).read_addr0 = r0 ∧
      (Emu8.Instruction.mk (Emu8.encode argc w r0 r1 op)).read_addr1 = r1 ∧
      (Emu8.Instruction.mk (Emu8.encode argc w r0 r1 op)).write_addr = w ∧
      (Emu8.Instruction.mk (Emu8.encode argc w r0 r1 op)).argc = argc - 1 ∧
      (Emu8.Instruction.mk (Emu8.encode argc w r0 r1 op)).nargs = argc) :=
  ⟨fun argc op w r0 r1 ha hop => Emu16.encode_fields_16 argc op w r0 r1 ha hop,
   fun argc op w r0 r1 ha hop => Emu8.encode_fields_8 argc op w r0 r1 ha hop⟩

/-- C1 at the driver's `(2 << IOFFSET_LEN) | IBIT_WRITEADDR | IBIT_READADDR1 | OP_ADD`
and at the 8-bit `IBIT_TWOARGS | IBIT_WRITEADDR | IBIT_READADDR1 | OP_ADD`. -/
theorem c1_encode_decode_roundtrip_witness :
    (Emu16.encode 2 true false true Emu16.OP_ADD = 0x2503 ∧
      (Emu16.Instruction.mk 0x2503).operation = Emu16.OP_ADD ∧
      (Emu16.Instruction.mk 0x2503).read_addr1 = true ∧
      (Emu16.Instruction.mk 0x2503).argc = 2) ∧
    (Emu8.encode 2 true false true Emu8.OP_ADD = 0xD2 ∧
      (Emu8.Instruction.mk 0xD2).operation = Emu8.OP_ADD ∧
      (Emu8.Instruction.mk 0xD2).read_addr1 = true ∧
      (Emu8.Instruction.mk 0xD2).nargs = 2) := by
  have h16 := c1_encode_decode_roundtrip.1 2 Emu16.OP_ADD true false true (by decide) (by decide)
  have h8 := c1_encode_decode_roundtrip.2 2 Emu8.OP_ADD true false true (by decide) (by decide)
  have e16 : Emu16.encode 2 true false true Emu16.OP_ADD = 0x2503 := by decide
  have e8 : Emu8.encode 2 true false true Emu8.OP_ADD = 0xD2 := by decide
  rw [e16] at h16
  rw [e8] at h8
  exact ⟨⟨e16, h16.2.1, h16.2.2.2.1, h16.2.2.2.2.2⟩, ⟨e8, h8.2.1, h8.2.2.2.1, h8.2.2.2.2.2.2⟩⟩

theorem imageOf_lt (img : List Nat) (n : Nat) (hn : 0 < n) (h : ∀ x ∈ img, x < n) (a : Nat) :
    imageOf img a < n := by
  unfold imageOf
  by_cases ha : a < img.length
  · rw [List.getD_eq_getElem _ _ ha]
    exact h _ (List.getElem_mem ha)
  · rw [List.getD_eq_default _ _ (by omega)]
    exact hn

theorem Emu8.WF_boot (img : List Nat) (h : ∀ x ∈ img, x < 256) : Emu8.WF (Emu8.boot img) :=
  ⟨by simp [Emu8.boot, Emu8.init_cpu, Emu8.WORD],
   fun _ => by simp [Emu8.boot, Emu8.init_cpu, Emu8.WORD],
   by simp [Emu8.boot, Emu8.init_cpu, Emu8.WORD],
   fun a => imageOf_lt img 256 (by decide) h a⟩

/-- C3, as stated, fails in the 16-bit configuration, whose enumeration has
`OP_DEREF` at 2: the word 0x2002 (opcode field 2, two immediate arguments 1 and
2) leaves `reg_out` at 0, not 3, and the word 0x0005 (opcode field 5) is `POKE`:
it prints a byte and leaves `halted` false. -/
theorem c3_opcode_numbering_counterexample :
    ((Emu16.Instruction.mk ((Emu16.boot [0x2002, 1, 2]).memory 0)).operation = 2 ∧
      (Emu16.Instruction.mk ((Emu16.boot [0x2002, 1, 2]).memory 0)).argc = 2 ∧
      (Emu16.Instruction.mk ((Emu16.boot [0x2002, 1, 2]).memory 0)).read_addr0 = false ∧
      (Emu16.Instruction.mk ((Emu16.boot [0x2002, 1, 2]).memory 0)).read_addr1 = false ∧
      (Emu16.step_cpu (Emu16.boot [0x2002, 1, 2])).map (fun c => (c.reg_in 0, c.reg_in 1, c.reg_out))
        = some (1, 2, 0) ∧
      (1 + 2) % Emu16.WORD ≠ 0) ∧
    ((Emu16.Instruction.mk ((Emu16.boot [0x0005]).memory 0)).operation = 5 ∧
      (Emu16.step_cpu (Emu16.boot [0x0005])).map (fun c => (c.halted, c.stdout))
        = some (false, [0])) := by
  decide

/-- C3, amended. The 8-bit configuration numbers the operations 0..5 as NONE,
COPY, ADD, JUMP_IF_ZERO, POKE, HALT; the 16-bit configuration declares `OP_DEREF`
at 2, so there NONE, COPY, ADD, JUMP_IF_ZERO, POKE, HALT are 0, 1, 3, 4, 5, 6 and the
opcode field 2, like every value above 6, has no case in the dispatch. For every
state (touched addresses in bounds) whose instruction has the ADD opcode (16-bit:
3, 8-bit: 2) and two immediate arguments `a`, `b`, the step leaves
`reg_out = (a + b) mod 2^w`; for every such state whose instruction has the HALT
opcode (16-bit: 6, 8-bit: 5) the step sets `halted`. -/
theorem c3_opcode_numbering :
    ((∀ (ix : Emu16.Instruction) (c : Emu16.CPU),
        (ix.operation = 0 → Emu16.execute ix c = c) ∧
        (ix.operation = 1 → Emu16.execute ix c = { c with reg_out := c.reg_in 0 }) ∧
        (ix.operation = 2 → Emu16.execute ix c = c) ∧
        (ix.operation = 3 → Emu16.execute ix c =
          { c with reg_out := (c.reg_in 0 + c.reg_in 1) % Emu16.WORD }) ∧
        (ix.operation = 4 → Emu16.execute ix c =
          (if c.reg_in 1 = 0 then { c with pc := c.reg_in 0 } else c)) ∧
        (ix.operation = 5 → Emu16.execute ix c =
          { c with stdout := c.stdout ++ [c.reg_in 1 % 256] }) ∧
        (ix.operation = 6 → Emu16.execute ix c = { c with halted := true }) ∧
        (6 < ix.operation → Emu16.execute ix c = c)) ∧
      (∀ (s : Emu16.CPU) (a b : Nat), Emu16.in_bounds s →
        (Emu16.Instruction.mk (s.memory s.pc)).operation = 3 →
        (Emu16.Instruction.mk (s.memory s.pc)).argc = 2 →
        (Emu16.Instruction.mk (s.memory s.pc)).read_addr0 = false →
        (Emu16.Instruction.mk (s.memory s.pc)).read_addr1 = false →
        s.memory (s.pc + 1 + (Emu16.Instruction.mk (s.memory s.pc)).write_addr) = a →
        s.memory (s.pc + 1 + (Emu16.Instruction.mk (s.memory s.pc)).write_addr + 1) = b →
        ∃ s', Emu16.step_cpu s = some s' ∧ s'.reg_out = (a + b) % 2 ^ 16) ∧
      (∀ s : Emu16.CPU, Emu16.in_bounds s →
        (Emu16.Instruction.mk (s.memory s.pc)).operation = 6 →
        ∃ s', Emu16.step_cpu s = some s' ∧ s'.halted = true)) ∧
    ((∀ (ix : Emu8.Instruction) (c : Emu8.CPU),
        (ix.operation = 0 → Emu8.execute ix c = c) ∧
        (ix.operation = 1 → Emu8.execute ix c = { c with reg_out := c.reg_in 0 }) ∧
        (ix.operation = 2 → Emu8.execute ix c =
          { c with reg_out := (c.reg_in 0 + c.reg_in 1) % Emu8.WORD }) ∧
        (ix.operation = 3 → Emu8.execute ix c =
          (if c.reg_in 1 = 0 then { c with pc := c.reg_in 0 } else c)) ∧
        (ix.operation = 4 → Emu8.execute ix c =
          { c with stdout := c.stdout ++ [c.reg_in 1 % 256] }) ∧
        (4 < ix.operation → Emu8.execute ix c = c)) ∧
      (∀ (s : Emu8.CPU) (a b : Nat), Emu8.WF s →
        (Emu8.Instruction.mk (s.memory s.pc)).operation = 2 →
        (Emu8.Instruction.mk (s.memory s.pc)).nargs = 2 →
        (Emu8.Instruction.mk (s.memory s.pc)).read_addr0 = false →
        (Emu8.Instruction.mk (s.memory s.pc)).read_addr1 = false →
        s.memory ((s.pc + 1 +
          (if (Emu8.Instruction.mk (s.memory s.pc)).write_addr then 1 else 0)) % 256) = a →
        s.memory ((s.pc + 1 +
          (if (Emu8.Instruction.mk (s.memory s.pc)).write_addr then 1 else 0) + 1) % 256) = b →
        ∃ s', Emu8.step_cpu s = some s' ∧ s'.reg_out = (a + b) % 2 ^ 8) ∧
      (∀ s : Emu8.CPU, Emu8.WF s →
        (Emu8.Instruction.mk (s.memory s.pc)).operation = 5 →
        ∃ s', Emu8.step_cpu s = some s' ∧ s'.halted = true)) :=
  ⟨⟨Emu16.execute_table_16,
    fun s a b h hop hn h0 h1 ha hb => Emu16.add_immediate_16 s a b h hop hn h0 h1 ha hb,
    fun s h hop => Emu16.halt_sets_halted_16 s h hop⟩,
   ⟨Emu8.execute_table_8,
    fun s a b h hop hn h0 h1 ha hb => Emu8.add_immediate_8 s a b h hop hn h0 h1 ha hb,
    fun s h hop => Emu8.halt_sets_halted_8 s h.1 hop⟩⟩

/-- C3 (amended) at concrete states: the 16-bit ADD word 0x2003 with arguments
65535 and 1, the 16-bit HALT word 0x0006, the 8-bit ADD word 0x82 with arguments
255 and 1, the 8-bit HALT word 0x05. -/
theorem c3_opcode_numbering_witness :
    (∃ s', Emu16.step_cpu (Emu16.boot [0x2003, 65535, 1]) = some s' ∧
      s'.reg_out = (65535 + 1) % 2 ^ 16) ∧
    (∃ s', Emu16.step_cpu (Emu16.boot [0x0006]) = some s' ∧ s'.halted = true) ∧
    (∃ s', Emu8.step_cpu (Emu8.boot [0x82, 255, 1]) = some s' ∧
      s'.reg_out = (255 + 1) % 2 ^ 8) ∧
    (∃ s', Emu8.step_cpu (Emu8.boot [0x05]) = some s' ∧ s'.halted = true) :=
  ⟨c3_opcode_numbering.1.2.1 (Emu16.boot [0x2003, 65535, 1]) 65535 1 (by decide) (by decide)
      (by decide) (by decide) (by decide) (by decide) (by decide),
   c3_opcode_numbering.1.2.2 (Emu16.boot [0x0006]) (by decide) (by decide),
   c3_opcode_numbering.2.2.1 (Emu8.boot [0x82, 255, 1]) 255 1
      (Emu8.WF_boot _ (by decide)) (by decide) (by decide) (by decide) (by decide)
      (by decide) (by decide),
   c3_opcode_numbering.2.2.2 (Emu8.boot [0x05]) (Emu8.WF_boot _ (by decide)) (by decide)⟩

theorem Emu16.layout_16 (s : Emu16.CPU) (h : Emu16.in_bounds s) :
    ∃ wa mid s', Emu16.fetch_operands s = some (⟨s.memory s.pc⟩, wa, mid) ∧
      Emu16.step_cpu s = some s' ∧
      (Emu16.Instruction.mk (s.memory s.pc)).write_addr ≤ 1 ∧
      (Emu16.Instruction.mk (s.memory s.pc)).argc ≤ 3 ∧
      ((Emu16.Instruction.mk (s.memory s.pc)).write_addr = 1 → wa = s.memory (s.pc + 1)) ∧
      (∀ i, i < (Emu16.Instruction.mk (s.memory s.pc)).argc →
        mid.reg_in i =
          s.memory (s.pc + 1 + (Emu16.Instruction.mk (s.memory s.pc)).write_addr + i)) ∧
      (∀ i, (Emu16.Instruction.mk (s.memory s.pc)).argc ≤ i → mid.reg_in i = s.reg_in i) ∧
      mid.pc = s.pc + 1 + (Emu16.Instruction.mk (s.memory s.pc)).write_addr +
        (Emu16.Instruction.mk (s.memory s.pc)).argc ∧
      s'.pc =
        (if (Emu16.Instruction.mk (s.memory s.pc)).operation = Emu16.OP_JUMP_IF_ZERO ∧
            s'.reg_in 1 = 0
         then s'.reg_in 0
         else (s.pc + 1 + (Emu16.Instruction.mk (s.memory s.pc)).write_addr +
            (Emu16.Instruction.mk (s.memory s.pc)).argc) % Emu16.WORD) := by
  obtain ⟨wa, mid, res, s', hf, hr, hs, hpc, -, -, -, -, hp', hreg', -, -, -, -, -⟩ :=
    Emu16.step_cpu_effect_16 s h
  obtain ⟨-, hb, hwa, hmpc, hreg, -, -, -, -, -⟩ := Emu16.fetch_operands_spec_16 s _ wa mid hf
  have hf1 := Emu16.write_addr_le_one ⟨s.memory s.pc⟩
  have hn := Emu16.argc_lt_four ⟨s.memory s.pc⟩
  refine ⟨wa, mid, s', hf, hs, by omega, by omega, hwa, ?_, ?_, hmpc, ?_⟩
  · intro i hi; rw [hreg i, if_pos hi]
  · intro i hi; rw [hreg i, if_neg (by omega)]
  · have hmod : (s.pc + 1 + (Emu16.Instruction.mk (s.memory s.pc)).write_addr +
        (Emu16.Instruction.mk (s.memory s.pc)).argc) % Emu16.WORD =
        s.pc + 1 + (Emu16.Instruction.mk (s.memory s.pc)).write_addr +
        (Emu16.Instruction.mk (s.memory s.pc)).argc := by
      apply Nat.mod_eq_of_lt
      simp only [Emu16.MEMSIZE, Emu16.ZERO_PAGE_SIZE] at hb
      simp only [Emu16.WORD]
      have : (1 <<< 16 - 1 <<< 8 : Nat) = 65280 := by decide
      omega
    rw [hp', hreg', hmod]
    unfold Emu16.execute
    split_ifs <;> simp_all [Emu16.OP_NONE, Emu16.OP_COPY, Emu16.OP_ADD, Emu16.OP_JUMP_IF_ZERO,
      Emu16.OP_POKE, Emu16.OP_HALT]

theorem Emu8.layout_8 (s : Emu8.CPU) (h : Emu8.WF s)
    (hop : (Emu8.Instruction.mk (s.memory s.pc)).operation ≠ Emu8.OP_HALT) :
    ∃ wa mid s',
      Emu8.fetch_operands ⟨s.memory s.pc⟩ { s with pc := (s.pc + 1) % Emu8.WORD } =
        some (wa, mid) ∧
      Emu8.step_cpu s = some s' ∧
      ((Emu8.Instruction.mk (s.memory s.pc)).nargs = 1 ∨
        (Emu8.Instruction.mk (s.memory s.pc)).nargs = 2) ∧
      ((Emu8.Instruction.mk (s.memory s.pc)).write_addr = true →
        wa = s.memory ((s.pc + 1) % Emu8.WORD)) ∧
      (∀ i, i < (Emu8.Instruction.mk (s.memory s.pc)).nargs →
        mid.reg_in i = s.memory ((s.pc + 1 +
          (if (Emu8.Instruction.mk (s.memory s.pc)).write_addr then 1 else 0) + i)
            % Emu8.WORD)) ∧
      (∀ i, (Emu8.Instruction.mk (s.memory s.pc)).nargs ≤ i → mid.reg_in i = s.reg_in i) ∧
      mid.pc = (s.pc + 1 + (if (Emu8.Instruction.mk (s.memory s.pc)).write_addr then 1 else 0) +
        (Emu8.Instruction.mk (s.memory s.pc)).nargs) % Emu8.WORD ∧
      s'.pc =
        (if (Emu8.Instruction.mk (s.memory s.pc)).operation = Emu8.OP_JUMP_IF_ZERO ∧
            s'.reg_in 1 = 0
         then s'.reg_in 0
         else (s.pc + 1 + (if (Emu8.Instruction.mk (s.memory s.pc)).write_addr then 1 else 0) +
            (Emu8.Instruction.mk (s.memory s.pc)).nargs) % Emu8.WORD) := by
  obtain ⟨wa, mid, res, s', hf, hr, hs, hpc, -, -, -, -, hp', hreg', -, -, -, -⟩ :=
    Emu8.step_cpu_effect_8 s h hop
  have hlt : ({ s with pc := (s.pc + 1) % Emu8.WORD } : Emu8.CPU).pc < Emu8.WORD :=
    Nat.mod_lt _ (by decide)
  obtain ⟨hwa, -, -, -, -, -, -⟩ := Emu8.fetch_operands_spec_8 _ _ wa mid hlt hf
  obtain ⟨hreg, -, -, -⟩ := Emu8.resolved_regs_8 s wa mid res hf hr
  obtain ⟨p1, -, -, -, -, -, -, -⟩ := Emu8.resolve_spec_8 _ mid res hr
  refine ⟨wa, mid, s', hf, hs, Emu8.nargs_cases _, hwa, ?_, ?_, ?_, ?_⟩
  · intro i hi; rw [hreg i, if_pos hi]
  · intro i hi; rw [hreg i, if_neg (by omega)]
  · rw [← p1, hpc]
  · rw [hp', hreg']
    unfold Emu8.execute
    split_ifs <;> simp_all [Emu8.OP_NONE, Emu8.OP_COPY, Emu8.OP_ADD, Emu8.OP_JUMP_IF_ZERO,
      Emu8.OP_POKE, Emu8.OP_HALT]

/-- C4. Instruction layout. For every CPU state whose touched addresses are in
bounds (8-bit: every well-formed state whose opcode is not HALT), with write
flag `f` and argument count `n` decoded from the word at `pc` (16-bit: `n = argc`,
at most 3; 8-bit: `n = argc + 1`, 1 or 2): the argument-fetch phase and the whole
step both return; the pending write address is `memory[pc+1]` when `f = 1`; raw
argument `i < n` is loaded from `memory[pc+1+f+i]` (so after the write address)
and the other input registers keep their values; `pc` after the fetch is
`pc+1+f+n`; and the step leaves `pc = pc+1+f+n` modulo the word width unless the
opcode is JUMP_IF_ZERO and the resolved input register 1 is zero, when it leaves
`pc` = resolved input register 0. The dereference flags and the write-back do not
enter any of these. In the 8-bit configuration addresses are taken modulo 256. -/
theorem c4_instruction_layout :
    (∀ s : Emu16.CPU, Emu16.in_bounds s →
      ∃ wa mid s', Emu16.fetch_operands s = some (⟨s.memory s.pc⟩, wa, mid) ∧
        Emu16.step_cpu s = some s' ∧
        (Emu16.Instruction.mk (s.memory s.pc)).write_addr ≤ 1 ∧
        (Emu16.Instruction.mk (s.memory s.pc)).argc ≤ 3 ∧
        ((Emu16.Instruction.mk (s.memory s.pc)).write_addr = 1 → wa = s.memory (s.pc + 1)) ∧
        (∀ i, i < (Emu16.Instruction.mk (s.memory s.pc)).argc →
          mid.reg_in i =
            s.memory (s.pc + 1 + (Emu16.Instruction.mk (s.memory s.pc)).write_addr + i)) ∧
        (∀ i, (Emu16.Instruction.mk (s.memory s.pc)).argc ≤ i → mid.reg_in i = s.reg_in i) ∧
        mid.pc = s.pc + 1 + (Emu16.Instruction.mk (s.memory s.pc)).write_addr +
          (Emu16.Instruction.mk (s.memory s.pc)).argc ∧
        s'.pc =
          (if (Emu16.Instruction.mk (s.memory s.pc)).operation = Emu16.OP_JUMP_IF_ZERO ∧
              s'.reg_in 1 = 0
           then s'.reg_in 0
           else (s.pc + 1 + (Emu16.Instruction.mk (s.memory s.pc)).write_addr +
              (Emu16.Instruction.mk (s.memory s.pc)).argc) % Emu16.WORD)) ∧
    (∀ s : Emu8.CPU, Emu8.WF s →
      (Emu8.Instruction.mk (s.memory s.pc)).operation ≠ Emu8.OP_HALT →
      ∃ wa mid s',
        Emu8.fetch_operands ⟨s.memory s.pc⟩ { s with pc := (s.pc + 1) % Emu8.WORD } =
          some (wa, mid) ∧
        Emu8.step_cpu s = some s' ∧
        ((Emu8.Instruction.mk (s.memory s.pc)).nargs = 1 ∨
          (Emu8.Instruction.mk (s.memory s.pc)).nargs = 2) ∧
        ((Emu8.Instruction.mk (s.memory s.pc)).write_addr = true →
          wa = s.memory ((s.pc + 1) % Emu8.WORD)) ∧
        (∀ i, i < (Emu8.Instruction.mk (s.memory s.pc)).nargs →
          mid.reg_in i = s.memory ((s.pc + 1 +
            (if (Emu8.Instruction.mk (s.memory s.pc)).write_addr then 1 else 0) + i)
              % Emu8.WORD)) ∧
        (∀ i, (Emu8.Instruction.mk (s.memory s.pc)).nargs ≤ i → mid.reg_in i = s.reg_in i) ∧
        mid.pc = (s.pc + 1 +
          (if (Emu8.Instruction.mk (s.memory s.pc)).write_addr then 1 else 0) +
          (Emu8.Instruction.mk (s.memory s.pc)).nargs) % Emu8.WORD ∧
        s'.pc =
          (if (Emu8.Instruction.mk (s.memory s.pc)).operation = Emu8.OP_JUMP_IF_ZERO ∧
              s'.reg_in 1 = 0
           then s'.reg_in 0
           else (s.pc + 1 +
              (if (Emu8.Instruction.mk (s.memory s.pc)).write_addr then 1 else 0) +
              (Emu8.Instruction.mk (s.memory s.pc)).nargs) % Emu8.WORD)) :=
  ⟨Emu16.layout_16, Emu8.layout_8⟩

theorem Emu8.WF_wrap_state : Emu8.WF Emu8.wrap_state := by
  refine ⟨by decide, fun _ => by simp [Emu8.wrap_state, Emu8.init_cpu, Emu8.WORD],
    by decide, fun a => ?_⟩
  simp only [Emu8.wrap_state, Emu8.WORD]
  split_ifs <;> omega

/-- C4 at the 16-bit instruction `0x2503 127 1 127` (write address 127, arguments
1 and 127, next `pc` 4) and at an 8-bit instruction that wraps around address
255 (write address 9 from address 255, arguments 3 and 4 from addresses 0 and 1,
next `pc` 2). -/
theorem c4_instruction_layout_witness :
    (∃ wa mid s',
      Emu16.fetch_operands (Emu16.boot [0x2503, 127, 1, 127]) = some (⟨0x2503⟩, wa, mid) ∧
      Emu16.step_cpu (Emu16.boot [0x2503, 127, 1, 127]) = some s' ∧
      wa = 127 ∧ mid.reg_in 0 = 1 ∧ mid.reg_in 1 = 127 ∧ mid.pc = 4 ∧ s'.pc = 4) ∧
    (∃ wa mid s',
      Emu8.fetch_operands ⟨0xC2⟩ { Emu8.wrap_state with pc := 255 } = some (wa, mid) ∧
      Emu8.step_cpu Emu8.wrap_state = some s' ∧
      wa = 9 ∧ mid.reg_in 0 = 3 ∧ mid.reg_in 1 = 4 ∧ mid.pc = 2 ∧ s'.pc = 2) := by
  constructor
  · obtain ⟨wa, mid, s', hf, hs, -, -, hwa, hreg, -, hpc, hp'⟩ :=
      c4_instruction_layout.1 (Emu16.boot [0x2503, 127, 1, 127]) (by decide)
    refine ⟨wa, mid, s', hf, hs, hwa (by decide), hreg 0 (by decide), hreg 1 (by decide),
      hpc, ?_⟩
    rw [hp', if_neg (fun hc => absurd hc.1 (by decide))]
    decide
  · obtain ⟨wa, mid, s', hf, hs, -, hwa, hreg, -, hpc, hp'⟩ :=
      c4_instruction_layout.2 Emu8.wrap_state Emu8.WF_wrap_state (by decide)
    refine ⟨wa, mid, s', hf, hs, hwa (by decide), hreg 0 (by decide), hreg 1 (by decide),
      hpc, ?_⟩
    rw [hp', if_neg (fun hc => absurd hc.1 (by decide))]
    decide

theorem Emu16.memory_frame_16 (s : Emu16.CPU) (h : Emu16.in_bounds s) :
    ∃ s', Emu16.step_cpu s = some s' ∧
      s'.memory = (if (Emu16.Instruction.mk (s.memory s.pc)).write_addr = 1
        then Function.update s.memory (s.memory (s.pc + 1)) s'.reg_out else s.memory) ∧
      ((Emu16.Instruction.mk (s.memory s.pc)).operation = Emu16.OP_COPY →
        s'.reg_out = s'.reg_in 0) ∧
      ((Emu16.Instruction.mk (s.memory s.pc)).operation = Emu16.OP_ADD →
        s'.reg_out = (s'.reg_in 0 + s'.reg_in 1) % Emu16.WORD) ∧
      ((Emu16.Instruction.mk (s.memory s.pc)).operation ≠ Emu16.OP_COPY →
        (Emu16.Instruction.mk (s.memory s.pc)).operation ≠ Emu16.OP_ADD →
        s'.reg_out = s.reg_out) := by
  obtain ⟨wa, mid, res, s', hf, hr, hs, -, -, hro, -, -, -, hreg', ho, -, -, -, hm⟩ :=
    Emu16.step_cpu_effect_16 s h
  refine ⟨s', hs, ?_, ?_, ?_, ?_⟩
  · rw [hm, ho]
  · intro hop
    rw [ho, hreg']
    simp [Emu16.execute, hop, Emu16.OP_COPY, Emu16.OP_NONE]
  · intro hop
    rw [ho, hreg']
    simp [Emu16.execute, hop, Emu16.OP_COPY, Emu16.OP_NONE, Emu16.OP_ADD]
  · intro h1 h2
    rw [ho, ← hro]
    unfold Emu16.execute
    split_ifs <;> simp_all

theorem Emu8.memory_frame_8 (s : Emu8.CPU) (h : Emu8.WF s)
    (hop : (Emu8.Instruction.mk (s.memory s.pc)).operation ≠ Emu8.OP_HALT) :
    ∃ s', Emu8.step_cpu s = some s' ∧
      s'.memory = (if (Emu8.Instruction.mk (s.memory s.pc)).write_addr
        then Function.update s.memory (s.memory ((s.pc + 1) % Emu8.WORD)) s'.reg_out
        else s.memory) ∧
      ((Emu8.Instruction.mk (s.memory s.pc)).operation = Emu8.OP_COPY →
        s'.reg_out = s'.reg_in 0) ∧
      ((Emu8.Instruction.mk (s.memory s.pc)).operation = Emu8.OP_ADD →
        s'.reg_out = (s'.reg_in 0 + s'.reg_in 1) % Emu8.WORD) ∧
      ((Emu8.Instruction.mk (s.memory s.pc)).operation ≠ Emu8.OP_COPY →
        (Emu8.Instruction.mk (s.memory s.pc)).operation ≠ Emu8.OP_ADD →
        s'.reg_out = s.reg_out) := by
  obtain ⟨wa, mid, res, s', hf, hr, hs, -, -, hro, -, -, -, hreg', ho, -, -, hm⟩ :=
    Emu8.step_cpu_effect_8 s h hop
  refine ⟨s', hs, ?_, ?_, ?_, ?_⟩
  · rw [hm, ho]
  · intro hop
    rw [ho, hreg']
    simp [Emu8.execute, hop, Emu8.OP_COPY, Emu8.OP_NONE]
  · intro hop
    rw [ho, hreg']
    simp [Emu8.execute, hop, Emu8.OP_COPY, Emu8.OP_NONE, Emu8.OP_ADD]
  · intro h1 h2
    rw [ho, ← hro]
    unfold Emu8.execute
    split_ifs <;> simp_all

/-- C5. Write-back and memory frame. For every CPU state whose touched addresses
are in bounds and every opcode (16-bit: all 256 opcode values, NONE, the
unassigned ones and HALT included; 8-bit: every opcode but HALT) the step
returns and: with the `write_addr` flag clear the memory after the step is the
memory before; with the flag set it is the memory before with the single cell at
the fetched write address `memory[pc+1]` overwritten by the value `reg_out` has
at the end of the step. That value is the fresh result for COPY (input register
0) and ADD (wrapped sum), and the `reg_out` of the start state for every other
opcode. -/
theorem c5_write_back_memory_frame :
    (∀ s : Emu16.CPU, Emu16.in_bounds s →
      ∃ s', Emu16.step_cpu s = some s' ∧
        s'.memory = (if (Emu16.Instruction.mk (s.memory s.pc)).write_addr = 1
          then Function.update s.memory (s.memory (s.pc + 1)) s'.reg_out else s.memory) ∧
        ((Emu16.Instruction.mk (s.memory s.pc)).operation = Emu16.OP_COPY →
          s'.reg_out = s'.reg_in 0) ∧
        ((Emu16.Instruction.mk (s.memory s.pc)).operation = Emu16.OP_ADD →
          s'.reg_out = (s'.reg_in 0 + s'.reg_in 1) % Emu16.WORD) ∧
        ((Emu16.Instruction.mk (s.memory s.pc)).operation ≠ Emu16.OP_COPY →
          (Emu16.Instruction.mk (s.memory s.pc)).operation ≠ Emu16.OP_ADD →
          s'.reg_out = s.reg_out)) ∧
    (∀ s : Emu8.CPU, Emu8.WF s →
      (Emu8.Instruction.mk (s.memory s.pc)).operation ≠ Emu8.OP_HALT →
      ∃ s', Emu8.step_cpu s = some s' ∧
        s'.memory = (if (Emu8.Instruction.mk (s.memory s.pc)).write_addr
          then Function.update s.memory (s.memory ((s.pc + 1) % Emu8.WORD)) s'.reg_out
          else s.memory) ∧
        ((Emu8.Instruction.mk (s.memory s.pc)).operation = Emu8.OP_COPY →
          s'.reg_out = s'.reg_in 0) ∧
        ((Emu8.Instruction.mk (s.memory s.pc)).operation = Emu8.OP_ADD →
          s'.reg_out = (s'.reg_in 0 + s'.reg_in 1) % Emu8.WORD) ∧
        ((Emu8.Instruction.mk (s.memory s.pc)).operation ≠ Emu8.OP_COPY →
          (Emu8.Instruction.mk (s.memory s.pc)).operation ≠ Emu8.OP_ADD →
          s'.reg_out = s.reg_out)) :=
  ⟨Emu16.memory_frame_16, Emu8.memory_frame_8⟩

/-- C5 at a 16-bit HALT word with the write flag set (0x0406, write address 9,
`reg_out` 77 left by an earlier step: cell 9 becomes 77) and at the 8-bit ADD
that wraps around address 255 (cell 9 becomes 3 + 4). -/
theorem c5_write_back_memory_frame_witness :
    (∃ s', Emu16.step_cpu { Emu16.boot [0x0406, 9] with reg_out := 77 } = some s' ∧
      s'.memory = Function.update (imageOf [0x0406, 9]) 9 77 ∧ s'.halted = true) ∧
    (∃ s', Emu8.step_cpu Emu8.wrap_state = some s' ∧
      s'.memory = Function.update Emu8.wrap_state.memory 9 7) := by
  constructor
  · obtain ⟨s', hs, hm, -, -, ho⟩ :=
      c5_write_back_memory_frame.1 { Emu16.boot [0x0406, 9] with reg_out := 77 } (by decide)
    have hh : (Emu16.step_cpu { Emu16.boot [0x0406, 9] with reg_out := 77 }).map
        (fun c => c.halted) = some true := by decide
    rw [hs] at hh
    refine ⟨s', hs, ?_, by simpa using hh⟩
    rw [hm, if_pos (by decide), ho (by decide) (by decide)]
    rfl
  · obtain ⟨s', hs, hm, -, ha, -⟩ :=
      c5_write_back_memory_frame.2 Emu8.wrap_state Emu8.WF_wrap_state (by decide)
    have hr : (Emu8.step_cpu Emu8.wrap_state).map (fun c => (c.reg_in 0, c.reg_in 1))
        = some (3, 4) := by decide
    rw [hs] at hr
    simp only [Option.map_some', Option.some.injEq, Prod.mk.injEq] at hr
    refine ⟨s', hs, ?_⟩
    rw [hm, if_pos (by decide), ha (by decide), hr.1, hr.2]
    rfl

/-- C6. Operand resolution in the 16-bit configuration. For every CPU state whose
touched addresses are in bounds and every opcode, with `mid` the state after the
argument fetch (its input registers hold the raw argument words): after the step
input register 0 is `memory[mid.reg_in 0]` when `read_addr0` is set and
`mid.reg_in 0` when it is clear; independently input register 1 is
`memory[mid.reg_in 1]` when `read_addr1` is set and `mid.reg_in 1` when clear;
every other input register, register 2 included, keeps its raw value. The memory
read is the memory of the start state, that is, before this step's write-back,
and each register is dereferenced once. -/
theorem c6_operand_resolution_16 (s : Emu16.CPU) (h : Emu16.in_bounds s) :
    ∃ wa mid s', Emu16.fetch_operands s = some (⟨s.memory s.pc⟩, wa, mid) ∧
      Emu16.step_cpu s = some s' ∧
      (∀ j, mid.reg_in j =
        if j < (Emu16.Instruction.mk (s.memory s.pc)).argc
        then s.memory (s.pc + 1 + (Emu16.Instruction.mk (s.memory s.pc)).write_addr + j)
        else s.reg_in j) ∧
      s'.reg_in 0 = (if (Emu16.Instruction.mk (s.memory s.pc)).read_addr0
        then s.memory (mid.reg_in 0) else mid.reg_in 0) ∧
      s'.reg_in 1 = (if (Emu16.Instruction.mk (s.memory s.pc)).read_addr1
        then s.memory (mid.reg_in 1) else mid.reg_in 1) ∧
      ∀ j, 2 ≤ j → s'.reg_in j = mid.reg_in j := by
  obtain ⟨wa, mid, res, s', hf, hr, hs, -, -, -, -, -, -, hreg', -, -, -, -, -⟩ :=
    Emu16.step_cpu_effect_16 s h
  obtain ⟨hreg, r0, r1, r2⟩ := Emu16.resolved_regs_16 s wa mid res hf hr
  rw [← hreg'] at r0 r1 r2
  exact ⟨wa, mid, s', hf, hs, hreg, r0, r1, r2⟩

/-- C6 at the instruction `0x2603 5 5 1` (ADD, write flag, `read_addr0`, two
arguments) over a memory with 42 at address 5: input register 0 becomes the 42
read before the write-back stores 43 at the same address, input register 1
stays the immediate 1. -/
theorem c6_operand_resolution_16_witness :
    ∃ s', Emu16.step_cpu (Emu16.boot [0x2603, 5, 5, 1, 0, 42]) = some s' ∧
      s'.reg_in 0 = 42 ∧ s'.reg_in 1 = 1 ∧ s'.reg_in 2 = 0 ∧ s'.memory 5 = 43 := by
  obtain ⟨wa, mid, s', hf, hs, hreg, r0, r1, r2⟩ :=
    c6_operand_resolution_16 (Emu16.boot [0x2603, 5, 5, 1, 0, 42]) (by decide)
  have hm : (Emu16.step_cpu (Emu16.boot [0x2603, 5, 5, 1, 0, 42])).map (fun c => c.memory 5)
      = some 43 := by decide
  rw [hs] at hm
  refine ⟨s', hs, ?_, ?_, ?_, by simpa using hm⟩
  · rw [r0, hreg 0]; decide
  · rw [r1, hreg 1]; decide
  · rw [r2 2 (by decide), hreg 2]; decide

theorem Emu16.jump_immediate_16 (s : Emu16.CPU) (addr v : Nat) (h : Emu16.in_bounds s)
    (hop : (Emu16.Instruction.mk (s.memory s.pc)).operation = Emu16.OP_JUMP_IF_ZERO)
    (hn : (Emu16.Instruction.mk (s.memory s.pc)).argc = 2)
    (h0 : (Emu16.Instruction.mk (s.memory s.pc)).read_addr0 = false)
    (h1 : (Emu16.Instruction.mk (s.memory s.pc)).read_addr1 = false)
    (ha : s.memory (s.pc + 1 + (Emu16.Instruction.mk (s.memory s.pc)).write_addr) = addr)
    (hb : s.memory (s.pc + 1 + (Emu16.Instruction.mk (s.memory s.pc)).write_addr + 1) = v) :
    ∃ s', Emu16.step_cpu s = some s' ∧
      s'.pc = (if v = 0 then addr
        else s.pc + 1 + (Emu16.Instruction.mk (s.memory s.pc)).write_addr + 2) ∧
      s'.reg_out = s.reg_out := by
  obtain ⟨wa, mid, res, s', hf, hr, hs, hpc, -, hro, -, -, hp', -, ho, -, -, -, -⟩ :=
    Emu16.step_cpu_effect_16 s h
  obtain ⟨hreg, r0, r1, -⟩ := Emu16.resolved_regs_16 s wa mid res hf hr
  have e0 : res.reg_in 0 = addr := by rw [r0, h0, hreg 0, hn]; simpa using ha
  have e1 : res.reg_in 1 = v := by rw [r1, h1, hreg 1, hn]; simpa using hb
  refine ⟨s', hs, ?_, ?_⟩
  · rw [hp', (Emu16.execute_fields_16 _ res).2.1, e0, e1, hpc, hn]
    simp [hop]
  · rw [ho, ← hro, (Emu16.execute_fields_16 _ res).1, hop]
    simp [Emu16.OP_JUMP_IF_ZERO, Emu16.OP_COPY, Emu16.OP_ADD]

theorem Emu8.jump_immediate_8 (s : Emu8.CPU) (addr v : Nat) (h : Emu8.WF s)
    (hop : (Emu8.Instruction.mk (s.memory s.pc)).operation = Emu8.OP_JUMP_IF_ZERO)
    (hn : (Emu8.Instruction.mk (s.memory s.pc)).nargs = 2)
    (h0 : (Emu8.Instruction.mk (s.memory s.pc)).read_addr0 = false)
    (h1 : (Emu8.Instruction.mk (s.memory s.pc)).read_addr1 = false)
    (ha : s.memory ((s.pc + 1 +
      (if (Emu8.Instruction.mk (s.memory s.pc)).write_addr then 1 else 0)) % Emu8.WORD) = addr)
    (hb : s.memory ((s.pc + 1 +
      (if (Emu8.Instruction.mk (s.memory s.pc)).write_addr then 1 else 0) + 1) % Emu8.WORD) = v) :
    ∃ s', Emu8.step_cpu s = some s' ∧
      s'.pc = (if v = 0 then addr
        else (s.pc + 1 +
          (if (Emu8.Instruction.mk (s.memory s.pc)).write_addr then 1 else 0) + 2)
            % Emu8.WORD) ∧
      s'.reg_out = s.reg_out := by
  have hne : (Emu8.Instruction.mk (s.memory s.pc)).operation ≠ Emu8.OP_HALT := by
    rw [hop]; decide
  obtain ⟨wa, mid, res, s', hf, hr, hs, hpc, -, hro, -, -, hp', -, ho, -, -, -⟩ :=
    Emu8.step_cpu_effect_8 s h hne
  obtain ⟨hreg, r0, r1, -⟩ := Emu8.resolved_regs_8 s wa mid res hf hr
  have g0 := hreg 0
  have g1 := hreg 1
  rw [hn] at g0 g1
  simp only [Nat.add_zero, Nat.lt_succ_self, if_true, Nat.zero_lt_succ] at g0 g1
  have e0 : res.reg_in 0 = addr := by rw [r0, h1, h0, g0]; simpa using ha
  have e1 : res.reg_in 1 = v := by rw [r1, h1, g1]; simpa using hb
  refine ⟨s', hs, ?_, ?_⟩
  · rw [hp', (Emu8.execute_fields_8 _ res).2.1, e0, e1, hpc, hn]
    simp [hop]
  · rw [ho, ← hro, (Emu8.execute_fields_8 _ res).1, hop]
    simp [Emu8.OP_JUMP_IF_ZERO, Emu8.OP_COPY, Emu8.OP_ADD]

/-- C7. JUMP_IF_ZERO with two immediate arguments `(addr, v)`, in both
configurations: for every CPU state whose touched addresses are in bounds and
whose instruction is JUMP_IF_ZERO with both read flags clear and two arguments,
the step returns; if `v = 0` it leaves `pc = addr`, otherwise it leaves `pc` just
past the second argument word (`pc + 1 + f + 2`, modulo 256 in the 8-bit
configuration, `f` the write flag); in both cases `reg_out` is unchanged. -/
theorem c7_jump_if_zero :
    (∀ (s : Emu16.CPU) (addr v : Nat), Emu16.in_bounds s →
      (Emu16.Instruction.mk (s.memory s.pc)).operation = Emu16.OP_JUMP_IF_ZERO →
      (Emu16.Instruction.mk (s.memory s.pc)).argc = 2 →
      (Emu16.Instruction.mk (s.memory s.pc)).read_addr0 = false →
      (Emu16.Instruction.mk (s.memory s.pc)).read_addr1 = false →
      s.memory (s.pc + 1 + (Emu16.Instruction.mk (s.memory s.pc)).write_addr) = addr →
      s.memory (s.pc + 1 + (Emu16.Instruction.mk (s.memory s.pc)).write_addr + 1) = v →
      ∃ s', Emu16.step_cpu s = some s' ∧
        s'.pc = (if v = 0 then addr
          else s.pc + 1 + (Emu16.Instruction.mk (s.memory s.pc)).write_addr + 2) ∧
        s'.reg_out = s.reg_out) ∧
    (∀ (s : Emu8.CPU) (addr v : Nat), Emu8.WF s →
      (Emu8.Instruction.mk (s.memory s.pc)).operation = Emu8.OP_JUMP_IF_ZERO →
      (Emu8.Instruction.mk (s.memory s.pc)).nargs = 2 →
      (Emu8.Instruction.mk (s.memory s.pc)).read_addr0 = false →
      (Emu8.Instruction.mk (s.memory s.pc)).read_addr1 = false →
      s.memory ((s.pc + 1 +
        (if (Emu8.Instruction.mk (s.memory s.pc)).write_addr then 1 else 0)) % Emu8.WORD)
          = addr →
      s.memory ((s.pc + 1 +
        (if (Emu8.Instruction.mk (s.memory s.pc)).write_addr then 1 else 0) + 1) % Emu8.WORD)
          = v →
      ∃ s', Emu8.step_cpu s = some s' ∧
        s'.pc = (if v = 0 then addr
          else (s.pc + 1 +
            (if (Emu8.Instruction.mk (s.memory s.pc)).write_addr then 1 else 0) + 2)
              % Emu8.WORD) ∧
        s'.reg_out = s.reg_out) :=
  ⟨Emu16.jump_immediate_16, Emu8.jump_immediate_8⟩

/-- C7 at the driver's `jmpz loop 0` (16-bit 0x2004, 8-bit 0x83) with target 40
and value 0, and at the same words with value 7. -/
theorem c7_jump_if_zero_witness :
    (∃ s', Emu16.step_cpu (Emu16.boot [0x2004, 40, 0]) = some s' ∧ s'.pc = 40 ∧
      s'.reg_out = 0) ∧
    (∃ s', Emu16.step_cpu (Emu16.boot [0x2004, 40, 7]) = some s' ∧ s'.pc = 3 ∧
      s'.reg_out = 0) ∧
    (∃ s', Emu8.step_cpu (Emu8.boot [0x83, 40, 0]) = some s' ∧ s'.pc = 40 ∧
      s'.reg_out = 0) ∧
    (∃ s', Emu8.step_cpu (Emu8.boot [0x83, 40, 7]) = some s' ∧ s'.pc = 3 ∧
      s'.reg_out = 0) :=
  ⟨c7_jump_if_zero.1 (Emu16.boot [0x2004, 40, 0]) 40 0 (by decide) (by decide) (by decide)
      (by decide) (by decide) (by decide) (by decide),
   c7_jump_if_zero.1 (Emu16.boot [0x2004, 40, 7]) 40 7 (by decide) (by decide) (by decide)
      (by decide) (by decide) (by decide) (by decide),
   c7_jump_if_zero.2 (Emu8.boot [0x83, 40, 0]) 40 0 (Emu8.WF_boot _ (by decide)) (by decide)
      (by decide) (by decide) (by decide) (by decide) (by decide),
   c7_jump_if_zero.2 (Emu8.boot [0x83, 40, 7]) 40 7 (Emu8.WF_boot _ (by decide)) (by decide)
      (by decide) (by decide) (by decide) (by decide) (by decide)⟩

/-- C8. ADD is commutative and wraps, in both configurations. For every pair of
states `s`, `t` (touched addresses in bounds) whose instructions are ADD with
both read flags clear and two arguments, `(a, b)` in `s` and `(b, a)` in `t`, both
steps return, `s` is left with `reg_out = (a + b) mod 2^w` (`w` = 16 resp. 8) and
`t` with the same `reg_out`; and with `a = 2^w - 1`, `b = 1` the result is 0. -/
theorem c8_add_commutes_and_wraps :
    (∀ (s t : Emu16.CPU) (a b : Nat), Emu16.in_bounds s → Emu16.in_bounds t →
      (Emu16.Instruction.mk (s.memory s.pc)).operation = Emu16.OP_ADD →
      (Emu16.Instruction.mk (s.memory s.pc)).argc = 2 →
      (Emu16.Instruction.mk (s.memory s.pc)).read_addr0 = false →
      (Emu16.Instruction.mk (s.memory s.pc)).read_addr1 = false →
      s.memory (s.pc + 1 + (Emu16.Instruction.mk (s.memory s.pc)).write_addr) = a →
      s.memory (s.pc + 1 + (Emu16.Instruction.mk (s.memory s.pc)).write_addr + 1) = b →
      (Emu16.Instruction.mk (t.memory t.pc)).operation = Emu16.OP_ADD →
      (Emu16.Instruction.mk (t.memory t.pc)).argc = 2 →
      (Emu16.Instruction.mk (t.memory t.pc)).read_addr0 = false →
      (Emu16.Instruction.mk (t.memory t.pc)).read_addr1 = false →
      t.memory (t.pc + 1 + (Emu16.Instruction.mk (t.memory t.pc)).write_addr) = b →
      t.memory (t.pc + 1 + (Emu16.Instruction.mk (t.memory t.pc)).write_addr + 1) = a →
      ∃ s' t', Emu16.step_cpu s = some s' ∧ Emu16.step_cpu t = some t' ∧
        s'.reg_out = (a + b) % 2 ^ 16 ∧ t'.reg_out = s'.reg_out ∧
        (a = 2 ^ 16 - 1 → b = 1 → s'.reg_out = 0)) ∧
    (∀ (s t : Emu8.CPU) (a b : Nat), Emu8.WF s → Emu8.WF t →
      (Emu8.Instruction.mk (s.memory s.pc)).operation = Emu8.OP_ADD →
      (Emu8.Instruction.mk (s.memory s.pc)).nargs = 2 →
      (Emu8.Instruction.mk (s.memory s.pc)).read_addr0 = false →
      (Emu8.Instruction.mk (s.memory s.pc)).read_addr1 = false →
      s.memory ((s.pc + 1 +
        (if (Emu8.Instruction.mk (s.memory s.pc)).write_addr then 1 else 0)) % Emu8.WORD) = a →
      s.memory ((s.pc + 1 +
        (if (Emu8.Instruction.mk (s.memory s.pc)).write_addr then 1 else 0) + 1) % Emu8.WORD)
          = b →
      (Emu8.Instruction.mk (t.memory t.pc)).operation = Emu8.OP_ADD →
      (Emu8.Instruction.mk (t.memory t.pc)).nargs = 2 →
      (Emu8.Instruction.mk (t.memory t.pc)).read_addr0 = false →
      (Emu8.Instruction.mk (t.memory t.pc)).read_addr1 = false →
      t.memory ((t.pc + 1 +
        (if (Emu8.Instruction.mk (t.memory t.pc)).write_addr then 1 else 0)) % Emu8.WORD) = b →
      t.memory ((t.pc + 1 +
        (if (Emu8.Instruction.mk (t.memory t.pc)).write_addr then 1 else 0) + 1) % Emu8.WORD)
          = a →
      ∃ s' t', Emu8.step_cpu s = some s' ∧ Emu8.step_cpu t = some t' ∧
        s'.reg_out = (a + b) % 2 ^ 8 ∧ t'.reg_out = s'.reg_out ∧
        (a = 2 ^ 8 - 1 → b = 1 → s'.reg_out = 0)) := by
  constructor
  · intro s t a b hs ht o1 n1 p1 q1 a1 b1 o2 n2 p2 q2 a2 b2
    obtain ⟨s', hs', e1⟩ := Emu16.add_immediate_16 s a b hs o1 n1 p1 q1 a1 b1
    obtain ⟨t', ht', e2⟩ := Emu16.add_immediate_16 t b a ht o2 n2 p2 q2 a2 b2
    refine ⟨s', t', hs', ht', e1, ?_, ?_⟩
    · rw [e1, e2, Nat.add_comm]
    · intro ha hb; rw [e1, ha, hb]; rfl
  · intro s t a b hs ht o1 n1 p1 q1 a1 b1 o2 n2 p2 q2 a2 b2
    obtain ⟨s', hs', e1⟩ := Emu8.add_immediate_8 s a b hs o1 n1 p1 q1 a1 b1
    obtain ⟨t', ht', e2⟩ := Emu8.add_immediate_8 t b a ht o2 n2 p2 q2 a2 b2
    refine ⟨s', t', hs', ht', e1, ?_, ?_⟩
    · rw [e1, e2, Nat.add_comm]
    · intro ha hb; rw [e1, ha, hb]; rfl

/-- C8 at `ADD 65535 1` against `ADD 1 65535` (16-bit, word 0x2003) and at
`ADD 255 1` against `ADD 1 255` (8-bit, word 0x82): all four leave `reg_out = 0`. -/
theorem c8_add_commutes_and_wraps_witness :
    (∃ s' t', Emu16.step_cpu (Emu16.boot [0x2003, 65535, 1]) = some s' ∧
      Emu16.step_cpu (Emu16.boot [0x2003, 1, 65535]) = some t' ∧
      s'.reg_out = 0 ∧ t'.reg_out = 0) ∧
    (∃ s' t', Emu8.step_cpu (Emu8.boot [0x82, 255, 1]) = some s' ∧
      Emu8.step_cpu (Emu8.boot [0x82, 1, 255]) = some t' ∧
      s'.reg_out = 0 ∧ t'.reg_out = 0) := by
  constructor
  · obtain ⟨s', t', hs, ht, -, e, z⟩ :=
      c8_add_commutes_and_wraps.1 (Emu16.boot [0x2003, 65535, 1]) (Emu16.boot [0x2003, 1, 65535])
        65535 1 (by decide) (by decide) (by decide) (by decide) (by decide) (by decide)
        (by decide) (by decide) (by decide) (by decide) (by decide) (by decide) (by decide)
        (by decide)
    have hz := z (by decide) rfl
    exact ⟨s', t', hs, ht, hz, e.trans hz⟩
  · obtain ⟨s', t', hs, ht, -, e, z⟩ :=
      c8_add_commutes_and_wraps.2 (Emu8.boot [0x82, 255, 1]) (Emu8.boot [0x82, 1, 255])
        255 1 (Emu8.WF_boot _ (by decide)) (Emu8.WF_boot _ (by decide)) (by decide) (by decide)
        (by decide) (by decide) (by decide) (by decide) (by decide) (by decide) (by decide)
        (by decide) (by decide) (by decide)
    have hz := z (by decide) rfl
    exact ⟨s', t', hs, ht, hz, e.trans hz⟩

theorem Emu16.copy_identity_16 (s : Emu16.CPU) (h : Emu16.in_bounds s)
    (hop : (Emu16.Instruction.mk (s.memory s.pc)).operation = Emu16.OP_COPY)
    (h0 : (Emu16.Instruction.mk (s.memory s.pc)).read_addr0 = false) :
    ∃ s', Emu16.step_cpu s = some s' ∧
      s'.reg_out = s'.reg_in 0 ∧
      s'.reg_in 0 = (if 0 < (Emu16.Instruction.mk (s.memory s.pc)).argc
        then s.memory (s.pc + 1 + (Emu16.Instruction.mk (s.memory s.pc)).write_addr)
        else s.reg_in 0) ∧
      ((Emu16.Instruction.mk (s.memory s.pc)).write_addr = 1 →
        s'.memory (s.memory (s.pc + 1)) = s'.reg_in 0) := by
  obtain ⟨wa, mid, res, s', hf, hr, hs, -, -, -, -, -, -, hreg', ho, -, -, -, hm⟩ :=
    Emu16.step_cpu_effect_16 s h
  obtain ⟨hreg, r0, -, -⟩ := Emu16.resolved_regs_16 s wa mid res hf hr
  have e : s'.reg_out = s'.reg_in 0 := by
    rw [ho, hreg', (Emu16.execute_fields_16 _ res).1, if_pos hop]
  refine ⟨s', hs, e, ?_, ?_⟩
  · rw [hreg', r0, h0, hreg 0]; simp
  · intro hw
    rw [hm, if_pos hw, Function.update_same, ← ho, e]

theorem Emu8.copy_identity_8 (s : Emu8.CPU) (h : Emu8.WF s)
    (hop : (Emu8.Instruction.mk (s.memory s.pc)).operation = Emu8.OP_COPY)
    (h0 : (Emu8.Instruction.mk (s.memory s.pc)).read_addr0 = false)
    (h1 : (Emu8.Instruction.mk (s.memory s.pc)).read_addr1 = false) :
    ∃ s', Emu8.step_cpu s = some s' ∧
      s'.reg_out = s'.reg_in 0 ∧
      s'.reg_in 0 = s.memory ((s.pc + 1 +
        (if (Emu8.Instruction.mk (s.memory s.pc)).write_addr then 1 else 0)) % Emu8.WORD) ∧
      ((Emu8.Instruction.mk (s.memory s.pc)).write_addr = true →
        s'.memory (s.memory ((s.pc + 1) % Emu8.WORD)) = s'.reg_in 0) := by
  have hne : (Emu8.Instruction.mk (s.memory s.pc)).operation ≠ Emu8.OP_HALT := by
    rw [hop]; decide
  obtain ⟨wa, mid, res, s', hf, hr, hs, -, -, -, -, -, -, hreg', ho, -, -, hm⟩ :=
    Emu8.step_cpu_effect_8 s h hne
  obtain ⟨hreg, r0, -, -⟩ := Emu8.resolved_regs_8 s wa mid res hf hr
  have e : s'.reg_out = s'.reg_in 0 := by
    rw [ho, hreg', (Emu8.execute_fields_8 _ res).1, if_pos hop]
  have hn : 0 < (Emu8.Instruction.mk (s.memory s.pc)).nargs := by
    rcases Emu8.nargs_cases ⟨s.memory s.pc⟩ with k | k <;> omega
  refine ⟨s', hs, e, ?_, ?_⟩
  · rw [hreg', r0, h0, h1, hreg 0, if_pos hn]; simp
  · intro hw
    rw [hm, if_pos hw, Function.update_same, ← ho, e]

/-- C9. COPY with both read flags clear is the identity on input register 0, in
both configurations: for every CPU state whose touched addresses are in bounds
and whose instruction is such a COPY, the step returns with `reg_out` equal to
input register 0, which is the first argument word `memory[pc+1+f]` when one is
fetched (16-bit: `argc > 0`; 8-bit: always) and the value the register had before
otherwise; with the write flag set the cell at the write address `memory[pc+1]`
holds that same value afterwards. -/
theorem c9_copy_identity :
    (∀ s : Emu16.CPU, Emu16.in_bounds s →
      (Emu16.Instruction.mk (s.memory s.pc)).operation = Emu16.OP_COPY →
      (Emu16.Instruction.mk (s.memory s.pc)).read_addr0 = false →
      (Emu16.Instruction.mk (s.memory s.pc)).read_addr1 = false →
      ∃ s', Emu16.step_cpu s = some s' ∧
        s'.reg_out = s'.reg_in 0 ∧
        s'.reg_in 0 = (if 0 < (Emu16.Instruction.mk (s.memory s.pc)).argc
          then s.memory (s.pc + 1 + (Emu16.Instruction.mk (s.memory s.pc)).write_addr)
          else s.reg_in 0) ∧
        ((Emu16.Instruction.mk (s.memory s.pc)).write_addr = 1 →
          s'.memory (s.memory (s.pc + 1)) = s'.reg_in 0)) ∧
    (∀ s : Emu8.CPU, Emu8.WF s →
      (Emu8.Instruction.mk (s.memory s.pc)).operation = Emu8.OP_COPY →
      (Emu8.Instruction.mk (s.memory s.pc)).read_addr0 = false →
      (Emu8.Instruction.mk (s.memory s.pc)).read_addr1 = false →
      ∃ s', Emu8.step_cpu s = some s' ∧
        s'.reg_out = s'.reg_in 0 ∧
        s'.reg_in 0 = s.memory ((s.pc + 1 +
          (if (Emu8.Instruction.mk (s.memory s.pc)).write_addr then 1 else 0)) % Emu8.WORD) ∧
        ((Emu8.Instruction.mk (s.memory s.pc)).write_addr = true →
          s'.memory (s.memory ((s.pc + 1) % Emu8.WORD)) = s'.reg_in 0)) :=
  ⟨fun s h hop h0 _ => Emu16.copy_identity_16 s h hop h0, Emu8.copy_identity_8⟩

/-- C9 at the drivers' first instruction with the value 77 in place of 0: 16-bit
`0x1401 127 77`, 8-bit `0x41 127 77`; `reg_out` and cell 127 become 77. -/
theorem c9_copy_identity_witness :
    (∃ s', Emu16.step_cpu (Emu16.boot [0x1401, 127, 77]) = some s' ∧
      s'.reg_out = 77 ∧ s'.memory 127 = 77) ∧
    (∃ s', Emu8.step_cpu (Emu8.boot [0x41, 127, 77]) = some s' ∧
      s'.reg_out = 77 ∧ s'.memory 127 = 77) := by
  constructor
  · obtain ⟨s', hs, e, r, m⟩ :=
      c9_copy_identity.1 (Emu16.boot [0x1401, 127, 77]) (by decide) (by decide) (by decide)
        (by decide)
    have r' : s'.reg_in 0 = 77 := r.trans (by decide)
    exact ⟨s', hs, e.trans r', (m (by decide)).trans r'⟩
  · obtain ⟨s', hs, e, r, m⟩ :=
      c9_copy_identity.2 (Emu8.boot [0x41, 127, 77]) (Emu8.WF_boot _ (by decide)) (by decide)
        (by decide) (by decide)
    have r' : s'.reg_in 0 = 77 := r.trans (by decide)
    exact ⟨s', hs, e.trans r', (m (by decide)).trans r'⟩

theorem Emu16.output_effect_16 (s : Emu16.CPU) (h : Emu16.in_bounds s) :
    ∃ s', Emu16.step_cpu s = some s' ∧
      s'.stdout =
        (if (Emu16.Instruction.mk (s.memory s.pc)).operation = Emu16.OP_POKE
         then s.stdout ++ [s'.reg_in 1 % 256] else s.stdout) ∧
      ((Emu16.Instruction.mk (s.memory s.pc)).operation = Emu16.OP_POKE →
        s'.reg_out = s.reg_out) := by
  obtain ⟨wa, mid, res, s', hf, hr, hs, -, -, hro, -, hso, -, hreg', ho, -, hs', -, -⟩ :=
    Emu16.step_cpu_effect_16 s h
  refine ⟨s', hs, ?_, ?_⟩
  · rw [hs', hreg', (Emu16.execute_fields_16 _ res).2.2.1, hso]
  · intro hop
    rw [ho, (Emu16.execute_fields_16 _ res).1, hop, hro]
    simp [Emu16.OP_POKE, Emu16.OP_COPY, Emu16.OP_ADD]

theorem Emu8.output_effect_8 (s : Emu8.CPU) (h : Emu8.WF s) :
    ∃ s', Emu8.step_cpu s = some s' ∧
      s'.stdout =
        (if (Emu8.Instruction.mk (s.memory s.pc)).operation = Emu8.OP_POKE
         then s.stdout ++ [s'.reg_in 1 % 256] else s.stdout) ∧
      ((Emu8.Instruction.mk (s.memory s.pc)).operation = Emu8.OP_POKE →
        s'.reg_out = s.reg_out) := by
  by_cases hop : (Emu8.Instruction.mk (s.memory s.pc)).operation = Emu8.OP_HALT
  · refine ⟨_, Emu8.step_cpu_halt s h.1 hop, ?_, ?_⟩
    · rw [hop]; simp [Emu8.OP_HALT, Emu8.OP_POKE]
    · intro _; rfl
  · obtain ⟨wa, mid, res, s', hf, hr, hs, -, -, hro, -, hso, -, hreg', ho, -, hs', -⟩ :=
      Emu8.step_cpu_effect_8 s h hop
    refine ⟨s', hs, ?_, ?_⟩
    · rw [hs', hreg', (Emu8.execute_fields_8 _ res).2.2, hso]
    · intro hp
      rw [ho, (Emu8.execute_fields_8 _ res).1, hp, hro]
      simp [Emu8.OP_POKE, Emu8.OP_COPY, Emu8.OP_ADD]

/-- C10. Output, with standard output modelled as the byte list `stdout`, in both
configurations: for every CPU state whose touched addresses are in bounds the
step returns; when the opcode is POKE it appends exactly one byte, the low 8
bits of the resolved input register 1, and leaves `reg_out` unchanged; for every
other opcode (the 8-bit HALT included) it appends nothing. -/
theorem c10_output :
    (∀ s : Emu16.CPU, Emu16.in_bounds s →
      ∃ s', Emu16.step_cpu s = some s' ∧
        s'.stdout =
          (if (Emu16.Instruction.mk (s.memory s.pc)).operation = Emu16.OP_POKE
           then s.stdout ++ [s'.reg_in 1 % 256] else s.stdout) ∧
        ((Emu16.Instruction.mk (s.memory s.pc)).operation = Emu16.OP_POKE →
          s'.reg_out = s.reg_out)) ∧
    (∀ s : Emu8.CPU, Emu8.WF s →
      ∃ s', Emu8.step_cpu s = some s' ∧
        s'.stdout =
          (if (Emu8.Instruction.mk (s.memory s.pc)).operation = Emu8.OP_POKE
           then s.stdout ++ [s'.reg_in 1 % 256] else s.stdout) ∧
        ((Emu8.Instruction.mk (s.memory s.pc)).operation = Emu8.OP_POKE →
          s'.reg_out = s.reg_out)) :=
  ⟨Emu16.output_effect_16, Emu8.output_effect_8⟩

theorem Emu8.WF_poke_state : Emu8.WF Emu8.poke_state := by
  refine ⟨by decide, fun _ => by simp [Emu8.poke_state, Emu8.init_cpu, Emu8.WORD],
    by decide, fun a => ?_⟩
  show Function.update (imageOf [0x94, 0, 128]) 128 0x48 a < 256
  rw [Function.update_apply]
  split_ifs
  · decide
  · exact imageOf_lt _ 256 (by decide) (by decide) a

/-- C10 at the drivers' `poke TERM_WRITE char` (16-bit `0x2105 0 128` over a
memory with 0x1248 at address 128, 8-bit `0x94 0 128` with 0x48 there): the byte
0x48 is appended to the output and `reg_out` keeps its value 9. -/
theorem c10_output_witness :
    (∃ s', Emu16.step_cpu Emu16.poke_state = some s' ∧
      s'.stdout = [1, 0x48] ∧ s'.reg_out = 9) ∧
    (∃ s', Emu8.step_cpu Emu8.poke_state = some s' ∧
      s'.stdout = [1, 0x48] ∧ s'.reg_out = 9) := by
  constructor
  · obtain ⟨s', hs, ho, hr⟩ := c10_output.1 Emu16.poke_state (by decide)
    have h1 : (Emu16.step_cpu Emu16.poke_state).map (fun c => c.reg_in 1) = some 0x1248 := by
      decide
    rw [hs] at h1
    simp only [Option.map_some', Option.some.injEq] at h1
    refine ⟨s', hs, ?_, hr (by decide)⟩
    rw [ho, if_pos (by decide), h1]
    rfl
  · obtain ⟨s', hs, ho, hr⟩ := c10_output.2 Emu8.poke_state Emu8.WF_poke_state
    have h1 : (Emu8.step_cpu Emu8.poke_state).map (fun c => c.reg_in 1) = some 0x48 := by
      decide
    rw [hs] at h1
    simp only [Option.map_some', Option.some.injEq] at h1
    refine ⟨s', hs, ?_, hr (by decide)⟩
    rw [ho, if_pos (by decide), h1]
    rfl

theorem Emu16.halted_effect_16 (s : Emu16.CPU) (h : Emu16.in_bounds s) :
    ∃ s', Emu16.step_cpu s = some s' ∧
      s'.halted = (s.halted ||
        decide ((Emu16.Instruction.mk (s.memory s.pc)).operation = Emu16.OP_HALT)) := by
  obtain ⟨wa, mid, res, s', hf, hr, hs, -, -, -, hl, -, -, -, -, hl', -, -, -⟩ :=
    Emu16.step_cpu_effect_16 s h
  refine ⟨s', hs, ?_⟩
  rw [hl', (Emu16.execute_fields_16 _ res).2.2.2, hl]

theorem Emu8.halted_effect_8 (s : Emu8.CPU) (h : Emu8.WF s) :
    ∃ s', Emu8.step_cpu s = some s' ∧
      s'.halted = (s.halted ||
        decide ((Emu8.Instruction.mk (s.memory s.pc)).operation = Emu8.OP_HALT)) := by
  by_cases hop : (Emu8.Instruction.mk (s.memory s.pc)).operation = Emu8.OP_HALT
  · refine ⟨_, Emu8.step_cpu_halt s h.1 hop, ?_⟩
    simp [hop]
  · obtain ⟨wa, mid, res, s', hf, hr, hs, -, -, -, -, -, -, -, -, hl', -, -⟩ :=
      Emu8.step_cpu_effect_8 s h hop
    refine ⟨s', hs, ?_⟩
    rw [hl']
    simp [hop]

/-- C11. The halted flag changes only through HALT, in both configurations: for
every CPU state whose touched addresses are in bounds the step returns and the
halted flag afterwards is (halted before) OR (the decoded opcode is HALT). Hence
an opcode other than HALT leaves a running machine running, and a halted machine
stays halted under every opcode. -/
theorem c11_halted_only_by_halt :
    (∀ s : Emu16.CPU, Emu16.in_bounds s →
      ∃ s', Emu16.step_cpu s = some s' ∧
        s'.halted = (s.halted ||
          decide ((Emu16.Instruction.mk (s.memory s.pc)).operation = Emu16.OP_HALT)) ∧
        ((Emu16.Instruction.mk (s.memory s.pc)).operation ≠ Emu16.OP_HALT →
          s.halted = false → s'.halted = false) ∧
        (s.halted = true → s'.halted = true)) ∧
    (∀ s : Emu8.CPU, Emu8.WF s →
      ∃ s', Emu8.step_cpu s = some s' ∧
        s'.halted = (s.halted ||
          decide ((Emu8.Instruction.mk (s.memory s.pc)).operation = Emu8.OP_HALT)) ∧
        ((Emu8.Instruction.mk (s.memory s.pc)).operation ≠ Emu8.OP_HALT →
          s.halted = false → s'.halted = false) ∧
        (s.halted = true → s'.halted = true)) := by
  constructor
  · intro s h
    obtain ⟨s', hs, hl⟩ := Emu16.halted_effect_16 s h
    refine ⟨s', hs, hl, ?_, ?_⟩
    · intro hop hf; rw [hl, hf]; simp [hop]
    · intro ht; rw [hl, ht]; simp
  · intro s h
    obtain ⟨s', hs, hl⟩ := Emu8.halted_effect_8 s h
    refine ⟨s', hs, hl, ?_, ?_⟩
    · intro hop hf; rw [hl, hf]; simp [hop]
    · intro ht; rw [hl, ht]; simp

/-- C11 at four states: a running 16-bit machine at HALT (0x0006) becomes halted,
a halted 16-bit machine at the ADD `0x2003 1 2` stays halted, a running 8-bit
machine at the ADD `0x82 1 2` stays running, a running 8-bit machine at HALT
(0x05) becomes halted. -/
theorem c11_halted_only_by_halt_witness :
    (∃ s', Emu16.step_cpu (Emu16.boot [0x0006]) = some s' ∧ s'.halted = true) ∧
    (∃ s', Emu16.step_cpu { Emu16.boot [0x2003, 1, 2] with halted := true } = some s' ∧
      s'.halted = true) ∧
    (∃ s', Emu8.step_cpu (Emu8.boot [0x82, 1, 2]) = some s' ∧ s'.halted = false) ∧
    (∃ s', Emu8.step_cpu (Emu8.boot [0x05]) = some s' ∧ s'.halted = true) := by
  refine ⟨?_, ?_, ?_, ?_⟩
  · obtain ⟨s', hs, hl, -, -⟩ := c11_halted_only_by_halt.1 (Emu16.boot [0x0006]) (by decide)
    exact ⟨s', hs, hl.trans (by decide)⟩
  · obtain ⟨s', hs, -, -, hk⟩ :=
      c11_halted_only_by_halt.1 { Emu16.boot [0x2003, 1, 2] with halted := true } (by decide)
    exact ⟨s', hs, hk rfl⟩
  · obtain ⟨s', hs, -, hk, -⟩ :=
      c11_halted_only_by_halt.2 (Emu8.boot [0x82, 1, 2]) (Emu8.WF_boot _ (by decide))
    exact ⟨s', hs, hk (by decide) rfl⟩
  · obtain ⟨s', hs, hl, -, -⟩ :=
      c11_halted_only_by_halt.2 (Emu8.boot [0x05]) (Emu8.WF_boot _ (by decide))
    exact ⟨s', hs, hl.trans (by decide)⟩

/-! ## The driver loop -/

theorem Emu16.run_halted_16 (n : Nat) (s : Emu16.CPU) (h : s.halted = true) :
    Emu16.run n s = some s := by
  cases n with
  | zero => rfl
  | succ n => simp [Emu16.run, h]

theorem Emu16.run_stops_16 (k : Nat) : ∀ (n : Nat) (s t : Emu16.CPU), k ≤ n →
    Emu16.steps k s = some t → t.halted = true →
    (∀ j, j < k → ∀ u, Emu16.steps j s = some u → u.halted = false) →
    Emu16.run n s = some t := by
  induction k with
  | zero =>
    intro n s t _ hs ht _
    simp only [Emu16.steps, Option.some.injEq] at hs
    subst hs
    exact Emu16.run_halted_16 n s ht
  | succ k ih =>
    intro n s t hn hs ht hrun
    obtain ⟨m, rfl⟩ : ∃ m, n = m + 1 := ⟨n - 1, by omega⟩
    have h0 : s.halted = false := hrun 0 (by omega) s rfl
    simp only [Emu16.steps, Option.bind_eq_some] at hs
    obtain ⟨s1, h1, h2⟩ := hs
    simp only [Emu16.run, h0, Bool.false_eq_true, if_false, h1, Option.some_bind]
    refine ih m s1 t (by omega) h2 ht ?_
    intro j hj u hu
    refine hrun (j + 1) (by omega) u ?_
    simp only [Emu16.steps, h1, Option.some_bind]
    exact hu

theorem Emu16.run_trace_16 (n : Nat) : ∀ (s t : Emu16.CPU), Emu16.run n s = some t →
    ∃ k, k ≤ n ∧ Emu16.steps k s = some t ∧
      (∀ j, j < k → ∀ u, Emu16.steps j s = some u → u.halted = false) ∧
      (t.halted = true ∨ k = n) := by
  induction n with
  | zero =>
    intro s t h
    simp only [Emu16.run, Option.some.injEq] at h
    subst h
    exact ⟨0, Nat.le_refl 0, rfl, fun j hj => absurd hj (by omega), Or.inr rfl⟩
  | succ n ih =>
    intro s t h
    by_cases hh : s.halted = true
    · simp only [Emu16.run, hh, if_true, Option.some.injEq] at h
      subst h
      exact ⟨0, by omega, rfl, fun j hj => absurd hj (by omega), Or.inl hh⟩
    · have h0 : s.halted = false := by simpa using hh
      cases h1 : Emu16.step_cpu s with
      | none => simp [Emu16.run, h0, h1] at h
      | some s1 =>
      have h2 : Emu16.run n s1 = some t := by simpa [Emu16.run, h0, h1] using h
      obtain ⟨k, hk, hs, hnot, hend⟩ := ih s1 t h2
      refine ⟨k + 1, by omega, ?_, ?_, ?_⟩
      · simp only [Emu16.steps, h1, Option.some_bind]; exact hs
      · intro j hj u hu
        cases j with
        | zero =>
          simp only [Emu16.steps, Option.some.injEq] at hu
          subst hu
          simpa using hh
        | succ j =>
          simp only [Emu16.steps, h1, Option.some_bind] at hu
          exact hnot j (by omega) u hu
      · rcases hend with h | h
        · exact Or.inl h
        · exact Or.inr (by omega)

theorem Emu8.run_halted_8 (n : Nat) (s : Emu8.CPU) (h : s.halted = true) :
    Emu8.run n s = some s := by
  cases n with
  | zero => rfl
  | succ n => simp [Emu8.run, h]

theorem Emu8.run_stops_8 (k : Nat) : ∀ (n : Nat) (s t : Emu8.CPU), k ≤ n →
    Emu8.steps k s = some t → t.halted = true →
    (∀ j, j < k → ∀ u, Emu8.steps j s = some u → u.halted = false) →
    Emu8.run n s = some t := by
  induction k with
  | zero =>
    intro n s t _ hs ht _
    simp only [Emu8.steps, Option.some.injEq] at hs
    subst hs
    exact Emu8.run_halted_8 n s ht
  | succ k ih =>
    intro n s t hn hs ht hrun
    obtain ⟨m, rfl⟩ : ∃ m, n = m + 1 := ⟨n - 1, by omega⟩
    have h0 : s.halted = false := hrun 0 (by omega) s rfl
    simp only [Emu8.steps, Option.bind_eq_some] at hs
    obtain ⟨s1, h1, h2⟩ := hs
    simp only [Emu8.run, h0, Bool.false_eq_true, if_false, h1, Option.some_bind]
    refine ih m s1 t (by omega) h2 ht ?_
    intro j hj u hu
    refine hrun (j + 1) (by omega) u ?_
    simp only [Emu8.steps, h1, Option.some_bind]
    exact hu

theorem Emu8.run_trace_8 (n : Nat) : ∀ (s t : Emu8.CPU), Emu8.run n s = some t →
    ∃ k, k ≤ n ∧ Emu8.steps k s = some t ∧
      (∀ j, j < k → ∀ u, Emu8.steps j s = some u → u.halted = false) ∧
      (t.halted = true ∨ k = n) := by
  induction n with
  | zero =>
    intro s t h
    simp only [Emu8.run, Option.some.injEq] at h
    subst h
    exact ⟨0, Nat.le_refl 0, rfl, fun j hj => absurd hj (by omega), Or.inr rfl⟩
  | succ n ih =>
    intro s t h
    by_cases hh : s.halted = true
    · simp only [Emu8.run, hh, if_true, Option.some.injEq] at h
      subst h
      exact ⟨0, by omega, rfl, fun j hj => absurd hj (by omega), Or.inl hh⟩
    · have h0 : s.halted = false := by simpa using hh
      cases h1 : Emu8.step_cpu s with
      | none => simp [Emu8.run, h0, h1] at h
      | some s1 =>
      have h2 : Emu8.run n s1 = some t := by simpa [Emu8.run, h0, h1] using h
      obtain ⟨k, hk, hs, hnot, hend⟩ := ih s1 t h2
      refine ⟨k + 1, by omega, ?_, ?_, ?_⟩
      · simp only [Emu8.steps, h1, Option.some_bind]; exact hs
      · intro j hj u hu
        cases j with
        | zero =>
          simp only [Emu8.steps, Option.some.injEq] at hu
          subst hu
          simpa using hh
        | succ j =>
          simp only [Emu8.steps, h1, Option.some_bind] at hu
          exact hnot j (by omega) u hu
      · rcases hend with h | h
        · exact Or.inl h
        · exact Or.inr (by omega)

theorem Emu16.step_halt_only_16 (e : Nat) (he : e < Emu16.MEMSIZE) :
    Emu16.step_cpu (Emu16.halt_only e) =
      some { Emu16.halt_only e with pc := e + 1, halted := true } := by
  have hw : (e + 1) % Emu16.WORD = e + 1 := by
    apply Nat.mod_eq_of_lt
    have : Emu16.MEMSIZE = 65280 := by decide
    simp only [Emu16.WORD]; omega
  simp [Emu16.step_cpu, Emu16.fetch_operands, Emu16.fetch, Emu16.load, Emu16.halt_only, he,
    Emu16.Instruction.write_addr, Emu16.Instruction.argc, Emu16.OP_HALT, Emu16.fetch_args,
    Emu16.resolve, Emu16.deref, Emu16.Instruction.read_addr0, Emu16.Instruction.read_addr1,
    Emu16.execute, Emu16.Instruction.operation, Emu16.write_back, Emu16.OP_NONE,
    Emu16.OP_COPY, Emu16.OP_ADD, Emu16.OP_JUMP_IF_ZERO, Emu16.OP_POKE, hw]

theorem Emu8.step_halt_only_8 (e : Nat) (he : e < Emu8.MEMSIZE) :
    Emu8.step_cpu (Emu8.halt_only e) =
      some { Emu8.halt_only e with pc := (e + 1) % Emu8.WORD, halted := true } := by
  have hp : (Emu8.halt_only e).pc < Emu8.WORD := he
  have hop : (Emu8.Instruction.mk ((Emu8.halt_only e).memory (Emu8.halt_only e).pc)).operation
      = Emu8.OP_HALT := by
    simp [Emu8.halt_only, Emu8.Instruction.operation, Emu8.OP_HALT]
  rw [Emu8.step_cpu_halt _ hp hop]
  rfl

/-- C12. Single-HALT program, in both configurations: over a zero-filled memory
holding only the HALT word (`OP_HALT`, no flags) at an entry point `e` inside the
memory, with `pc = e` and the machine not halted, one call of `step_cpu` returns
a state with `halted = true`, no byte of output, and the memory it started with;
and the driver loop with any budget of at least one iteration makes exactly
that one call (its result is the result of `steps 1`). -/
theorem c12_single_halt_program :
    (∀ e : Nat, e < Emu16.MEMSIZE →
      (Emu16.halt_only e).halted = false ∧
      ∃ s', Emu16.step_cpu (Emu16.halt_only e) = some s' ∧
        s'.halted = true ∧ s'.stdout = [] ∧ s'.memory = (Emu16.halt_only e).memory ∧
        (∀ n, Emu16.run (n + 1) (Emu16.halt_only e) = some s') ∧
        Emu16.main_loop (Emu16.halt_only e) = Emu16.steps 1 (Emu16.halt_only e)) ∧
    (∀ e : Nat, e < Emu8.MEMSIZE →
      (Emu8.halt_only e).halted = false ∧
      ∃ s', Emu8.step_cpu (Emu8.halt_only e) = some s' ∧
        s'.halted = true ∧ s'.stdout = [] ∧ s'.memory = (Emu8.halt_only e).memory ∧
        (∀ n, Emu8.run (n + 1) (Emu8.halt_only e) = some s') ∧
        Emu8.main_loop (Emu8.halt_only e) = Emu8.steps 1 (Emu8.halt_only e)) := by
  constructor
  · intro e he
    have hs := Emu16.step_halt_only_16 e he
    have hrun : ∀ n, Emu16.run (n + 1) (Emu16.halt_only e) =
        some { Emu16.halt_only e with pc := e + 1, halted := true } := by
      intro n
      have h0 : (Emu16.halt_only e).halted = false := rfl
      simp only [Emu16.run, h0, Bool.false_eq_true, if_false, hs, Option.some_bind]
      exact Emu16.run_halted_16 n _ rfl
    refine ⟨rfl, _, hs, rfl, rfl, rfl, hrun, ?_⟩
    rw [Emu16.main_loop, hrun 99]
    simp [Emu16.steps, hs]
  · intro e he
    have hs := Emu8.step_halt_only_8 e he
    have hrun : ∀ n, Emu8.run (n + 1) (Emu8.halt_only e) =
        some { Emu8.halt_only e with pc := (e + 1) % Emu8.WORD, halted := true } := by
      intro n
      have h0 : (Emu8.halt_only e).halted = false := rfl
      simp only [Emu8.run, h0, Bool.false_eq_true, if_false, hs, Option.some_bind]
      exact Emu8.run_halted_8 n _ rfl
    refine ⟨rfl, _, hs, rfl, rfl, rfl, hrun, ?_⟩
    rw [Emu8.main_loop, hrun 199]
    simp [Emu8.steps, hs]

/-- C12 at the entry points 14 (16-bit) and 15 (8-bit), the drivers' own. -/
theorem c12_single_halt_program_witness :
    (∃ s', Emu16.step_cpu (Emu16.halt_only 14) = some s' ∧ s'.halted = true ∧
      s'.stdout = [] ∧ s'.memory = (Emu16.halt_only 14).memory ∧
      Emu16.run 100 (Emu16.halt_only 14) = some s') ∧
    (∃ s', Emu8.step_cpu (Emu8.halt_only 15) = some s' ∧ s'.halted = true ∧
      s'.stdout = [] ∧ s'.memory = (Emu8.halt_only 15).memory ∧
      Emu8.run 200 (Emu8.halt_only 15) = some s') := by
  constructor
  · obtain ⟨-, s', hs, hl, ho, hm, hr, -⟩ := c12_single_halt_program.1 14 (by decide)
    exact ⟨s', hs, hl, ho, hm, hr 99⟩
  · obtain ⟨-, s', hs, hl, ho, hm, hr, -⟩ := c12_single_halt_program.2 15 (by decide)
    exact ⟨s', hs, hl, ho, hm, hr 199⟩

/-- C13. The driver stops at halt, in both configurations, for every budget `n`
(so for the drivers' 100 resp. 200): started on a halted CPU the loop returns
that very state (same `pc`, registers, memory, output); whenever the loop
returns, its result is that of `k ≤ n` consecutive calls of `step_cpu`, every one
of them applied to a state that was not halted, and either the result is halted
or the budget is used up; and when the `k`-th call, `k ≤ n`, is the first to
leave a halted state, the loop returns that state: it makes no call after it. -/
theorem c13_driver_stops_at_halt :
    ((∀ (n : Nat) (s : Emu16.CPU), s.halted = true → Emu16.run n s = some s) ∧
      (∀ s : Emu16.CPU, s.halted = true → Emu16.main_loop s = some s) ∧
      (∀ (n : Nat) (s t : Emu16.CPU), Emu16.run n s = some t →
        ∃ k, k ≤ n ∧ Emu16.steps k s = some t ∧
          (∀ j, j < k → ∀ u, Emu16.steps j s = some u → u.halted = false) ∧
          (t.halted = true ∨ k = n)) ∧
      (∀ (k n : Nat) (s t : Emu16.CPU), k ≤ n → Emu16.steps k s = some t →
        t.halted = true →
        (∀ j, j < k → ∀ u, Emu16.steps j s = some u → u.halted = false) →
        Emu16.run n s = some t)) ∧
    ((∀ (n : Nat) (s : Emu8.CPU), s.halted = true → Emu8.run n s = some s) ∧
      (∀ s : Emu8.CPU, s.halted = true → Emu8.main_loop s = some s) ∧
      (∀ (n : Nat) (s t : Emu8.CPU), Emu8.run n s = some t →
        ∃ k, k ≤ n ∧ Emu8.steps k s = some t ∧
          (∀ j, j < k → ∀ u, Emu8.steps j s = some u → u.halted = false) ∧
          (t.halted = true ∨ k = n)) ∧
      (∀ (k n : Nat) (s t : Emu8.CPU), k ≤ n → Emu8.steps k s = some t →
        t.halted = true →
        (∀ j, j < k → ∀ u, Emu8.steps j s = some u → u.halted = false) →
        Emu8.run n s = some t)) :=
  ⟨⟨Emu16.run_halted_16, fun s h => Emu16.run_halted_16 100 s h, Emu16.run_trace_16,
    fun k n s t => Emu16.run_stops_16 k n s t⟩,
   ⟨Emu8.run_halted_8, fun s h => Emu8.run_halted_8 200 s h, Emu8.run_trace_8,
    fun k n s t => Emu8.run_stops_8 k n s t⟩⟩

/-- C13 at a halted 16-bit CPU standing at the ADD `0x2003 1 2` (the loop
returns it untouched) and at the 8-bit single-HALT program at entry point 15
(the first call halts, the loop of budget 200 returns its result). -/
theorem c13_driver_stops_at_halt_witness :
    Emu16.run 100 { Emu16.boot [0x2003, 1, 2] with halted := true } =
      some { Emu16.boot [0x2003, 1, 2] with halted := true } ∧
    Emu8.run 200 (Emu8.halt_only 15) =
      some { Emu8.halt_only 15 with pc := 16, halted := true } := by
  constructor
  · exact c13_driver_stops_at_halt.1.1 100 _ rfl
  · refine c13_driver_stops_at_halt.2.2.2.2 1 200 (Emu8.halt_only 15) _ (by decide) ?_ rfl ?_
    · simp only [Emu8.steps, Emu8.step_halt_only_8 15 (by decide), Option.some_bind]
      rfl
    · intro j hj u hu
      obtain rfl : j = 0 := by omega
      simp only [Emu8.steps, Option.some.injEq] at hu
      subst hu
      rfl

/-- C14. Early HALT short-circuit in the 8-bit configuration: for every CPU state
(`pc` a `uint8_t` value) whose word at `pc` has the opcode field HALT, whatever
its other bits, `step_cpu` returns the start state with `halted` set and `pc`
advanced by exactly 1 modulo 256: no write-address or argument word is consumed,
and memory, the input registers, `reg_out` and the output are unchanged. -/
theorem c14_early_halt_8 (s : Emu8.CPU) (hpc : s.pc < Emu8.WORD)
    (hop : (Emu8.Instruction.mk (s.memory s.pc)).operation = Emu8.OP_HALT) :
    ∃ s', Emu8.step_cpu s = some s' ∧
      s'.halted = true ∧ s'.pc = (s.pc + 1) % 256 ∧ s'.memory = s.memory ∧
      s'.reg_in = s.reg_in ∧ s'.reg_out = s.reg_out ∧ s'.stdout = s.stdout :=
  ⟨_, Emu8.step_cpu_halt s hpc hop, rfl, rfl, rfl, rfl, rfl, rfl⟩

/-- C14 at the word 0xF5 (HALT with `read_addr0`, `read_addr1`, `write_addr` and
the two-argument bit all set) at address 255, followed (around the end of
memory) by the words 7, 8, 9: `pc` becomes 0, the registers stay 0 and cell 7
stays 0. -/
theorem c14_early_halt_8_witness :
    ∃ s', Emu8.step_cpu
        { Emu8.boot [7, 8, 9] with pc := 255
                                   memory := Function.update (imageOf [7, 8, 9]) 255 0xF5 }
        = some s' ∧
      s'.halted = true ∧ s'.pc = 0 ∧ s'.reg_in 0 = 0 ∧ s'.reg_in 1 = 0 ∧ s'.reg_out = 0 ∧
      s'.memory 7 = 0 ∧ s'.stdout = [] := by
  obtain ⟨s', hs, hl, hp, hm, hr, ho, hso⟩ :=
    c14_early_halt_8
      { Emu8.boot [7, 8, 9] with pc := 255
                                 memory := Function.update (imageOf [7, 8, 9]) 255 0xF5 }
      (by decide) (by decide)
  refine ⟨s', hs, hl, hp, ?_, ?_, ho, ?_, hso⟩
  · rw [hr]; rfl
  · rw [hr]; rfl
  · rw [hm]; decide

theorem Emu16.noop_effect_16 (s : Emu16.CPU) (h : Emu16.in_bounds s)
    (hop : (Emu16.Instruction.mk (s.memory s.pc)).operation = 0 ∨
      (Emu16.Instruction.mk (s.memory s.pc)).operation = 2 ∨
      6 < (Emu16.Instruction.mk (s.memory s.pc)).operation) :
    ∃ wa mid s', Emu16.fetch_operands s = some (⟨s.memory s.pc⟩, wa, mid) ∧
      Emu16.step_cpu s = some s' ∧
      s'.pc = s.pc + 1 + (Emu16.Instruction.mk (s.memory s.pc)).write_addr +
        (Emu16.Instruction.mk (s.memory s.pc)).argc ∧
      (∀ j, mid.reg_in j =
        if j < (Emu16.Instruction.mk (s.memory s.pc)).argc
        then s.memory (s.pc + 1 + (Emu16.Instruction.mk (s.memory s.pc)).write_addr + j)
        else s.reg_in j) ∧
      s'.reg_in 0 = (if (Emu16.Instruction.mk (s.memory s.pc)).read_addr0
        then s.memory (mid.reg_in 0) else mid.reg_in 0) ∧
      s'.reg_in 1 = (if (Emu16.Instruction.mk (s.memory s.pc)).read_addr1
        then s.memory (mid.reg_in 1) else mid.reg_in 1) ∧
      (∀ j, 2 ≤ j → s'.reg_in j = mid.reg_in j) ∧
      s'.reg_out = s.reg_out ∧ s'.halted = s.halted ∧ s'.stdout = s.stdout ∧
      s'.memory = (if (Emu16.Instruction.mk (s.memory s.pc)).write_addr = 1
        then Function.update s.memory (s.memory (s.pc + 1)) s.reg_out else s.memory) := by
  obtain ⟨wa, mid, res, s', hf, hr, hs, hpc, -, hro, hl, hso, hp', hreg', ho, hl', hs', -, hm⟩ :=
    Emu16.step_cpu_effect_16 s h
  obtain ⟨hreg, r0, r1, r2⟩ := Emu16.resolved_regs_16 s wa mid res hf hr
  have hex : Emu16.execute ⟨s.memory s.pc⟩ res = res := by
    obtain ⟨t0, -, t2, -, -, -, -, t7⟩ := Emu16.execute_table_16 ⟨s.memory s.pc⟩ res
    rcases hop with k | k | k
    · exact t0 k
    · exact t2 k
    · exact t7 k
  rw [hex] at hp' ho hl' hs' hm
  rw [← hreg'] at r0 r1 r2
  refine ⟨wa, mid, s', hf, hs, hp'.trans hpc, hreg, r0, r1, r2, ho.trans hro, hl'.trans hl,
    hs'.trans hso, ?_⟩
  rw [hm, hro]

theorem Emu16.noop_phases_16 (ix ix0 : Emu16.Instruction) (c : Emu16.CPU) (wa : Nat)
    (hop : ix.operation = 2 ∨ 6 < ix.operation) (hop0 : ix0.operation = Emu16.OP_NONE)
    (h0 : ix0.read_addr0 = ix.read_addr0) (h1 : ix0.read_addr1 = ix.read_addr1)
    (hw : ix0.write_addr = ix.write_addr) :
    Emu16.resolve ix c = Emu16.resolve ix0 c ∧
    Emu16.execute ix c = Emu16.execute ix0 c ∧
    Emu16.write_back ix wa c = Emu16.write_back ix0 wa c := by
  refine ⟨?_, ?_, ?_⟩
  · simp [Emu16.resolve, Emu16.deref, h0, h1]
  · obtain ⟨-, -, t2, -, -, -, -, t7⟩ := Emu16.execute_table_16 ix c
    obtain ⟨u0, -, -, -, -, -, -, -⟩ := Emu16.execute_table_16 ix0 c
    rw [u0 hop0]
    rcases hop with k | k
    · exact t2 k
    · exact t7 k
  · simp [Emu16.write_back, hw]

theorem Emu8.noop_effect_8 (s : Emu8.CPU) (h : Emu8.WF s)
    (hop : (Emu8.Instruction.mk (s.memory s.pc)).operation = 0 ∨
      5 < (Emu8.Instruction.mk (s.memory s.pc)).operation) :
    ∃ wa mid s',
      Emu8.fetch_operands ⟨s.memory s.pc⟩ { s with pc := (s.pc + 1) % Emu8.WORD } =
        some (wa, mid) ∧
      Emu8.step_cpu s = some s' ∧
      s'.pc = (s.pc + 1 + (if (Emu8.Instruction.mk (s.memory s.pc)).write_addr then 1 else 0) +
        (Emu8.Instruction.mk (s.memory s.pc)).nargs) % Emu8.WORD ∧
      (∀ j, mid.reg_in j =
        if j < (Emu8.Instruction.mk (s.memory s.pc)).nargs
        then s.memory ((s.pc + 1 +
          (if (Emu8.Instruction.mk (s.memory s.pc)).write_addr then 1 else 0) + j) % Emu8.WORD)
        else s.reg_in j) ∧
      s'.reg_in 0 = (if (Emu8.Instruction.mk (s.memory s.pc)).read_addr0
        then s.memory (mid.reg_in 0) else mid.reg_in 0) ∧
      s'.reg_in 1 = (if (Emu8.Instruction.mk (s.memory s.pc)).read_addr1
        then s.memory (mid.reg_in 1) else mid.reg_in 1) ∧
      (∀ j, 2 ≤ j → s'.reg_in j = mid.reg_in j) ∧
      s'.reg_out = s.reg_out ∧ s'.halted = s.halted ∧ s'.stdout = s.stdout ∧
      s'.memory = (if (Emu8.Instruction.mk (s.memory s.pc)).write_addr
        then Function.update s.memory (s.memory ((s.pc + 1) % Emu8.WORD)) s.reg_out
        else s.memory) := by
  have hne : (Emu8.Instruction.mk (s.memory s.pc)).operation ≠ Emu8.OP_HALT := by
    simp only [Emu8.OP_HALT]; omega
  have hnc : (Emu8.Instruction.mk (s.memory s.pc)).operation ≠ 1 := by omega
  obtain ⟨wa, mid, res, s', hf, hr, hs, hpc, -, hro, hl, hso, hp', hreg', ho, hl', hs', hm⟩ :=
    Emu8.step_cpu_effect_8 s h hne
  obtain ⟨hreg, r0, r1, r2⟩ := Emu8.resolved_regs_8 s wa mid res hf hr
  have hex : Emu8.execute ⟨s.memory s.pc⟩ res = res := by
    obtain ⟨t0, -, -, -, -, t5⟩ := Emu8.execute_table_8 ⟨s.memory s.pc⟩ res
    rcases hop with k | k
    · exact t0 k
    · exact t5 (by omega)
  have hq : ((Emu8.Instruction.mk (s.memory s.pc)).read_addr1 &&
      Emu8.copy_quirk ⟨s.memory s.pc⟩) = false := by
    cases hr1 : (Emu8.Instruction.mk (s.memory s.pc)).read_addr1
    · rfl
    · simp [Emu8.copy_quirk, hr1, Emu8.OP_COPY, hnc]
  have hq' : ((Emu8.Instruction.mk (s.memory s.pc)).read_addr1 &&
      !Emu8.copy_quirk ⟨s.memory s.pc⟩) = (Emu8.Instruction.mk (s.memory s.pc)).read_addr1 := by
    cases hr1 : (Emu8.Instruction.mk (s.memory s.pc)).read_addr1
    · rfl
    · simp [Emu8.copy_quirk, hr1, Emu8.OP_COPY, hnc]
  rw [hex] at hp' ho hs' hm
  rw [hq] at r0
  rw [hq'] at r1
  rw [← hreg'] at r0 r1 r2
  refine ⟨wa, mid, s', hf, hs, hp'.trans hpc, hreg, ?_, r1, r2, ho.trans hro, hl',
    hs'.trans hso, ?_⟩
  · simpa using r0
  · rw [hm, hro]

theorem Emu8.noop_phases_8 (ix ix0 : Emu8.Instruction) (c : Emu8.CPU) (wa : Nat)
    (hop : 5 < ix.operation) (hop0 : ix0.operation = Emu8.OP_NONE)
    (h0 : ix0.read_addr0 = ix.read_addr0) (h1 : ix0.read_addr1 = ix.read_addr1)
    (hw : ix0.write_addr = ix.write_addr) (hn : ix0.argc = ix.argc) :
    Emu8.fetch_operands ix c = Emu8.fetch_operands ix0 c ∧
    Emu8.resolve ix c = Emu8.resolve ix0 c ∧
    Emu8.execute ix c = Emu8.execute ix0 c ∧
    Emu8.write_back ix wa c = Emu8.write_back ix0 wa c := by
  have hnc : ix.operation ≠ 1 := by omega
  have hnz : ix.operation ≠ 0 := by omega
  refine ⟨?_, ?_, ?_, ?_⟩
  · simp [Emu8.fetch_operands, Emu8.Instruction.nargs, hw, hn]
  · cases hA : ix.read_addr0 <;> cases hB : ix.read_addr1 <;>
      simp [Emu8.resolve, Emu8.deref, Emu8.copy_quirk, h0, h1, hop0, Emu8.OP_NONE,
        Emu8.OP_COPY, hA, hB, hnc, hnz]
  · obtain ⟨-, -, -, -, -, t5⟩ := Emu8.execute_table_8 ix c
    obtain ⟨u0, -, -, -, -, -⟩ := Emu8.execute_table_8 ix0 c
    rw [u0 hop0, t5 (by omega)]
  · simp [Emu8.write_back, hw]

theorem Emu16.step_as_none_16 (s : Emu16.CPU) (ix0 : Emu16.Instruction)
    (hop : (Emu16.Instruction.mk (s.memory s.pc)).operation = 2 ∨
      6 < (Emu16.Instruction.mk (s.memory s.pc)).operation)
    (hop0 : ix0.operation = Emu16.OP_NONE)
    (h0 : ix0.read_addr0 = (Emu16.Instruction.mk (s.memory s.pc)).read_addr0)
    (h1 : ix0.read_addr1 = (Emu16.Instruction.mk (s.memory s.pc)).read_addr1)
    (hw : ix0.write_addr = (Emu16.Instruction.mk (s.memory s.pc)).write_addr) :
    Emu16.step_cpu s =
      (Emu16.fetch_operands s).bind fun r =>
        (Emu16.resolve ix0 r.2.2).bind fun c3 =>
          Emu16.write_back ix0 r.2.1 (Emu16.execute ix0 c3) := by
  unfold Emu16.step_cpu
  cases hf : Emu16.fetch_operands s with
  | none => rfl
  | some r =>
    obtain ⟨ix, wa, mid⟩ := r
    have hix := (Emu16.fetch_operands_spec_16 s ix wa mid hf).1
    subst hix
    simp only [Option.some_bind]
    rw [(Emu16.noop_phases_16 _ ix0 mid wa hop hop0 h0 h1 hw).1]
    cases hr : Emu16.resolve ix0 mid with
    | none => rfl
    | some c3 =>
      simp only [Option.some_bind]
      rw [(Emu16.noop_phases_16 _ ix0 c3 wa hop hop0 h0 h1 hw).2.1,
        (Emu16.noop_phases_16 _ ix0 (Emu16.execute ix0 c3) wa hop hop0 h0 h1 hw).2.2]

theorem Emu8.step_as_none_8 (s : Emu8.CPU) (ix0 : Emu8.Instruction)
    (hop : 5 < (Emu8.Instruction.mk (s.memory s.pc)).operation)
    (hop0 : ix0.operation = Emu8.OP_NONE)
    (h0 : ix0.read_addr0 = (Emu8.Instruction.mk (s.memory s.pc)).read_addr0)
    (h1 : ix0.read_addr1 = (Emu8.Instruction.mk (s.memory s.pc)).read_addr1)
    (hw : ix0.write_addr = (Emu8.Instruction.mk (s.memory s.pc)).write_addr)
    (hn : ix0.argc = (Emu8.Instruction.mk (s.memory s.pc)).argc) :
    Emu8.step_cpu s =
      (Emu8.fetch s).bind fun r0 =>
        (Emu8.fetch_operands ix0 r0.2).bind fun r =>
          (Emu8.resolve ix0 r.2).bind fun c3 =>
            Emu8.write_back ix0 r.1 (Emu8.execute ix0 c3) := by
  unfold Emu8.step_cpu
  cases hf : Emu8.fetch s with
  | none => rfl
  | some r0 =>
    obtain ⟨w, c⟩ := r0
    obtain ⟨-, hw0, -⟩ := Emu8.fetch_some_8 s w c hf
    subst hw0
    have hne : ¬ (Emu8.Instruction.mk (s.memory s.pc)).operation = Emu8.OP_HALT := by
      simp only [Emu8.OP_HALT]; omega
    simp only [Option.some_bind, hne, if_false]
    rw [(Emu8.noop_phases_8 _ ix0 c 0 hop hop0 h0 h1 hw hn).1]
    cases hfo : Emu8.fetch_operands ix0 c with
    | none => rfl
    | some r =>
      obtain ⟨wa, mid⟩ := r
      simp only [Option.some_bind]
      rw [(Emu8.noop_phases_8 _ ix0 mid wa hop hop0 h0 h1 hw hn).2.1]
      cases hr : Emu8.resolve ix0 mid with
      | none => rfl
      | some c3 =>
        simp only [Option.some_bind]
        rw [(Emu8.noop_phases_8 _ ix0 c3 wa hop hop0 h0 h1 hw hn).2.2.1,
          (Emu8.noop_phases_8 _ ix0 (Emu8.execute ix0 c3) wa hop hop0 h0 h1 hw hn).2.2.2]

theorem Emu16.none_twin_16 (s t : Emu16.CPU) (h : Emu16.in_bounds s)
    (hop : (Emu16.Instruction.mk (s.memory s.pc)).operation = 2 ∨
      6 < (Emu16.Instruction.mk (s.memory s.pc)).operation)
    (hop0 : (Emu16.Instruction.mk (t.memory t.pc)).operation = Emu16.OP_NONE)
    (h0 : (Emu16.Instruction.mk (t.memory t.pc)).read_addr0 =
      (Emu16.Instruction.mk (s.memory s.pc)).read_addr0)
    (h1 : (Emu16.Instruction.mk (t.memory t.pc)).read_addr1 =
      (Emu16.Instruction.mk (s.memory s.pc)).read_addr1)
    (hw : (Emu16.Instruction.mk (t.memory t.pc)).write_addr =
      (Emu16.Instruction.mk (s.memory s.pc)).write_addr)
    (hn : (Emu16.Instruction.mk (t.memory t.pc)).argc =
      (Emu16.Instruction.mk (s.memory s.pc)).argc)
    (hpc : t.pc = s.pc) (hri : t.reg_in = s.reg_in) (hro : t.reg_out = s.reg_out)
    (hhl : t.halted = s.halted) (hso : t.stdout = s.stdout)
    (hmem : ∀ a, a ≠ s.pc → t.memory a = s.memory a) :
    ∃ s' t', Emu16.step_cpu s = some s' ∧ Emu16.step_cpu t = some t' ∧
      s'.pc = t'.pc ∧ s'.reg_out = t'.reg_out ∧ s'.reg_out = s.reg_out ∧
      s'.halted = t'.halted ∧ s'.halted = s.halted ∧ s'.stdout = t'.stdout ∧
      (∀ j, 2 ≤ j → s'.reg_in j = t'.reg_in j) ∧
      (((Emu16.Instruction.mk (s.memory s.pc)).read_addr0 = true →
          (if 0 < (Emu16.Instruction.mk (s.memory s.pc)).argc
            then s.memory (s.pc + 1 + (Emu16.Instruction.mk (s.memory s.pc)).write_addr)
            else s.reg_in 0) ≠ s.pc) →
        s'.reg_in 0 = t'.reg_in 0) ∧
      (((Emu16.Instruction.mk (s.memory s.pc)).read_addr1 = true →
          (if 1 < (Emu16.Instruction.mk (s.memory s.pc)).argc
            then s.memory (s.pc + 1 + (Emu16.Instruction.mk (s.memory s.pc)).write_addr + 1)
            else s.reg_in 1) ≠ s.pc) →
        s'.reg_in 1 = t'.reg_in 1) ∧
      (∀ a, (a ≠ s.pc ∨ ((Emu16.Instruction.mk (s.memory s.pc)).write_addr = 1 ∧
          s.memory (s.pc + 1) = s.pc)) → s'.memory a = t'.memory a) := by
  have hfl := Emu16.write_addr_le_one ⟨s.memory s.pc⟩
  rw [hpc] at h0 h1 hw hn
  -- the words after the opcode word are the same in both memories
  have m1 : t.memory (s.pc + 1) = s.memory (s.pc + 1) := hmem _ (by omega)
  have mj : ∀ j, t.memory (s.pc + 1 + (Emu16.Instruction.mk (s.memory s.pc)).write_addr + j) =
      s.memory (s.pc + 1 + (Emu16.Instruction.mk (s.memory s.pc)).write_addr + j) :=
    fun j => hmem _ (by omega)
  have hbt : Emu16.in_bounds t := by
    obtain ⟨b1, b2, b3, b4⟩ := h
    refine ⟨?_, ?_, ?_, ?_⟩
    · simp only [hpc, hw, hn]; exact b1
    · simp only [hpc, hw, m1]; exact b2
    · simp only [hpc, h0, hw, hn, hri]
      have := mj 0
      simp only [Nat.add_zero] at this
      rw [this]; exact b3
    · simp only [hpc, h1, hw, hn, hri, mj 1]; exact b4
  obtain ⟨wa, mid, s', hf, hs, p, g, a0, a1, a2, o, l, so, m⟩ :=
    Emu16.noop_effect_16 s h (Or.inr hop)
  obtain ⟨wb, mid2, t', hf2, ht, p2, g2, b0, b1, b2, o2, l2, so2, m2⟩ :=
    Emu16.noop_effect_16 t hbt (Or.inl hop0)
  simp only [hpc, h0, h1, hw, hn, hri, hro, hhl, hso, m1] at p2 g2 b0 b1 o2 l2 so2 m2
  have gg : ∀ j, mid2.reg_in j = mid.reg_in j := by
    intro j; rw [g2 j, g j, mj j]
  refine ⟨s', t', hs, ht, p.trans p2.symm, o.trans o2.symm, o, l.trans l2.symm, l,
    so.trans so2.symm, ?_, ?_, ?_, ?_⟩
  · intro j hj; rw [a2 j hj, b2 j hj, gg j]
  · intro hx
    rw [a0, b0, gg 0]
    cases hr0 : (Emu16.Instruction.mk (s.memory s.pc)).read_addr0
    · simp
    · have hne := hx hr0
      have e := g 0
      simp only [Nat.add_zero] at e
      rw [← e] at hne
      simp [hmem _ hne]
  · intro hx
    rw [a1, b1, gg 1]
    cases hr1 : (Emu16.Instruction.mk (s.memory s.pc)).read_addr1
    · simp
    · have hne := hx hr1
      rw [← g 1] at hne
      simp [hmem _ hne]
  · intro a ha
    rw [m, m2]
    by_cases hf1 : (Emu16.Instruction.mk (s.memory s.pc)).write_addr = 1
    · simp only [hf1, if_true, Function.update_apply]
      by_cases hwa : a = s.memory (s.pc + 1)
      · simp [hwa]
      · simp only [hwa, if_false]
        rcases ha with ha | ⟨-, ha⟩
        · exact (hmem a ha).symm
        · have : a ≠ s.pc := fun k => hwa (by rw [k, ha])
          exact (hmem a this).symm
    · simp only [hf1, if_false]
      rcases ha with ha | ⟨k, -⟩
      · exact (hmem a ha).symm
      · exact absurd k hf1

theorem Emu8.none_twin_8 (s t : Emu8.CPU) (h : Emu8.WF s) (ht : Emu8.WF t)
    (hop : 5 < (Emu8.Instruction.mk (s.memory s.pc)).operation)
    (hop0 : (Emu8.Instruction.mk (t.memory t.pc)).operation = Emu8.OP_NONE)
    (h0 : (Emu8.Instruction.mk (t.memory t.pc)).read_addr0 =
      (Emu8.Instruction.mk (s.memory s.pc)).read_addr0)
    (h1 : (Emu8.Instruction.mk (t.memory t.pc)).read_addr1 =
      (Emu8.Instruction.mk (s.memory s.pc)).read_addr1)
    (hw : (Emu8.Instruction.mk (t.memory t.pc)).write_addr =
      (Emu8.Instruction.mk (s.memory s.pc)).write_addr)
    (hn : (Emu8.Instruction.mk (t.memory t.pc)).argc =
      (Emu8.Instruction.mk (s.memory s.pc)).argc)
    (hpc : t.pc = s.pc) (hri : t.reg_in = s.reg_in) (hro : t.reg_out = s.reg_out)
    (hhl : t.halted = s.halted) (hso : t.stdout = s.stdout)
    (hmem : ∀ a, a ≠ s.pc → t.memory a = s.memory a) :
    ∃ s' t', Emu8.step_cpu s = some s' ∧ Emu8.step_cpu t = some t' ∧
      s'.pc = t'.pc ∧ s'.reg_out = t'.reg_out ∧ s'.reg_out = s.reg_out ∧
      s'.halted = t'.halted ∧ s'.halted = s.halted ∧ s'.stdout = t'.stdout ∧
      (∀ j, 2 ≤ j → s'.reg_in j = t'.reg_in j) ∧
      (((Emu8.Instruction.mk (s.memory s.pc)).read_addr0 = true →
          s.memory ((s.pc + 1 +
            (if (Emu8.Instruction.mk (s.memory s.pc)).write_addr then 1 else 0)) % Emu8.WORD)
            ≠ s.pc) →
        s'.reg_in 0 = t'.reg_in 0) ∧
      (((Emu8.Instruction.mk (s.memory s.pc)).read_addr1 = true →
          (if 1 < (Emu8.Instruction.mk (s.memory s.pc)).nargs
            then s.memory ((s.pc + 1 +
              (if (Emu8.Instruction.mk (s.memory s.pc)).write_addr then 1 else 0) + 1)
                % Emu8.WORD)
            else s.reg_in 1) ≠ s.pc) →
        s'.reg_in 1 = t'.reg_in 1) ∧
      (∀ a, (a ≠ s.pc ∨ ((Emu8.Instruction.mk (s.memory s.pc)).write_addr = true ∧
          s.memory ((s.pc + 1) % Emu8.WORD) = s.pc)) → s'.memory a = t'.memory a) := by
  have hlt : s.pc < 256 := h.1
  rw [hpc] at h0 h1 hw hn
  have hnn : (Emu8.Instruction.mk (t.memory s.pc)).nargs =
      (Emu8.Instruction.mk (s.memory s.pc)).nargs := by
    simp only [Emu8.Instruction.nargs, hn]
  have hnc := Emu8.nargs_cases ⟨s.memory s.pc⟩
  -- the words after the opcode word are the same in both memories
  have m1 : t.memory ((s.pc + 1) % Emu8.WORD) = s.memory ((s.pc + 1) % Emu8.WORD) :=
    hmem _ (by simp only [Emu8.WORD]; omega)
  have mj : ∀ j, j < (Emu8.Instruction.mk (s.memory s.pc)).nargs →
      t.memory ((s.pc + 1 +
        (if (Emu8.Instruction.mk (s.memory s.pc)).write_addr then 1 else 0) + j) % Emu8.WORD) =
      s.memory ((s.pc + 1 +
        (if (Emu8.Instruction.mk (s.memory s.pc)).write_addr then 1 else 0) + j) % Emu8.WORD) := by
    intro j hj
    apply hmem
    simp only [Emu8.WORD]
    split <;> omega
  obtain ⟨wa, mid, s', hf, hs, p, g, a0, a1, a2, o, l, so, m⟩ :=
    Emu8.noop_effect_8 s h (Or.inr hop)
  obtain ⟨wb, mid2, t', hf2, htt, p2, g2, b0, b1, b2, o2, l2, so2, m2⟩ :=
    Emu8.noop_effect_8 t ht (Or.inl hop0)
  simp only [hpc, h0, h1, hw, hnn, hri, hro, hhl, hso, m1] at p2 g2 b0 b1 o2 l2 so2 m2
  have gg : ∀ j, mid2.reg_in j = mid.reg_in j := by
    intro j
    rw [g2 j, g j]
    by_cases hj : j < (Emu8.Instruction.mk (s.memory s.pc)).nargs
    · rw [if_pos hj, if_pos hj, mj j hj]
    · rw [if_neg hj, if_neg hj]
  refine ⟨s', t', hs, htt, p.trans p2.symm, o.trans o2.symm, o, l.trans l2.symm, l,
    so.trans so2.symm, ?_, ?_, ?_, ?_⟩
  · intro j hj; rw [a2 j hj, b2 j hj, gg j]
  · intro hx
    rw [a0, b0, gg 0]
    cases hr0 : (Emu8.Instruction.mk (s.memory s.pc)).read_addr0
    · simp
    · have hne := hx hr0
      have e := g 0
      rw [if_pos (by omega)] at e
      simp only [Nat.add_zero] at e
      rw [← e] at hne
      simp [hmem _ hne]
  · intro hx
    rw [a1, b1, gg 1]
    cases hr1 : (Emu8.Instruction.mk (s.memory s.pc)).read_addr1
    · simp
    · have hne := hx hr1
      rw [← g 1] at hne
      simp [hmem _ hne]
  · intro a ha
    rw [m, m2]
    cases hf1 : (Emu8.Instruction.mk (s.memory s.pc)).write_addr
    · simp only [Bool.false_eq_true, if_false]
      rcases ha with ha | ⟨k, -⟩
      · exact (hmem a ha).symm
      · rw [hf1] at k; exact absurd k (by decide)
    · simp only [if_true, Function.update_apply]
      by_cases hwa : a = s.memory ((s.pc + 1) % Emu8.WORD)
      · simp [hwa]
      · simp only [hwa, if_false]
        rcases ha with ha | ⟨-, ha⟩
        · exact (hmem a ha).symm
        · have : a ≠ s.pc := fun k => hwa (by rw [k, ha])
          exact (hmem a this).symm

theorem imageOf_tail_eq (x y : Nat) (l : List Nat) (a : Nat) (ha : a ≠ 0) :
    imageOf (x :: l) a = imageOf (y :: l) a := by
  cases a with
  | zero => exact absurd rfl ha
  | succ a => rfl

/-- C15, as stated, fails when the instruction reads its own word: the states
of each pair below differ only in the opcode field of the word at `pc = 0`
(16-bit 0x1202, `OP_DEREF`, against 0x1200, `NONE`, both with `read_addr0` and the
one argument 0; 8-bit 0x26, opcode 6, against 0x20, `NONE`, both with `read_addr0`
and the one argument 0), yet the step leaves different input registers 0, the
dereferenced word being the instruction word itself; and the memories after the
step differ in that word's cell as the memories before it did. -/
theorem c15_unassigned_opcodes_as_none_counterexample :
    ((Emu16.Instruction.mk 0x1202).operation = 2 ∧
      (Emu16.Instruction.mk 0x1200).operation = Emu16.OP_NONE ∧
      (Emu16.Instruction.mk 0x1202).read_addr0 = (Emu16.Instruction.mk 0x1200).read_addr0 ∧
      (Emu16.Instruction.mk 0x1202).read_addr1 = (Emu16.Instruction.mk 0x1200).read_addr1 ∧
      (Emu16.Instruction.mk 0x1202).write_addr = (Emu16.Instruction.mk 0x1200).write_addr ∧
      (Emu16.Instruction.mk 0x1202).argc = (Emu16.Instruction.mk 0x1200).argc ∧
      (Emu16.step_cpu (Emu16.boot [0x1202, 0])).map (fun c => (c.reg_in 0, c.memory 0)) =
        some (0x1202, 0x1202) ∧
      (Emu16.step_cpu (Emu16.boot [0x1200, 0])).map (fun c => (c.reg_in 0, c.memory 0)) =
        some (0x1200, 0x1200)) ∧
    ((Emu8.Instruction.mk 0x26).operation = 6 ∧
      (Emu8.Instruction.mk 0x20).operation = Emu8.OP_NONE ∧
      (Emu8.Instruction.mk 0x26).read_addr0 = (Emu8.Instruction.mk 0x20).read_addr0 ∧
      (Emu8.Instruction.mk 0x26).read_addr1 = (Emu8.Instruction.mk 0x20).read_addr1 ∧
      (Emu8.Instruction.mk 0x26).write_addr = (Emu8.Instruction.mk 0x20).write_addr ∧
      (Emu8.Instruction.mk 0x26).argc = (Emu8.Instruction.mk 0x20).argc ∧
      (Emu8.step_cpu (Emu8.boot [0x26, 0])).map (fun c => (c.reg_in 0, c.memory 0)) =
        some (0x26, 0x26) ∧
      (Emu8.step_cpu (Emu8.boot [0x20, 0])).map (fun c => (c.reg_in 0, c.memory 0)) =
        some (0x20, 0x20)) := by
  decide

/-- C15, amended. Unassigned opcodes behave as NONE, in both configurations. Let
`s` be a CPU state (touched addresses in bounds) whose opcode field has no case
in the dispatch (16-bit: `OP_DEREF` = 2 and 7..255; 8-bit: 6..15), and `t` the
state that differs from `s` only in the word at `pc`, which in `t` has the opcode
field NONE and the same flags and argument count. Then `step_cpu` returns on
both and yields the same `pc`, the same `reg_out` (the one `s` had), the same
`halted` flag (the one `s` had) and the same output; the same input register 0
(resp. 1) unless its read flag is set and the address it dereferences is `pc`,
the instruction's own word; the same input registers 2 and up; and the same
memory at every address other than `pc`, and at `pc` too when the write-back
goes there. -/
theorem c15_unassigned_opcodes_as_none :
    (∀ s t : Emu16.CPU, Emu16.in_bounds s →
      ((Emu16.Instruction.mk (s.memory s.pc)).operation = 2 ∨
        6 < (Emu16.Instruction.mk (s.memory s.pc)).operation) →
      (Emu16.Instruction.mk (t.memory t.pc)).operation = Emu16.OP_NONE →
      (Emu16.Instruction.mk (t.memory t.pc)).read_addr0 =
        (Emu16.Instruction.mk (s.memory s.pc)).read_addr0 →
      (Emu16.Instruction.mk (t.memory t.pc)).read_addr1 =
        (Emu16.Instruction.mk (s.memory s.pc)).read_addr1 →
      (Emu16.Instruction.mk (t.memory t.pc)).write_addr =
        (Emu16.Instruction.mk (s.memory s.pc)).write_addr →
      (Emu16.Instruction.mk (t.memory t.pc)).argc =
        (Emu16.Instruction.mk (s.memory s.pc)).argc →
      t.pc = s.pc → t.reg_in = s.reg_in → t.reg_out = s.reg_out →
      t.halted = s.halted → t.stdout = s.stdout →
      (∀ a, a ≠ s.pc → t.memory a = s.memory a) →
      ∃ s' t', Emu16.step_cpu s = some s' ∧ Emu16.step_cpu t = some t' ∧
        s'.pc = t'.pc ∧ s'.reg_out = t'.reg_out ∧ s'.reg_out = s.reg_out ∧
        s'.halted = t'.halted ∧ s'.halted = s.halted ∧ s'.stdout = t'.stdout ∧
        (∀ j, 2 ≤ j → s'.reg_in j = t'.reg_in j) ∧
        (((Emu16.Instruction.mk (s.memory s.pc)).read_addr0 = true →
            (if 0 < (Emu16.Instruction.mk (s.memory s.pc)).argc
              then s.memory (s.pc + 1 + (Emu16.Instruction.mk (s.memory s.pc)).write_addr)
              else s.reg_in 0) ≠ s.pc) →
          s'.reg_in 0 = t'.reg_in 0) ∧
        (((Emu16.Instruction.mk (s.memory s.pc)).read_addr1 = true →
            (if 1 < (Emu16.Instruction.mk (s.memory s.pc)).argc
              then s.memory (s.pc + 1 + (Emu16.Instruction.mk (s.memory s.pc)).write_addr + 1)
              else s.reg_in 1) ≠ s.pc) →
          s'.reg_in 1 = t'.reg_in 1) ∧
        (∀ a, (a ≠ s.pc ∨ ((Emu16.Instruction.mk (s.memory s.pc)).write_addr = 1 ∧
            s.memory (s.pc + 1) = s.pc)) → s'.memory a = t'.memory a)) ∧
    (∀ s t : Emu8.CPU, Emu8.WF s → Emu8.WF t →
      5 < (Emu8.Instruction.mk (s.memory s.pc)).operation →
      (Emu8.Instruction.mk (t.memory t.pc)).operation = Emu8.OP_NONE →
      (Emu8.Instruction.mk (t.memory t.pc)).read_addr0 =
        (Emu8.Instruction.mk (s.memory s.pc)).read_addr0 →
      (Emu8.Instruction.mk (t.memory t.pc)).read_addr1 =
        (Emu8.Instruction.mk (s.memory s.pc)).read_addr1 →
      (Emu8.Instruction.mk (t.memory t.pc)).write_addr =
        (Emu8.Instruction.mk (s.memory s.pc)).write_addr →
      (Emu8.Instruction.mk (t.memory t.pc)).argc =
        (Emu8.Instruction.mk (s.memory s.pc)).argc →
      t.pc = s.pc → t.reg_in = s.reg_in → t.reg_out = s.reg_out →
      t.halted = s.halted → t.stdout = s.stdout →
      (∀ a, a ≠ s.pc → t.memory a = s.memory a) →
      ∃ s' t', Emu8.step_cpu s = some s' ∧ Emu8.step_cpu t = some t' ∧
        s'.pc = t'.pc ∧ s'.reg_out = t'.reg_out ∧ s'.reg_out = s.reg_out ∧
        s'.halted = t'.halted ∧ s'.halted = s.halted ∧ s'.stdout = t'.stdout ∧
        (∀ j, 2 ≤ j → s'.reg_in j = t'.reg_in j) ∧
        (((Emu8.Instruction.mk (s.memory s.pc)).read_addr0 = true →
            s.memory ((s.pc + 1 +
              (if (Emu8.Instruction.mk (s.memory s.pc)).write_addr then 1 else 0)) % Emu8.WORD)
              ≠ s.pc) →
          s'.reg_in 0 = t'.reg_in 0) ∧
        (((Emu8.Instruction.mk (s.memory s.pc)).read_addr1 = true →
            (if 1 < (Emu8.Instruction.mk (s.memory s.pc)).nargs
              then s.memory ((s.pc + 1 +
                (if (Emu8.Instruction.mk (s.memory s.pc)).write_addr then 1 else 0) + 1)
                  % Emu8.WORD)
              else s.reg_in 1) ≠ s.pc) →
          s'.reg_in 1 = t'.reg_in 1) ∧
        (∀ a, (a ≠ s.pc ∨ ((Emu8.Instruction.mk (s.memory s.pc)).write_addr = true ∧
            s.memory ((s.pc + 1) % Emu8.WORD) = s.pc)) → s'.memory a = t'.memory a)) :=
  ⟨Emu16.none_twin_16, Emu8.none_twin_8⟩

/-- C15 (amended) at the 16-bit word 0x2502 (`OP_DEREF`, write flag, `read_addr1`,
two arguments) against 0x2500, both followed by 127, 1, 127, and at the 8-bit
word 0xCF (opcode 15, write flag, two arguments) against 0xC0, both followed by
9, 3, 4, all with `reg_out = 9` left by an earlier step: the two runs of each
pair end with the same `pc`, `reg_out` 9, the same `halted`, output and input
registers 0 and 1, and the same cell 127 (resp. 9). -/
theorem c15_unassigned_opcodes_as_none_witness :
    (∃ s' t', Emu16.step_cpu { Emu16.boot [0x2502, 127, 1, 127] with reg_out := 9 } = some s' ∧
      Emu16.step_cpu { Emu16.boot [0x2500, 127, 1, 127] with reg_out := 9 } = some t' ∧
      s'.pc = t'.pc ∧ s'.reg_out = t'.reg_out ∧ s'.reg_out = 9 ∧ s'.halted = t'.halted ∧
      s'.stdout = t'.stdout ∧ s'.reg_in 0 = t'.reg_in 0 ∧ s'.reg_in 1 = t'.reg_in 1 ∧
      s'.memory 127 = t'.memory 127) ∧
    (∃ s' t', Emu8.step_cpu { Emu8.boot [0xCF, 9, 3, 4] with reg_out := 9 } = some s' ∧
      Emu8.step_cpu { Emu8.boot [0xC0, 9, 3, 4] with reg_out := 9 } = some t' ∧
      s'.pc = t'.pc ∧ s'.reg_out = t'.reg_out ∧ s'.reg_out = 9 ∧ s'.halted = t'.halted ∧
      s'.stdout = t'.stdout ∧ s'.reg_in 0 = t'.reg_in 0 ∧ s'.reg_in 1 = t'.reg_in 1 ∧
      s'.memory 9 = t'.memory 9) := by
  constructor
  · obtain ⟨s', t', hs, ht, p, o, o', l, -, so, -, r0, r1, m⟩ :=
      c15_unassigned_opcodes_as_none.1
        { Emu16.boot [0x2502, 127, 1, 127] with reg_out := 9 }
        { Emu16.boot [0x2500, 127, 1, 127] with reg_out := 9 }
        (by decide) (by decide) (by decide) (by decide) (by decide) (by decide) (by decide)
        rfl rfl rfl rfl rfl (fun a ha => imageOf_tail_eq _ _ _ a ha)
    exact ⟨s', t', hs, ht, p, o, o', l, so, r0 (by decide), r1 (by decide),
      m 127 (Or.inl (by decide))⟩
  · have wf : ∀ w, w < 256 → Emu8.WF { Emu8.boot [w, 9, 3, 4] with reg_out := 9 } := by
      intro w hw
      obtain ⟨a, b, -, d⟩ := Emu8.WF_boot [w, 9, 3, 4] (by
        intro x hx
        simp only [List.mem_cons, List.mem_singleton, List.not_mem_nil, or_false] at hx
        rcases hx with rfl | rfl | rfl | rfl <;> omega)
      exact ⟨a, b, (by decide : 9 < Emu8.WORD), d⟩
    obtain ⟨s', t', hs, ht, p, o, o', l, -, so, -, r0, r1, m⟩ :=
      c15_unassigned_opcodes_as_none.2
        { Emu8.boot [0xCF, 9, 3, 4] with reg_out := 9 }
        { Emu8.boot [0xC0, 9, 3, 4] with reg_out := 9 }
        (wf 0xCF (by decide)) (wf 0xC0 (by decide))
        (by decide) (by decide) (by decide) (by decide) (by decide) (by decide)
        rfl rfl rfl rfl rfl (fun a ha => imageOf_tail_eq _ _ _ a ha)
    exact ⟨s', t', hs, ht, p, o, o', l, so, r0 (by decide), r1 (by decide),
      m 9 (Or.inl (by decide))⟩

/-- C16, as stated, fails in both configurations: the states of each pair below
agree on `pc`, memory, `halted` and output and differ only in the registers, yet
the step leaves different memories (16-bit `COPY` with no argument and the write
flag, word 0x0401: cell 9 gets the old input register 0; 8-bit `NONE` with the
write flag, word 0x40: cell 9 gets the old `reg_out`), different `pc` (the
one-argument `JUMP_IF_ZERO` of the drivers, 16-bit word 0x1004, 8-bit word 0x03:
the old input register 1 decides) and different output (16-bit `POKE` with no
argument, word 0x0005). The last five pairs show the same for the remaining
kinds of instruction that use a value they do not load: 16-bit `NONE` with the
write flag (0x0400), `ADD` with the write flag and one argument (16-bit 0x1403,
8-bit 0x42), `POKE` with one argument (16-bit 0x1005, 8-bit 0x04). -/
theorem c16_registers_scratch_counterexample :
    ((Emu16.step_cpu (Emu16.boot [0x0401, 9])).map (fun c => c.memory 9) = some 0 ∧
      (Emu16.step_cpu { Emu16.boot [0x0401, 9] with reg_in := fun _ => 5 }).map
        (fun c => c.memory 9) = some 5) ∧
    ((Emu16.step_cpu (Emu16.boot [0x1004, 23])).map (fun c => c.pc) = some 23 ∧
      (Emu16.step_cpu { Emu16.boot [0x1004, 23] with reg_in := fun _ => 5 }).map
        (fun c => c.pc) = some 2) ∧
    ((Emu16.step_cpu (Emu16.boot [0x0005])).map (fun c => c.stdout) = some [0] ∧
      (Emu16.step_cpu { Emu16.boot [0x0005] with reg_in := fun _ => 5 }).map
        (fun c => c.stdout) = some [5]) ∧
    ((Emu8.step_cpu (Emu8.boot [0x03, 23])).map (fun c => c.pc) = some 23 ∧
      (Emu8.step_cpu { Emu8.boot [0x03, 23] with reg_in := fun _ => 5 }).map
        (fun c => c.pc) = some 2) ∧
    ((Emu8.step_cpu (Emu8.boot [0x40, 9, 0])).map (fun c => c.memory 9) = some 0 ∧
      (Emu8.step_cpu { Emu8.boot [0x40, 9, 0] with reg_out := 5 }).map
        (fun c => c.memory 9) = some 5) ∧
    ((Emu16.step_cpu (Emu16.boot [0x0400, 9])).map (fun c => c.memory 9) = some 0 ∧
      (Emu16.step_cpu { Emu16.boot [0x0400, 9] with reg_out := 5 }).map
        (fun c => c.memory 9) = some 5) ∧
    ((Emu16.step_cpu (Emu16.boot [0x1403, 9, 1])).map (fun c => c.memory 9) = some 1 ∧
      (Emu16.step_cpu { Emu16.boot [0x1403, 9, 1] with reg_in := fun _ => 5 }).map
        (fun c => c.memory 9) = some 6) ∧
    ((Emu16.step_cpu (Emu16.boot [0x1005, 0])).map (fun c => c.stdout) = some [0] ∧
      (Emu16.step_cpu { Emu16.boot [0x1005, 0] with reg_in := fun _ => 5 }).map
        (fun c => c.stdout) = some [5]) ∧
    ((Emu8.step_cpu (Emu8.boot [0x42, 9, 1])).map (fun c => c.memory 9) = some 1 ∧
      (Emu8.step_cpu { Emu8.boot [0x42, 9, 1] with reg_in := fun _ => 5 }).map
        (fun c => c.memory 9) = some 6) ∧
    ((Emu8.step_cpu (Emu8.boot [0x04, 0])).map (fun c => c.stdout) = some [0] ∧
      (Emu8.step_cpu { Emu8.boot [0x04, 0] with reg_in := fun _ => 5 }).map
        (fun c => c.stdout) = some [5]) := by
  decide

theorem Emu16.fresh_registers_16 (s t : Emu16.CPU) (hb : Emu16.in_bounds s)
    (hpc : t.pc = s.pc) (hmem : t.memory = s.memory) (hhl : t.halted = s.halted)
    (hso : t.stdout = s.stdout)
    (hn : 2 ≤ (Emu16.Instruction.mk (s.memory s.pc)).argc)
    (hw : (Emu16.Instruction.mk (s.memory s.pc)).write_addr = 0 ∨
      (Emu16.Instruction.mk (s.memory s.pc)).operation = Emu16.OP_COPY ∨
      (Emu16.Instruction.mk (s.memory s.pc)).operation = Emu16.OP_ADD) :
    ∃ s' t', Emu16.step_cpu s = some s' ∧ Emu16.step_cpu t = some t' ∧
      s'.pc = t'.pc ∧ s'.memory = t'.memory ∧ s'.halted = t'.halted ∧
      s'.stdout = t'.stdout := by
  have a0 : 0 < (Emu16.Instruction.mk (s.memory s.pc)).argc := by omega
  have a1 : 1 < (Emu16.Instruction.mk (s.memory s.pc)).argc := by omega
  have hbt : Emu16.in_bounds t := by
    unfold Emu16.in_bounds at hb ⊢
    rw [hpc, hmem]
    simp only [a0, a1, if_true] at hb ⊢
    exact hb
  obtain ⟨wa, mid, res, s', hf, hr, hs, hp, -, hro, hl, hso1, hp', hreg', ho, hl', hs', -, hm⟩ :=
    Emu16.step_cpu_effect_16 s hb
  obtain ⟨wb, mid2, res2, t', hf2, hr2, ht, hp2, -, hro2, hl2, hso2, hp2', hreg2', ho2, hl2',
    ht', -, hm2⟩ := Emu16.step_cpu_effect_16 t hbt
  obtain ⟨hreg, r0, r1, -⟩ := Emu16.resolved_regs_16 s wa mid res hf hr
  obtain ⟨hregt, q0, q1, -⟩ := Emu16.resolved_regs_16 t wb mid2 res2 hf2 hr2
  rw [hpc, hmem] at hp2 hp2' ho2 hl2' ht' hm2 hregt q0 q1
  have m0 : mid2.reg_in 0 = mid.reg_in 0 := by rw [hregt 0, hreg 0, if_pos a0, if_pos a0]
  have m1 : mid2.reg_in 1 = mid.reg_in 1 := by rw [hregt 1, hreg 1, if_pos a1, if_pos a1]
  have e0 : res2.reg_in 0 = res.reg_in 0 := by rw [q0, r0, m0]
  have e1 : res2.reg_in 1 = res.reg_in 1 := by rw [q1, r1, m1]
  obtain ⟨x1, x2, x3, x4⟩ := Emu16.execute_fields_16 ⟨s.memory s.pc⟩ res
  obtain ⟨y1, y2, y3, y4⟩ := Emu16.execute_fields_16 ⟨s.memory s.pc⟩ res2
  refine ⟨s', t', hs, ht, ?_, ?_, ?_, ?_⟩
  · rw [hp', hp2', x2, y2, e0, e1, hp, hp2]
  · rw [hm, hm2]
    rcases hw with k | k | k
    · simp [k]
    · rw [x1, y1, if_pos k, if_pos k, e0]
    · have k' : ¬ (Emu16.Instruction.mk (s.memory s.pc)).operation = Emu16.OP_COPY := by
        rw [k]; decide
      rw [x1, y1, if_neg k', if_neg k', if_pos k, if_pos k, e0, e1]
  · rw [hl', hl2', x4, y4, hl, hl2, hhl]
  · rw [hs', ht', x3, y3, e1, hso1, hso2, hso]

theorem Emu8.fresh_registers_8 (s t : Emu8.CPU) (hs : Emu8.WF s) (ht : Emu8.WF t)
    (hpc : t.pc = s.pc) (hmem : t.memory = s.memory) (hhl : t.halted = s.halted)
    (hso : t.stdout = s.stdout)
    (hn : (Emu8.Instruction.mk (s.memory s.pc)).nargs = 2)
    (hw : (Emu8.Instruction.mk (s.memory s.pc)).write_addr = false ∨
      (Emu8.Instruction.mk (s.memory s.pc)).operation = Emu8.OP_COPY ∨
      (Emu8.Instruction.mk (s.memory s.pc)).operation = Emu8.OP_ADD) :
    ∃ s' t', Emu8.step_cpu s = some s' ∧ Emu8.step_cpu t = some t' ∧
      s'.pc = t'.pc ∧ s'.memory = t'.memory ∧ s'.halted = t'.halted ∧
      s'.stdout = t'.stdout := by
  have hnh : (Emu8.Instruction.mk (s.memory s.pc)).operation ≠ Emu8.OP_HALT ∨
      (Emu8.Instruction.mk (s.memory s.pc)).operation = Emu8.OP_HALT := by
    by_cases k : (Emu8.Instruction.mk (s.memory s.pc)).operation = Emu8.OP_HALT
    · exact Or.inr k
    · exact Or.inl k
  rcases hnh with hop | hop
  · have hopt : (Emu8.Instruction.mk (t.memory t.pc)).operation ≠ Emu8.OP_HALT := by
      rw [hpc, hmem]; exact hop
    obtain ⟨wa, mid, res, s', hf, hr, hss, hp, -, hro, hl, hso1, hp', hreg', ho, hl', hs', hm⟩ :=
      Emu8.step_cpu_effect_8 s hs hop
    obtain ⟨wb, mid2, res2, t', hf2, hr2, htt, hp2, -, hro2, hl2, hso2, hp2', hreg2', ho2, hl2',
      ht', hm2⟩ := Emu8.step_cpu_effect_8 t ht hopt
    obtain ⟨hreg, r0, r1, -⟩ := Emu8.resolved_regs_8 s wa mid res hf hr
    obtain ⟨hregt, q0, q1, -⟩ := Emu8.resolved_regs_8 t wb mid2 res2 hf2 hr2
    rw [hpc, hmem] at hp2 hp2' ho2 ht' hm2 hregt q0 q1
    have a0 : 0 < (Emu8.Instruction.mk (s.memory s.pc)).nargs := by omega
    have a1 : 1 < (Emu8.Instruction.mk (s.memory s.pc)).nargs := by omega
    have m0 : mid2.reg_in 0 = mid.reg_in 0 := by rw [hregt 0, hreg 0, if_pos a0, if_pos a0]
    have m1 : mid2.reg_in 1 = mid.reg_in 1 := by rw [hregt 1, hreg 1, if_pos a1, if_pos a1]
    have e0 : res2.reg_in 0 = res.reg_in 0 := by rw [q0, r0, m0]
    have e1 : res2.reg_in 1 = res.reg_in 1 := by rw [q1, r1, m1]
    obtain ⟨x1, x2, x3⟩ := Emu8.execute_fields_8 ⟨s.memory s.pc⟩ res
    obtain ⟨y1, y2, y3⟩ := Emu8.execute_fields_8 ⟨s.memory s.pc⟩ res2
    refine ⟨s', t', hss, htt, ?_, ?_, ?_, ?_⟩
    · rw [hp', hp2', x2, y2, e0, e1, hp, hp2]
    · rw [hm, hm2]
      rcases hw with k | k | k
      · simp [k]
      · rw [x1, y1, if_pos k, if_pos k, e0]
      · have k' : ¬ (Emu8.Instruction.mk (s.memory s.pc)).operation = Emu8.OP_COPY := by
          rw [k]; decide
        rw [x1, y1, if_neg k', if_neg k', if_pos k, if_pos k, e0, e1]
    · rw [hl', hl2', hhl]
    · rw [hs', ht', x3, y3, e1, hso1, hso2, hso]
  · have hopt : (Emu8.Instruction.mk (t.memory t.pc)).operation = Emu8.OP_HALT := by
      rw [hpc, hmem]; exact hop
    have hps : s.pc < Emu8.WORD := hs.1
    have hpt : t.pc < Emu8.WORD := ht.1
    refine ⟨_, _, Emu8.step_cpu_halt s hps hop, Emu8.step_cpu_halt t hpt hopt, ?_, ?_, rfl, ?_⟩
    · simp only [hpc]
    · exact hmem.symm
    · exact hso.symm

theorem Emu16.register_independent_16 (s t : Emu16.CPU) (hb : Emu16.in_bounds s)
    (hbt : Emu16.in_bounds t)
    (hpc : t.pc = s.pc) (hmem : t.memory = s.memory) (hhl : t.halted = s.halted)
    (hso : t.stdout = s.stdout)
    (hw : (Emu16.Instruction.mk (s.memory s.pc)).write_addr = 0 ∨
      ((Emu16.Instruction.mk (s.memory s.pc)).operation = Emu16.OP_COPY ∧
        1 ≤ (Emu16.Instruction.mk (s.memory s.pc)).argc) ∨
      ((Emu16.Instruction.mk (s.memory s.pc)).operation = Emu16.OP_ADD ∧
        2 ≤ (Emu16.Instruction.mk (s.memory s.pc)).argc))
    (hj : (Emu16.Instruction.mk (s.memory s.pc)).operation = Emu16.OP_JUMP_IF_ZERO ∨
      (Emu16.Instruction.mk (s.memory s.pc)).operation = Emu16.OP_POKE →
      2 ≤ (Emu16.Instruction.mk (s.memory s.pc)).argc) :
    ∃ s' t', Emu16.step_cpu s = some s' ∧ Emu16.step_cpu t = some t' ∧
      s'.pc = t'.pc ∧ s'.memory = t'.memory ∧ s'.halted = t'.halted ∧
      s'.stdout = t'.stdout := by
  obtain ⟨wa, mid, res, s', hf, hr, hs, hp, -, hro, hl, hso1, hp', hreg', ho, hl', hs', -, hm⟩ :=
    Emu16.step_cpu_effect_16 s hb
  obtain ⟨wb, mid2, res2, t', hf2, hr2, ht, hp2, -, hro2, hl2, hso2, hp2', hreg2', ho2, hl2',
    ht', -, hm2⟩ := Emu16.step_cpu_effect_16 t hbt
  obtain ⟨hreg, r0, r1, -⟩ := Emu16.resolved_regs_16 s wa mid res hf hr
  obtain ⟨hregt, q0, q1, -⟩ := Emu16.resolved_regs_16 t wb mid2 res2 hf2 hr2
  rw [hpc, hmem] at hp2 hp2' ho2 hl2' ht' hm2 hregt q0 q1
  have e0 : 1 ≤ (Emu16.Instruction.mk (s.memory s.pc)).argc → res2.reg_in 0 = res.reg_in 0 := by
    intro k
    have m0 : mid2.reg_in 0 = mid.reg_in 0 := by
      rw [hregt 0, hreg 0, if_pos (by omega), if_pos (by omega)]
    rw [q0, r0, m0]
  have e1 : 2 ≤ (Emu16.Instruction.mk (s.memory s.pc)).argc → res2.reg_in 1 = res.reg_in 1 := by
    intro k
    have m1 : mid2.reg_in 1 = mid.reg_in 1 := by
      rw [hregt 1, hreg 1, if_pos (by omega), if_pos (by omega)]
    rw [q1, r1, m1]
  obtain ⟨x1, x2, x3, x4⟩ := Emu16.execute_fields_16 ⟨s.memory s.pc⟩ res
  obtain ⟨y1, y2, y3, y4⟩ := Emu16.execute_fields_16 ⟨s.memory s.pc⟩ res2
  refine ⟨s', t', hs, ht, ?_, ?_, ?_, ?_⟩
  · rw [hp', hp2', x2, y2, hp, hp2]
    by_cases k : (Emu16.Instruction.mk (s.memory s.pc)).operation = Emu16.OP_JUMP_IF_ZERO
    · have n2 := hj (Or.inl k)
      rw [e0 (by omega), e1 n2]
    · simp [k]
  · rw [hm, hm2]
    rcases hw with k | ⟨k, n1⟩ | ⟨k, n2⟩
    · simp [k]
    · rw [x1, y1, if_pos k, if_pos k, e0 n1]
    · have k' : ¬ (Emu16.Instruction.mk (s.memory s.pc)).operation = Emu16.OP_COPY := by
        rw [k]; decide
      rw [x1, y1, if_neg k', if_neg k', if_pos k, if_pos k, e0 (by omega), e1 n2]
  · rw [hl', hl2', x4, y4, hl, hl2, hhl]
  · rw [hs', ht', x3, y3, hso1, hso2, hso]
    by_cases k : (Emu16.Instruction.mk (s.memory s.pc)).operation = Emu16.OP_POKE
    · rw [e1 (hj (Or.inr k))]
    · simp [k]

theorem Emu8.register_independent_8 (s t : Emu8.CPU) (hs : Emu8.WF s) (ht : Emu8.WF t)
    (hpc : t.pc = s.pc) (hmem : t.memory = s.memory) (hhl : t.halted = s.halted)
    (hso : t.stdout = s.stdout)
    (hc : (Emu8.Instruction.mk (s.memory s.pc)).operation = Emu8.OP_HALT ∨
      (((Emu8.Instruction.mk (s.memory s.pc)).write_addr = false ∨
          (Emu8.Instruction.mk (s.memory s.pc)).operation = Emu8.OP_COPY ∨
          ((Emu8.Instruction.mk (s.memory s.pc)).operation = Emu8.OP_ADD ∧
            (Emu8.Instruction.mk (s.memory s.pc)).nargs = 2)) ∧
        ((Emu8.Instruction.mk (s.memory s.pc)).operation = Emu8.OP_JUMP_IF_ZERO ∨
          (Emu8.Instruction.mk (s.memory s.pc)).operation = Emu8.OP_POKE →
          (Emu8.Instruction.mk (s.memory s.pc)).nargs = 2))) :
    ∃ s' t', Emu8.step_cpu s = some s' ∧ Emu8.step_cpu t = some t' ∧
      s'.pc = t'.pc ∧ s'.memory = t'.memory ∧ s'.halted = t'.halted ∧
      s'.stdout = t'.stdout := by
  by_cases hop : (Emu8.Instruction.mk (s.memory s.pc)).operation = Emu8.OP_HALT
  · have hopt : (Emu8.Instruction.mk (t.memory t.pc)).operation = Emu8.OP_HALT := by
      rw [hpc, hmem]; exact hop
    refine ⟨_, _, Emu8.step_cpu_halt s hs.1 hop, Emu8.step_cpu_halt t ht.1 hopt, ?_, ?_, rfl, ?_⟩
    · simp only [hpc]
    · exact hmem.symm
    · exact hso.symm
  · obtain ⟨hw, hj⟩ : ((Emu8.Instruction.mk (s.memory s.pc)).write_addr = false ∨
          (Emu8.Instruction.mk (s.memory s.pc)).operation = Emu8.OP_COPY ∨
          ((Emu8.Instruction.mk (s.memory s.pc)).operation = Emu8.OP_ADD ∧
            (Emu8.Instruction.mk (s.memory s.pc)).nargs = 2)) ∧
        ((Emu8.Instruction.mk (s.memory s.pc)).operation = Emu8.OP_JUMP_IF_ZERO ∨
          (Emu8.Instruction.mk (s.memory s.pc)).operation = Emu8.OP_POKE →
          (Emu8.Instruction.mk (s.memory s.pc)).nargs = 2) := by
      rcases hc with k | k
      · exact absurd k hop
      · exact k
    have hopt : (Emu8.Instruction.mk (t.memory t.pc)).operation ≠ Emu8.OP_HALT := by
      rw [hpc, hmem]; exact hop
    obtain ⟨wa, mid, res, s', hf, hr, hss, hp, -, hro, hl, hso1, hp', hreg', ho, hl', hs', hm⟩ :=
      Emu8.step_cpu_effect_8 s hs hop
    obtain ⟨wb, mid2, res2, t', hf2, hr2, htt, hp2, -, hro2, hl2, hso2, hp2', hreg2', ho2, hl2',
      ht', hm2⟩ := Emu8.step_cpu_effect_8 t ht hopt
    obtain ⟨hreg, r0, r1, -⟩ := Emu8.resolved_regs_8 s wa mid res hf hr
    obtain ⟨hregt, q0, q1, -⟩ := Emu8.resolved_regs_8 t wb mid2 res2 hf2 hr2
    rw [hpc, hmem] at hp2 hp2' ho2 ht' hm2 hregt q0 q1
    have a0 : 0 < (Emu8.Instruction.mk (s.memory s.pc)).nargs := by
      rcases Emu8.nargs_cases ⟨s.memory s.pc⟩ with k | k <;> omega
    have m0 : mid2.reg_in 0 = mid.reg_in 0 := by
      rw [hregt 0, hreg 0, if_pos a0, if_pos a0]
    have e0 : res2.reg_in 0 = res.reg_in 0 := by rw [q0, r0, m0]
    have e1 : (Emu8.Instruction.mk (s.memory s.pc)).nargs = 2 →
        res2.reg_in 1 = res.reg_in 1 := by
      intro k
      have a1 : 1 < (Emu8.Instruction.mk (s.memory s.pc)).nargs := by rw [k]; decide
      have m1 : mid2.reg_in 1 = mid.reg_in 1 := by
        rw [hregt 1, hreg 1, if_pos a1, if_pos a1]
      rw [q1, r1, m1]
    obtain ⟨x1, x2, x3⟩ := Emu8.execute_fields_8 ⟨s.memory s.pc⟩ res
    obtain ⟨y1, y2, y3⟩ := Emu8.execute_fields_8 ⟨s.memory s.pc⟩ res2
    refine ⟨s', t', hss, htt, ?_, ?_, ?_, ?_⟩
    · rw [hp', hp2', x2, y2, hp, hp2, e0]
      by_cases k : (Emu8.Instruction.mk (s.memory s.pc)).operation = Emu8.OP_JUMP_IF_ZERO
      · rw [e1 (hj (Or.inl k))]
      · simp [k]
    · rw [hm, hm2]
      rcases hw with k | k | ⟨k, n2⟩
      · simp [k]
      · rw [x1, y1, if_pos k, if_pos k, e0]
      · have k' : ¬ (Emu8.Instruction.mk (s.memory s.pc)).operation = Emu8.OP_COPY := by
          rw [k]; decide
        rw [x1, y1, if_neg k', if_neg k', if_pos k, if_pos k, e0, e1 n2]
    · rw [hl', hl2', hhl]
    · rw [hs', ht', x3, y3, hso1, hso2, hso]
      by_cases k : (Emu8.Instruction.mk (s.memory s.pc)).operation = Emu8.OP_POKE
      · rw [e1 (hj (Or.inr k))]
      · simp [k]

/-- C16, amended. The registers do carry state from one step to the next. For
every two CPU states that agree on `pc`, memory, `halted` and output and differ
only in the input registers and `reg_out` (touched addresses in bounds in both):
the step yields the same `halted` flag; and it yields the same `pc`, the same
memory, the same `halted` flag and the same output whenever the instruction
loads every register value that reaches them, that is, when (i) the write flag
is clear, or the opcode is COPY with at least one argument, or the opcode is ADD
with two arguments or more, and (ii) the opcode is neither JUMP_IF_ZERO nor POKE
or the instruction has two arguments or more. In the 8-bit configuration every
instruction has at least one argument, and HALT, which returns at once, always
qualifies. -/
theorem c16_registers_scratch :
    ((∀ s t : Emu16.CPU, Emu16.in_bounds s → Emu16.in_bounds t →
        t.pc = s.pc → t.memory = s.memory → t.halted = s.halted →
        ∃ s' t', Emu16.step_cpu s = some s' ∧ Emu16.step_cpu t = some t' ∧
          s'.halted = t'.halted) ∧
      (∀ s t : Emu16.CPU, Emu16.in_bounds s → Emu16.in_bounds t →
        t.pc = s.pc → t.memory = s.memory → t.halted = s.halted → t.stdout = s.stdout →
        ((Emu16.Instruction.mk (s.memory s.pc)).write_addr = 0 ∨
          ((Emu16.Instruction.mk (s.memory s.pc)).operation = Emu16.OP_COPY ∧
            1 ≤ (Emu16.Instruction.mk (s.memory s.pc)).argc) ∨
          ((Emu16.Instruction.mk (s.memory s.pc)).operation = Emu16.OP_ADD ∧
            2 ≤ (Emu16.Instruction.mk (s.memory s.pc)).argc)) →
        ((Emu16.Instruction.mk (s.memory s.pc)).operation = Emu16.OP_JUMP_IF_ZERO ∨
          (Emu16.Instruction.mk (s.memory s.pc)).operation = Emu16.OP_POKE →
          2 ≤ (Emu16.Instruction.mk (s.memory s.pc)).argc) →
        ∃ s' t', Emu16.step_cpu s = some s' ∧ Emu16.step_cpu t = some t' ∧
          s'.pc = t'.pc ∧ s'.memory = t'.memory ∧ s'.halted = t'.halted ∧
          s'.stdout = t'.stdout)) ∧
    ((∀ s t : Emu8.CPU, Emu8.WF s → Emu8.WF t →
        t.pc = s.pc → t.memory = s.memory → t.halted = s.halted →
        ∃ s' t', Emu8.step_cpu s = some s' ∧ Emu8.step_cpu t = some t' ∧
          s'.halted = t'.halted) ∧
      (∀ s t : Emu8.CPU, Emu8.WF s → Emu8.WF t →
        t.pc = s.pc → t.memory = s.memory → t.halted = s.halted → t.stdout = s.stdout →
        ((Emu8.Instruction.mk (s.memory s.pc)).operation = Emu8.OP_HALT ∨
          (((Emu8.Instruction.mk (s.memory s.pc)).write_addr = false ∨
              (Emu8.Instruction.mk (s.memory s.pc)).operation = Emu8.OP_COPY ∨
              ((Emu8.Instruction.mk (s.memory s.pc)).operation = Emu8.OP_ADD ∧
                (Emu8.Instruction.mk (s.memory s.pc)).nargs = 2)) ∧
            ((Emu8.Instruction.mk (s.memory s.pc)).operation = Emu8.OP_JUMP_IF_ZERO ∨
              (Emu8.Instruction.mk (s.memory s.pc)).operation = Emu8.OP_POKE →
              (Emu8.Instruction.mk (s.memory s.pc)).nargs = 2))) →
        ∃ s' t', Emu8.step_cpu s = some s' ∧ Emu8.step_cpu t = some t' ∧
          s'.pc = t'.pc ∧ s'.memory = t'.memory ∧ s'.halted = t'.halted ∧
          s'.stdout = t'.stdout)) := by
  refine ⟨⟨?_, Emu16.register_independent_16⟩, ⟨?_, Emu8.register_independent_8⟩⟩
  · intro s t hs ht hpc hmem hhl
    obtain ⟨s', h1, e1⟩ := Emu16.halted_effect_16 s hs
    obtain ⟨t', h2, e2⟩ := Emu16.halted_effect_16 t ht
    refine ⟨s', t', h1, h2, ?_⟩
    rw [e1, e2, hpc, hmem, hhl]
  · intro s t hs ht hpc hmem hhl
    obtain ⟨s', h1, e1⟩ := Emu8.halted_effect_8 s hs
    obtain ⟨t', h2, e2⟩ := Emu8.halted_effect_8 t ht
    refine ⟨s', t', h1, h2, ?_⟩
    rw [e1, e2, hpc, hmem, hhl]

/-- C16 (amended) at the drivers' first instruction, the one-argument COPY
`let i = hello.start` (16-bit `0x1401 127 0`, 8-bit `0x41 127 0`), and at the
16-bit two-argument `jmpz loop 0` (`0x2004 7 0`), each started once with all
registers 0 and once with all input registers 5 and `reg_out = 6`: the two runs
of each pair end with the same `pc`, memory, `halted` flag and output. -/
theorem c16_registers_scratch_witness :
    (∃ s' t', Emu16.step_cpu (Emu16.boot [0x1401, 127, 0]) = some s' ∧
      Emu16.step_cpu
        { Emu16.boot [0x1401, 127, 0] with reg_in := fun _ => 5, reg_out := 6 } = some t' ∧
      s'.pc = t'.pc ∧ s'.memory = t'.memory ∧ s'.halted = t'.halted ∧
      s'.stdout = t'.stdout) ∧
    (∃ s' t', Emu16.step_cpu (Emu16.boot [0x2004, 7, 0]) = some s' ∧
      Emu16.step_cpu
        { Emu16.boot [0x2004, 7, 0] with reg_in := fun _ => 5, reg_out := 6 } = some t' ∧
      s'.pc = t'.pc ∧ s'.memory = t'.memory ∧ s'.halted = t'.halted ∧
      s'.stdout = t'.stdout) ∧
    (∃ s' t', Emu8.step_cpu (Emu8.boot [0x41, 127, 0]) = some s' ∧
      Emu8.step_cpu
        { Emu8.boot [0x41, 127, 0] with reg_in := fun _ => 5, reg_out := 6 } = some t' ∧
      s'.pc = t'.pc ∧ s'.memory = t'.memory ∧ s'.halted = t'.halted ∧
      s'.stdout = t'.stdout) := by
  refine ⟨?_, ?_, ?_⟩
  · exact c16_registers_scratch.1.2 (Emu16.boot [0x1401, 127, 0])
      { Emu16.boot [0x1401, 127, 0] with reg_in := fun _ => 5, reg_out := 6 }
      (by decide) (by decide) rfl rfl rfl rfl (by decide) (by decide)
  · exact c16_registers_scratch.1.2 (Emu16.boot [0x2004, 7, 0])
      { Emu16.boot [0x2004, 7, 0] with reg_in := fun _ => 5, reg_out := 6 }
      (by decide) (by decide) rfl rfl rfl rfl (by decide) (by decide)
  · have hwf : Emu8.WF
        { Emu8.boot [0x41, 127, 0] with reg_in := fun _ => 5, reg_out := 6 } := by
      obtain ⟨a, -, -, d⟩ := Emu8.WF_boot [0x41, 127, 0] (by decide)
      exact ⟨a, fun _ => (by decide : 5 < Emu8.WORD), by decide, d⟩
    exact c16_registers_scratch.2.2 (Emu8.boot [0x41, 127, 0])
      { Emu8.boot [0x41, 127, 0] with reg_in := fun _ => 5, reg_out := 6 }
      (Emu8.WF_boot _ (by decide)) hwf rfl rfl rfl rfl (by decide)

theorem Emu16.hi_scenario :
    (Emu16.main_loop (Emu16.load_main [0x48, 0x69, 0x0a, 0x00])).map
      (fun c => (c.stdout, c.halted)) = some ([0x48, 0x69, 0x0a, 0x00], true) := by
  decide

/-- C17, as stated, fails: on the memory `48 69 0a 00` followed by the driver's
program, the driver loop does not end with the output `48 69 0a`. -/
theorem c17_end_to_end_counterexample :
    (Emu16.main_loop (Emu16.load_main [0x48, 0x69, 0x0a, 0x00])).map (fun c => c.stdout) ≠
      some [0x48, 0x69, 0x0a] := by
  intro h
  have k := Emu16.hi_scenario
  cases hr : Emu16.main_loop (Emu16.load_main [0x48, 0x69, 0x0a, 0x00]) with
  | none => rw [hr] at k; simp at k
  | some c =>
    rw [hr] at k h
    simp only [Option.map_some', Option.some.injEq, Prod.mk.injEq] at k h
    rw [k.1] at h
    exact absurd h (by decide)

/-- C17, amended. End-to-end scenario, 16-bit configuration: with a zero-filled
memory holding 0x48, 0x69, 0x0a, 0x00 at addresses 0..3, the instruction words of
the driver's program from address 4 on (loop label 7, done label 23) and `pc = 4`,
the driver loop with its budget of 100 returns; the output is exactly the bytes
48 69 0a 00, in that order (each word is poked before it is tested, the
terminating zero too), and the run ends with `halted = true`, after 25 steps
(the state after 24 steps is not yet halted). -/
theorem c17_end_to_end :
    (Emu16.load_main [0x48, 0x69, 0x0a, 0x00]).pc = 4 ∧
    (List.range 24).map (Emu16.load_main [0x48, 0x69, 0x0a, 0x00]).memory =
      [0x48, 0x69, 0x0a, 0x00,
       0x1401, 127, 0, 0x1200, 127, 0x0601, 128, 0x2503, 127, 1, 127,
       0x2105, 0, 128, 0x1004, 23, 0x2004, 7, 0, 0x0006] ∧
    (Emu16.main_loop (Emu16.load_main [0x48, 0x69, 0x0a, 0x00])).map
      (fun c => (c.stdout, c.halted)) = some ([0x48, 0x69, 0x0a, 0x00], true) ∧
    (Emu16.steps 25 (Emu16.load_main [0x48, 0x69, 0x0a, 0x00])).map
      (fun c => (c.stdout, c.halted)) = some ([0x48, 0x69, 0x0a, 0x00], true) ∧
    (Emu16.steps 24 (Emu16.load_main [0x48, 0x69, 0x0a, 0x00])).map
      (fun c => (c.stdout, c.halted)) = some ([0x48, 0x69, 0x0a, 0x00], false) :=
  ⟨by decide, by decide, Emu16.hi_scenario, by decide, by decide⟩

theorem Emu16.steps_succ_end (k : Nat) : ∀ s : Emu16.CPU,
    Emu16.steps (k + 1) s = (Emu16.steps k s).bind Emu16.step_cpu := by
  induction k with
  | zero =>
    intro s
    simp only [Emu16.steps, Option.some_bind]
    cases Emu16.step_cpu s <;> rfl
  | succ k ih =>
    intro s
    rw [Emu16.steps]
    cases h : Emu16.step_cpu s with
    | none => simp [Emu16.steps, h]
    | some s1 =>
      simp only [Option.some_bind]
      rw [ih s1]
      simp [Emu16.steps, h]

theorem Emu16.step_blank (p : Nat) (hp : p < Emu16.MEMSIZE) :
    Emu16.step_cpu { Emu16.init_cpu with pc := p } = some { Emu16.init_cpu with pc := p + 1 } := by
  have hw : (p + 1) % Emu16.WORD = p + 1 := by
    apply Nat.mod_eq_of_lt
    have : Emu16.MEMSIZE = 65280 := by decide
    simp only [Emu16.WORD]; omega
  simp [Emu16.step_cpu, Emu16.fetch_operands, Emu16.fetch, Emu16.load, Emu16.init_cpu, hp,
    Emu16.Instruction.write_addr, Emu16.Instruction.argc, Emu16.fetch_args,
    Emu16.resolve, Emu16.deref, Emu16.Instruction.read_addr0, Emu16.Instruction.read_addr1,
    Emu16.execute, Emu16.Instruction.operation, Emu16.write_back, Emu16.OP_NONE, hw]

theorem Emu16.steps_blank (k : Nat) : ∀ p : Nat, p + k ≤ Emu16.MEMSIZE →
    Emu16.steps k { Emu16.init_cpu with pc := p } = some { Emu16.init_cpu with pc := p + k } := by
  induction k with
  | zero => intro p _; rfl
  | succ k ih =>
    intro p hp
    rw [Emu16.steps, Emu16.step_blank p (by omega), Option.some_bind, ih (p + 1) (by omega)]
    have e : p + 1 + k = p + (k + 1) := by omega
    rw [e]

/-- C18 fails on the code: the buffer `cpu->memory` has `MEMSIZE` = 65280 words,
not 65536, and `step_cpu` indexes it with the raw 16-bit address. Evaluated on
the model, where `none` is an access outside the buffer: an operand dereference
at address 65535 (`0x1200 65535`), a write-back at address 65535
(`0x1401 65535 7`), a jump to 65535 followed by the fetch there
(`0x2004 65535 0`), and the CPU exactly as `init_cpu` returns it, whose `pc`
reaches 65280 after 65280 steps, so that the next fetch is outside the buffer. -/
theorem c18_address_space_overrun :
    Emu16.MEMSIZE = 65280 ∧
    Emu16.step_cpu (Emu16.boot [0x1200, 65535]) = none ∧
    Emu16.step_cpu (Emu16.boot [0x1401, 65535, 7]) = none ∧
    (Emu16.steps 1 (Emu16.boot [0x2004, 65535, 0])).map (fun c => c.pc) = some 65535 ∧
    Emu16.steps 2 (Emu16.boot [0x2004, 65535, 0]) = none ∧
    Emu16.steps 65280 Emu16.init_cpu = some { Emu16.init_cpu with pc := 65280 } ∧
    Emu16.steps 65281 Emu16.init_cpu = none := by
  refine ⟨by decide, ?_, ?_, by decide, ?_, ?_, ?_⟩
  · rw [← Option.not_isSome_iff_eq_none]; decide
  · rw [← Option.not_isSome_iff_eq_none]; decide
  · rw [← Option.not_isSome_iff_eq_none]; decide
  · exact Emu16.steps_blank 65280 0 (by decide)
  · have h : Emu16.steps 65280 Emu16.init_cpu = some { Emu16.init_cpu with pc := 65280 } :=
      Emu16.steps_blank 65280 0 (by decide)
    rw [Emu16.steps_succ_end, h, Option.some_bind]
    rw [← Option.not_isSome_iff_eq_none]
    simp [Emu16.step_cpu, Emu16.fetch_operands, Emu16.fetch, Emu16.load, Emu16.init_cpu,
      Emu16.MEMSIZE, Emu16.ZERO_PAGE_SIZE]

theorem Emu8.WF_boot_update (img : List Nat) (a v : Nat) (h : ∀ x ∈ img, x < 256)
    (hv : v < 256) :
    Emu8.WF { Emu8.boot img with memory := Function.update (imageOf img) a v } := by
  refine ⟨by simp [Emu8.boot, Emu8.init_cpu, Emu8.WORD],
    fun _ => by simp [Emu8.boot, Emu8.init_cpu, Emu8.WORD],
    by simp [Emu8.boot, Emu8.init_cpu, Emu8.WORD], fun b => ?_⟩
  show Function.update (imageOf img) a v b < 256
  rw [Function.update_apply]
  split_ifs
  · exact hv
  · exact imageOf_lt img 256 (by decide) h b

theorem Emu8.resolve_eq_resolve_and (ix : Emu8.Instruction) (c : Emu8.CPU) :
    Emu8.resolve ix c = Emu8.resolve_and ix c := by
  cases hA : ix.read_addr0 <;> cases hB : ix.read_addr1 <;>
    simp [Emu8.resolve, Emu8.deref, Emu8.resolve_and, Emu8.deref_and, Emu8.copy_quirk,
      Emu8.OP_COPY, hA, hB]

theorem Emu8.resolve_eq_resolve_plain (ix : Emu8.Instruction) (c : Emu8.CPU)
    (h : ¬ (ix.operation = Emu8.OP_COPY ∧ ix.read_addr1 = true)) :
    Emu8.resolve ix c = Emu8.resolve_plain ix c := by
  cases hA : ix.read_addr0 <;> cases hB : ix.read_addr1 <;>
    simp [Emu8.resolve, Emu8.deref, Emu8.resolve_plain, Emu8.deref_plain, Emu8.copy_quirk,
      Emu8.OP_COPY, hA, hB] at h ⊢ <;> simp [h]

theorem Emu8.copy_quirk_effect (s : Emu8.CPU) (h : Emu8.WF s)
    (hop : (Emu8.Instruction.mk (s.memory s.pc)).operation = Emu8.OP_COPY)
    (h1 : (Emu8.Instruction.mk (s.memory s.pc)).read_addr1 = true) :
    ∃ wa mid s',
      Emu8.fetch_operands ⟨s.memory s.pc⟩ { s with pc := (s.pc + 1) % Emu8.WORD } =
        some (wa, mid) ∧
      Emu8.step_cpu s = some s' ∧
      mid.reg_in 0 = s.memory ((s.pc + 1 +
        (if (Emu8.Instruction.mk (s.memory s.pc)).write_addr then 1 else 0)) % Emu8.WORD) ∧
      s'.reg_in 1 = mid.reg_in 1 ∧
      s'.reg_in 0 = (if (Emu8.Instruction.mk (s.memory s.pc)).read_addr0
        then s.memory (s.memory (mid.reg_in 0)) else s.memory (mid.reg_in 0)) ∧
      s'.reg_out = s'.reg_in 0 := by
  have hne : (Emu8.Instruction.mk (s.memory s.pc)).operation ≠ Emu8.OP_HALT := by
    rw [hop]; decide
  obtain ⟨wa, mid, res, s', hf, hr, hs, -, -, -, -, -, -, hreg', ho, -, -, -⟩ :=
    Emu8.step_cpu_effect_8 s h hne
  obtain ⟨hreg, r0, r1, -⟩ := Emu8.resolved_regs_8 s wa mid res hf hr
  have hq : Emu8.copy_quirk ⟨s.memory s.pc⟩ = true := by
    simp [Emu8.copy_quirk, hop, h1, Emu8.OP_COPY]
  have hn : 0 < (Emu8.Instruction.mk (s.memory s.pc)).nargs := by
    rcases Emu8.nargs_cases ⟨s.memory s.pc⟩ with k | k <;> omega
  rw [h1, hq] at r0 r1
  simp only [Bool.and_self, if_true, Bool.not_true, Bool.and_false, Bool.false_eq_true,
    if_false] at r0 r1
  refine ⟨wa, mid, s', hf, hs, ?_, ?_, ?_, ?_⟩
  · rw [hreg 0, if_pos hn]; simp
  · rw [hreg', r1]
  · rw [hreg', r0]
    split <;> rfl
  · rw [ho, hreg', (Emu8.execute_fields_8 _ res).1, if_pos hop]

/-- C19. The 8-bit COPY dereference quirk. (a) On every instruction and every
state the dereference pass of the source, whose special case is written
`ix.operation == (OP_COPY && ix.read_addr1)`, is the pass with the special case
`ix.operation == OP_COPY && ix.read_addr1`. (b) For every instruction other than
a COPY with `read_addr1` set it is the plain per-register pass of the 16-bit
configuration. (c) For every well-formed state whose instruction is COPY with
`read_addr1` set, the step returns; input register 1 keeps its raw value (it is
not dereferenced), input register 0 is dereferenced in its place, so that
`reg_out = memory[memory[arg0]]` when `read_addr0` is set too and
`reg_out = memory[arg0]` when it is clear, `arg0` being the first argument word. -/
theorem c19_copy_quirk_8 :
    (∀ (ix : Emu8.Instruction) (c : Emu8.CPU), Emu8.resolve ix c = Emu8.resolve_and ix c) ∧
    (∀ (ix : Emu8.Instruction) (c : Emu8.CPU),
      ¬ (ix.operation = Emu8.OP_COPY ∧ ix.read_addr1 = true) →
      Emu8.resolve ix c = Emu8.resolve_plain ix c) ∧
    (∀ s : Emu8.CPU, Emu8.WF s →
      (Emu8.Instruction.mk (s.memory s.pc)).operation = Emu8.OP_COPY →
      (Emu8.Instruction.mk (s.memory s.pc)).read_addr1 = true →
      ∃ wa mid s',
        Emu8.fetch_operands ⟨s.memory s.pc⟩ { s with pc := (s.pc + 1) % Emu8.WORD } =
          some (wa, mid) ∧
        Emu8.step_cpu s = some s' ∧
        mid.reg_in 0 = s.memory ((s.pc + 1 +
          (if (Emu8.Instruction.mk (s.memory s.pc)).write_addr then 1 else 0)) % Emu8.WORD) ∧
        s'.reg_in 1 = mid.reg_in 1 ∧
        s'.reg_in 0 = (if (Emu8.Instruction.mk (s.memory s.pc)).read_addr0
          then s.memory (s.memory (mid.reg_in 0)) else s.memory (mid.reg_in 0)) ∧
        s'.reg_out = s'.reg_in 0) :=
  ⟨Emu8.resolve_eq_resolve_and, Emu8.resolve_eq_resolve_plain, Emu8.copy_quirk_effect⟩

/-- C19 at the driver's `let char = *i` (`0x71 128 127`: COPY with the write
flag and both read flags) over a memory with 3 at address 127 and 0x48 at
address 3: `reg_out = memory[memory[127]] = 0x48`; and at the same COPY with
`read_addr0` clear and two arguments (`0xD1 128 127 5`): `reg_out = memory[127] = 3`
and input register 1 stays the raw 5. -/
theorem c19_copy_quirk_8_witness :
    (∃ s', Emu8.step_cpu
        { Emu8.boot [0x71, 128, 127, 0x48] with
          memory := Function.update (imageOf [0x71, 128, 127, 0x48]) 127 3 } = some s' ∧
      s'.reg_out = 0x48) ∧
    (∃ s', Emu8.step_cpu
        { Emu8.boot [0xD1, 128, 127, 5] with
          memory := Function.update (imageOf [0xD1, 128, 127, 5]) 127 3 } = some s' ∧
      s'.reg_out = 3 ∧ s'.reg_in 1 = 5) := by
  constructor
  · obtain ⟨wa, mid, s', -, hs, h0, -, hr0, ho⟩ :=
      c19_copy_quirk_8.2.2 _ (Emu8.WF_boot_update [0x71, 128, 127, 0x48] 127 3 (by decide)
        (by decide)) (by decide) (by decide)
    refine ⟨s', hs, ?_⟩
    rw [ho, hr0, if_pos (by decide), h0]
    decide
  · obtain ⟨wa, mid, s', hf, hs, h0, h1, hr0, ho⟩ :=
      c19_copy_quirk_8.2.2 _ (Emu8.WF_boot_update [0xD1, 128, 127, 5] 127 3 (by decide)
        (by decide)) (by decide) (by decide)
    have hm1 : (Emu8.step_cpu
        { Emu8.boot [0xD1, 128, 127, 5] with
          memory := Function.update (imageOf [0xD1, 128, 127, 5]) 127 3 }).map
            (fun c => c.reg_in 1) = some 5 := by decide
    rw [hs] at hm1
    refine ⟨s', hs, ?_, by simpa using hm1⟩
    rw [ho, hr0, if_neg (by decide), h0]
    decide

/-- C20. The 8-bit step is total and never leaves memory. For every CPU state
whose `pc`, registers and memory cells are `uint8_t` values, whatever the
program, `step_cpu` returns a state: in the model that means that every memory
index it used (opcode fetch, write-address fetch, argument fetches, operand
dereferences, write-back target) was below 256 and every input-register index
below 3, since any other access makes the step return `none`. The state it
returns again holds only `uint8_t` values; in particular `pc` is below 256. -/
theorem c20_step_total_8 (s : Emu8.CPU) (h : Emu8.WF s) :
    ∃ s', Emu8.step_cpu s = some s' ∧ Emu8.WF s' := by
  obtain ⟨hpc, hreg, hout, hmem⟩ := h
  by_cases hop : (Emu8.Instruction.mk (s.memory s.pc)).operation = Emu8.OP_HALT
  · exact ⟨_, Emu8.step_cpu_halt s hpc hop, Nat.mod_lt _ (by decide), hreg, hout, hmem⟩
  · obtain ⟨wa, mid, res, s', hf, hr, hs, hp, -, hro, -, -, hp', hreg', ho, -, -, hm⟩ :=
      Emu8.step_cpu_effect_8 s ⟨hpc, hreg, hout, hmem⟩ hop
    obtain ⟨hmid, r0, r1, r2⟩ := Emu8.resolved_regs_8 s wa mid res hf hr
    have hmidlt : ∀ j, mid.reg_in j < Emu8.WORD := by
      intro j
      rw [hmid j]
      split
      · exact hmem _
      · exact hreg j
    have hreslt : ∀ j, res.reg_in j < Emu8.WORD := by
      intro j
      rcases Nat.lt_or_ge j 2 with hj | hj
      · rcases Nat.lt_or_ge j 1 with hj0 | hj1
        · obtain rfl : j = 0 := by omega
          rw [r0]
          split_ifs <;> first | exact hmem _ | exact hmidlt _
        · obtain rfl : j = 1 := by omega
          rw [r1]
          split_ifs <;> first | exact hmem _ | exact hmidlt _
      · rw [r2 j hj]; exact hmidlt j
    obtain ⟨x1, x2, -⟩ := Emu8.execute_fields_8 ⟨s.memory s.pc⟩ res
    have hout' : s'.reg_out < Emu8.WORD := by
      rw [ho, x1]
      split_ifs
      · exact hreslt 0
      · exact Nat.mod_lt _ (by decide)
      · rw [hro]; exact hout
    refine ⟨s', hs, ?_, ?_, hout', ?_⟩
    · rw [hp', x2]
      split_ifs
      · exact hreslt 0
      · rw [hp]; exact Nat.mod_lt _ (by decide)
    · intro j; rw [hreg']; exact hreslt j
    · intro a
      rw [hm]
      split_ifs
      · rw [← ho, Function.update_apply]
        split_ifs
        · exact hout'
        · exact hmem a
      · exact hmem a

/-- C20 at a state full of the largest values: every memory cell 0xFF (the word
0xFF is opcode 15 with all flags set and two arguments), `pc = 255`, every
register 255. The step returns, with `pc = 3`. -/
theorem c20_step_total_8_witness :
    ∃ s', Emu8.step_cpu
        { pc := 255, reg_in := fun _ => 255, reg_out := 255, memory := fun _ => 255,
          halted := false, stdout := [] } = some s' ∧
      Emu8.WF s' ∧ s'.pc = 3 := by
  obtain ⟨s', hs, hwf⟩ := c20_step_total_8
    { pc := 255, reg_in := fun _ => 255, reg_out := 255, memory := fun _ => 255,
      halted := false, stdout := [] }
    ⟨by decide, fun _ => (by decide : 255 < Emu8.WORD), by decide,
      fun _ => (by decide : 255 < Emu8.WORD)⟩
  have hp : (Emu8.step_cpu
      { pc := 255, reg_in := fun _ => 255, reg_out := 255, memory := fun _ => 255,
        halted := false, stdout := [] }).map (fun c => c.pc) = some 3 := by decide
  rw [hs] at hp
  exact ⟨s', hs, hwf, by simpa using hp⟩
